import Mathlib

/-!
# Health-Analyzer: metrics, risk scoring, recommendations and the record query pipeline

A shallow embedding of `src/utils/healthUtils.js`, of the query pipeline and the
pagination of `src/components/Dashboard.js`, and of the health-issue toggle and the
validation of `src/components/HealthForm.js`.

Conventions of the embedding.

* A JavaScript number is the rational (`ℚ`) it equals; a field or argument that may be
  missing (`undefined`) is an `Option`, with `none` for the missing value.  Comparisons
  and the subtraction of sort keys are taken exactly; not-a-number appears there only as
  the result `none` of a subtraction or of a conversion to a number.
* The arithmetic of `calculateBMI` is binary64: each division and product rounds its
  exact result to the nearest binary64 value (`roundToDouble`), and the result is a
  `JsNumber`, a finite value, an infinity or not-a-number.
* The dependency array of an effect is compared by `Object.is`: strings by value, an
  array by identity (`runEffect` takes the identity of `healthRecords` as an argument).
* A comparison with a missing operand is `false`, as in JavaScript (`undefined < 6`
  is `false`).
* Optional chaining `a?.b` is `Option.bind`.
* A property read on a missing object (`record.bmi.category` with no `bmi`) raises
  a `TypeError`; code that can raise returns `Except JsError _`.
* A string is its list of characters; a regular expression anchored by `^` and `$` is
  matched against the whole string.
* React state is a record; a handler is a function from the state to the next state.
-/

namespace HealthAnalyzer

/-! ## Data model -/

/-- The `bmi` sub-object of a record. -/
structure Bmi where
  value : Option ℚ
  category : Option String
deriving DecidableEq, Repr

/-- The `lifestyleHabits.exercise` sub-object. -/
structure Exercise where
  frequency : Option String
deriving DecidableEq, Repr

/-- The `lifestyleHabits.sleep` sub-object. -/
structure Sleep where
  hoursPerNight : Option ℚ
deriving DecidableEq, Repr

/-- The `lifestyleHabits` sub-object. -/
structure LifestyleHabits where
  smoking : Option String
  exercise : Option Exercise
  sleep : Option Sleep
  waterIntake : Option ℚ
deriving DecidableEq, Repr

/-- A health record as the utilities and the dashboard read it.  `createdAt` holds the
time value (milliseconds) of `new Date(record.createdAt)`; `none` is an invalid or
missing date. -/
structure HealthRecord where
  name : Option String
  email : Option String
  age : Option ℚ
  bmi : Option Bmi
  healthScore : Option ℚ
  createdAt : Option ℤ
  lifestyleHabits : Option LifestyleHabits
  existingHealthIssues : Option (List String)
deriving DecidableEq, Repr

/-- The object returned by `getRiskLevel`. -/
structure RiskLevel where
  level : String
  color : String
deriving DecidableEq, Repr

/-- A recommendation object pushed by `generateRecommendations`. -/
structure Recommendation where
  type : String
  priority : String
  text : String
  icon : String
deriving DecidableEq, Repr

/-! ## JavaScript primitives on numbers that may be missing -/

/-- Truthiness of a number that may be missing: `undefined` and `0` are falsy. -/
def truthy : Option ℚ → Bool
  | none => false
  | some q => decide (q ≠ 0)

/-- The comparison `a < b`; `false` when `a` is missing. -/
def jsLt : Option ℚ → ℚ → Bool
  | none, _ => false
  | some a, b => decide (a < b)

/-- The comparison `a <= b`; `false` when `a` is missing. -/
def jsLe : Option ℚ → ℚ → Bool
  | none, _ => false
  | some a, b => decide (a ≤ b)

/-- The comparison `a > b`; `false` when `a` is missing. -/
def jsGt : Option ℚ → ℚ → Bool
  | none, _ => false
  | some a, b => decide (a > b)

/-- The comparison `a >= b`; `false` when `a` is missing. -/
def jsGe : Option ℚ → ℚ → Bool
  | none, _ => false
  | some a, b => decide (a ≥ b)

/-! ## Numbers as binary64 values (the arithmetic of `calculateBMI`) -/

/-- A number of the language: a finite binary64 value, held as the rational number it
equals, an infinity with its sign, or not-a-number.  The two zeros are not told apart;
the zero stands for `+0`. -/
inductive JsNumber where
  | finite (value : ℚ)
  | infinity (negative : Bool)
  | notANumber
deriving DecidableEq, Repr

/-- The integer nearest to `x`, the even one of the two on a tie. -/
def roundHalfEven (x : ℚ) : ℤ :=
  if x - ⌊x⌋ < 1 / 2 then ⌊x⌋
  else if 1 / 2 < x - ⌊x⌋ then ⌊x⌋ + 1
  else if ⌊x⌋ % 2 = 0 then ⌊x⌋ else ⌊x⌋ + 1

/-- Rounding of an exact result to binary64, to the nearest value and to the even
significand on a tie: with `2 ^ e <= |x| < 2 ^ (e + 1)`, and `e` not below the exponent
-1022 of the subnormal values, the values around `x` are the multiples of `2 ^ (e - 52)`;
a result of magnitude `2 ^ 1024` or more is an infinity. -/
def roundToDouble (x : ℚ) : JsNumber :=
  let e : ℤ := max (Int.log 2 |x|) (-1022)
  let quantum : ℚ := 2 ^ (e - 52)
  let r : ℚ := (roundHalfEven (x / quantum) : ℚ) * quantum
  if (2 : ℚ) ^ (1024 : ℕ) ≤ |r| then .infinity (decide (x < 0)) else .finite r

/-- The operator `/` on numbers. -/
def numberDiv : JsNumber → JsNumber → JsNumber
  | .notANumber, _ => .notANumber
  | _, .notANumber => .notANumber
  | .infinity _, .infinity _ => .notANumber
  | .infinity s, .finite y => .infinity (xor s (decide (y < 0)))
  | .finite _, .infinity _ => .finite 0
  | .finite x, .finite y =>
    if y = 0 then (if x = 0 then .notANumber else .infinity (decide (x < 0)))
    else roundToDouble (x / y)

/-- The operator `*` on numbers. -/
def numberMul : JsNumber → JsNumber → JsNumber
  | .notANumber, _ => .notANumber
  | _, .notANumber => .notANumber
  | .infinity s, .infinity t => .infinity (xor s t)
  | .infinity s, .finite y => if y = 0 then .notANumber else .infinity (xor s (decide (y < 0)))
  | .finite x, .infinity t => if x = 0 then .notANumber else .infinity (xor (decide (x < 0)) t)
  | .finite x, .finite y => roundToDouble (x * y)

/-- The decimal that `x.toFixed(2)` writes for a finite `x` of magnitude below `10 ^ 21`:
`n / 100` for the integer `n` with `n / 100` closest to `x`, the larger one on a tie,
after moving the sign of a negative `x` out. -/
def toFixed2 (x : ℚ) : ℚ :=
  if x < 0 then -((⌊(-x) * 100 + 1 / 2⌋ : ℤ) : ℚ) / 100
  else ((⌊x * 100 + 1 / 2⌋ : ℤ) : ℚ) / 100

/-- The value of `parseFloat(x.toFixed(2))`: `parseFloat` gives the binary64 value nearest
to the decimal that `toFixed` writes; for a magnitude of `10 ^ 21` or more `toFixed`
writes the number as `String(x)` does, and for an infinity and not-a-number their names,
which `parseFloat` reads back as the same number. -/
def parseFloatToFixed2 : JsNumber → JsNumber
  | .finite x => if (10 : ℚ) ^ (21 : ℕ) ≤ |x| then .finite x else roundToDouble (toFixed2 x)
  | .infinity s => .infinity s
  | .notANumber => .notANumber

/-! ## Metrics engine (`healthUtils.js`, lines 2-21) -/

/-- Embedding of `calculateBMI(weight, height)`; `none` is the `null` result.  An
argument is the number it equals (a decimal such as 75.2 in a program text or a form
field denotes the binary64 value `roundToDouble` gives for it), and each of the three
operations rounds its exact result to binary64. -/
def calculateBMI (weight height : Option ℚ) : Option JsNumber :=
  if !truthy weight || !truthy height || jsLe weight 0 || jsLe height 0 then
    none
  else
    match weight, height with
    | some w, some h =>
      let heightInMeters := numberDiv (.finite h) (.finite 100)
      let bmi := numberDiv (.finite w) (numberMul heightInMeters heightInMeters)
      some (parseFloatToFixed2 bmi)
    | _, _ => none -- not reached: a missing operand is falsy

/-- Embedding of `getBMICategory(bmi)`. -/
def getBMICategory (bmi : Option ℚ) : String :=
  if !truthy bmi || jsLe bmi 0 then "Unknown"
  else if jsLt bmi 18.5 then "Underweight"
  else if jsLt bmi 25 then "Normal"
  else if jsLt bmi 30 then "Overweight"
  else "Obese"

/-! ## Risk and recommendation engine (`healthUtils.js`, lines 89-125 and 202-266) -/

/-- The value of the local variable `riskScore` of `getRiskLevel` when line 121 is
reached (lines 90-119). -/
def riskScore (healthRecord : HealthRecord) : ℕ :=
  let riskScore := 0
  -- BMI risk
  let bmiCategory := getBMICategory (healthRecord.bmi.bind Bmi.value)
  let riskScore :=
    if bmiCategory = "Obese" then riskScore + 3
    else if bmiCategory = "Overweight" then riskScore + 2
    else if bmiCategory = "Underweight" then riskScore + 1
    else riskScore
  -- Age risk
  let riskScore :=
    if jsGt healthRecord.age 65 then riskScore + 2
    else if jsGt healthRecord.age 50 then riskScore + 1
    else riskScore
  -- Smoking risk
  let riskScore :=
    if healthRecord.lifestyleHabits.bind LifestyleHabits.smoking = some "Regular" then
      riskScore + 3
    else if healthRecord.lifestyleHabits.bind LifestyleHabits.smoking = some "Occasional" then
      riskScore + 1
    else riskScore
  -- Exercise risk
  let exerciseFreq :=
    (healthRecord.lifestyleHabits.bind LifestyleHabits.exercise).bind Exercise.frequency
  let riskScore :=
    if exerciseFreq = some "Never" then riskScore + 2
    else if exerciseFreq = some "Rarely" then riskScore + 1
    else riskScore
  -- Sleep risk
  let sleepHours :=
    (healthRecord.lifestyleHabits.bind LifestyleHabits.sleep).bind Sleep.hoursPerNight
  let riskScore :=
    if jsLt sleepHours 6 || jsGt sleepHours 10 then riskScore + 1 else riskScore
  -- Health issues risk
  let healthIssues := healthRecord.existingHealthIssues.getD []
  let riskScore :=
    if healthIssues.length > 0
        ∧ ¬ (healthIssues.length = 1 ∧ healthIssues.head? = some "None") then
      riskScore + healthIssues.length
    else riskScore
  riskScore

/-- Embedding of `getRiskLevel(healthRecord)`: lines 121-124 applied to the score of
lines 90-119. -/
def getRiskLevel (healthRecord : HealthRecord) : RiskLevel :=
  if riskScore healthRecord ≥ 6 then { level := "High", color := "#EF4444" }
  else if riskScore healthRecord ≥ 3 then { level := "Medium", color := "#F59E0B" }
  else { level := "Low", color := "#10B981" }

/-- Embedding of `generateRecommendations(healthRecord)`: the array after the five rule
blocks, each `push` appending at the end. -/
def generateRecommendations (healthRecord : HealthRecord) : List Recommendation :=
  let recommendations : List Recommendation := []
  let bmiCategory := getBMICategory (healthRecord.bmi.bind Bmi.value)
  -- BMI recommendations
  let recommendations :=
    if bmiCategory = "Overweight" ∨ bmiCategory = "Obese" then
      recommendations ++ [{
        type := "weight",
        priority := "high",
        text := "Consider a balanced diet and regular exercise to achieve healthy weight",
        icon := "⚖️" }]
    else if bmiCategory = "Underweight" then
      recommendations ++ [{
        type := "weight",
        priority := "medium",
        text := "Consider consulting a nutritionist to gain healthy weight",
        icon := "🍎" }]
    else recommendations
  -- Exercise recommendations
  let exerciseFreq :=
    (healthRecord.lifestyleHabits.bind LifestyleHabits.exercise).bind Exercise.frequency
  let recommendations :=
    if exerciseFreq = some "Never" ∨ exerciseFreq = some "Rarely" then
      recommendations ++ [{
        type := "exercise",
        priority := "high",
        text := "Aim for at least 150 minutes of moderate exercise per week",
        icon := "🏃‍♂️" }]
    else recommendations
  -- Smoking recommendations
  let recommendations :=
    if healthRecord.lifestyleHabits.bind LifestyleHabits.smoking ≠ some "Never" then
      recommendations ++ [{
        type := "smoking",
        priority := "high",
        text := "Consider quitting smoking for better health",
        icon := "🚭" }]
    else recommendations
  -- Sleep recommendations
  let sleepHours :=
    (healthRecord.lifestyleHabits.bind LifestyleHabits.sleep).bind Sleep.hoursPerNight
  let recommendations :=
    if jsLt sleepHours 7 then
      recommendations ++ [{
        type := "sleep",
        priority := "medium",
        text := "Aim for 7-9 hours of quality sleep per night",
        icon := "😴" }]
    else recommendations
  -- Water intake recommendations
  let recommendations :=
    if jsLt (healthRecord.lifestyleHabits.bind LifestyleHabits.waterIntake) 8 then
      recommendations ++ [{
        type := "hydration",
        priority := "medium",
        text := "Increase daily water intake to at least 8 glasses",
        icon := "💧" }]
    else recommendations
  recommendations

/-! ## Contributions to the risk score as the specification words them -/

/-- Points of the BMI factor, from the category. -/
def bmiPoints (category : String) : ℕ :=
  if category = "Obese" then 3
  else if category = "Overweight" then 2
  else if category = "Underweight" then 1
  else 0

/-- Points of the age factor; a missing age gives none. -/
def agePoints : Option ℚ → ℕ
  | none => 0
  | some age => if age > 65 then 2 else if age > 50 ∧ age ≤ 65 then 1 else 0

/-- Points of the smoking factor. -/
def smokingPoints (smoking : Option String) : ℕ :=
  if smoking = some "Regular" then 3 else if smoking = some "Occasional" then 1 else 0

/-- Points of the exercise factor. -/
def exercisePoints (frequency : Option String) : ℕ :=
  if frequency = some "Never" then 2 else if frequency = some "Rarely" then 1 else 0

/-- Points of the sleep factor; missing hours give none. -/
def sleepPoints : Option ℚ → ℕ
  | none => 0
  | some hours => if hours < 6 ∨ hours > 10 then 1 else 0

/-- Points of the health-issues factor. -/
def issuesPoints (issues : List String) : ℕ :=
  if issues ≠ [] ∧ issues ≠ ["None"] then issues.length else 0

/-- Position of a level in the order Low < Medium < High. -/
def levelRank (level : String) : ℕ :=
  if level = "High" then 2 else if level = "Medium" then 1 else 0

/-- The end-to-end example record of the specification. -/
def exampleRecord : HealthRecord where
  name := some "A"
  email := none
  age := some 70
  bmi := some { value := some 32, category := none }
  healthScore := some 40
  createdAt := none
  lifestyleHabits := some {
    smoking := some "Never",
    exercise := some { frequency := some "Never" },
    sleep := some { hoursPerNight := some 5 },
    waterIntake := some 3 }
  existingHealthIssues := some ["None"]

/-- A record with no field but a list of health issues. -/
def issuesOnlyRecord (issues : List String) : HealthRecord where
  name := none
  email := none
  age := none
  bmi := none
  healthScore := none
  createdAt := none
  lifestyleHabits := none
  existingHealthIssues := some issues

/-- A record with the five inputs of the recommendation example of the specification:
BMI 32, exercise Never, smoking Regular, 5 hours of sleep, 4 glasses of water. -/
def recommendationExample : HealthRecord where
  name := none
  email := none
  age := none
  bmi := some { value := some 32, category := none }
  healthScore := none
  createdAt := none
  lifestyleHabits := some {
    smoking := some "Regular",
    exercise := some { frequency := some "Never" },
    sleep := some { hoursPerNight := some 5 },
    waterIntake := some 4 }
  existingHealthIssues := none

/-! ## Record query pipeline (`Dashboard.js`, lines 56-103)

The string primitives `toLowerCase` and `localeCompare` of the runtime are parameters
of the definitions. -/

/-- An exception raised by the runtime; the only one these functions can raise is the
`TypeError` of a property read on `undefined`. -/
inductive JsError where
  | typeError
deriving DecidableEq, Repr

/-- Test `s.includes(t)`: `t` occurs in `s` as a contiguous run of characters. -/
def includes (s t : String) : Bool :=
  decide (t.data <:+: s.data)

/-- The callback of `filter` at lines 61-65 on one record.  The operator `||` evaluates
its right operand only when the left one is false, and `.toLowerCase()` on a missing
field, or `.category` on a missing `bmi`, raises. -/
def matchesSearch (toLowerCase : String → String) (searchTerm : String)
    (record : HealthRecord) : Except JsError Bool :=
  match record.name with
  | none => .error .typeError
  | some name =>
    if includes (toLowerCase name) (toLowerCase searchTerm) then .ok true
    else
      match record.email with
      | none => .error .typeError
      | some email =>
        if includes (toLowerCase email) (toLowerCase searchTerm) then .ok true
        else
          match record.bmi with
          | none => .error .typeError
          | some bmi =>
            match bmi.category with
            | none => .error .typeError
            | some category =>
              .ok (includes (toLowerCase category) (toLowerCase searchTerm))

/-- The method `Array.prototype.filter` with a callback that may raise: the callback runs
on the elements in order and the kept ones stay in order. -/
def arrayFilter {α : Type} (callback : α → Except JsError Bool) :
    List α → Except JsError (List α)
  | [] => .ok []
  | a :: l =>
    match callback a with
    | .error e => .error e
    | .ok keep =>
      match arrayFilter callback l with
      | .error e => .error e
      | .ok rest => .ok (if keep then a :: rest else rest)

/-- The filter step of `filterRecords` (lines 57-66): the copy of `healthRecords`,
filtered when `searchTerm` is a non-empty string. -/
def filterStep (toLowerCase : String → String) (searchTerm : String)
    (healthRecords : List HealthRecord) : Except JsError (List HealthRecord) :=
  let filtered := healthRecords
  if searchTerm ≠ "" then
    arrayFilter (matchesSearch toLowerCase searchTerm) filtered
  else .ok filtered

/-- A value of `aValue` or `bValue` in the comparator: a string, or a number that may be
missing (a `Date` counts as its time value). -/
inductive SortValue where
  | str (s : String)
  | num (x : Option ℚ)
deriving DecidableEq, Repr

/-- The `switch (sortBy)` of lines 72-94 for one of the two records. -/
def sortValue (toLowerCase : String → String) (sortBy : String) (record : HealthRecord) :
    Except JsError SortValue :=
  if sortBy = "name" then
    match record.name with
    | none => .error .typeError
    | some name => .ok (.str (toLowerCase name))
  else if sortBy = "age" then .ok (.num record.age)
  else if sortBy = "bmi" then
    match record.bmi with
    | none => .error .typeError
    | some bmi => .ok (.num bmi.value)
  else if sortBy = "healthScore" then .ok (.num record.healthScore)
  else .ok (.num (record.createdAt.map (fun t => (t : ℚ))))

/-- The subtraction `x - y`; `none` (not a number) when an operand is missing. -/
def jsSub : Option ℚ → Option ℚ → Option ℚ
  | some x, some y => some (x - y)
  | _, _ => none

/-- The comparator passed to `sort` at lines 69-103.  Its result is a number, `none`
standing for not-a-number. -/
def compareRecords (toLowerCase : String → String) (localeCompare : String → String → ℤ)
    (sortBy sortOrder : String) (a b : HealthRecord) : Except JsError (Option ℚ) :=
  match sortValue toLowerCase sortBy a with
  | .error e => .error e
  | .ok aValue =>
    match sortValue toLowerCase sortBy b with
    | .error e => .error e
    | .ok bValue =>
      match aValue, bValue with
      | .str x, .str y =>
        .ok (some (if sortOrder = "asc" then (localeCompare x y : ℚ)
          else (localeCompare y x : ℚ)))
      | .num x, .num y =>
        .ok (if sortOrder = "asc" then jsSub x y else jsSub y x)
      | _, _ => .ok none -- not reached: both values come from the same `sortBy`

/-- Reading of a comparator result by `sort`: `a` may stay before `b` when the result is
not positive; not-a-number counts as `+0`. -/
def notAfter : Option ℚ → Bool
  | none => true
  | some v => decide (v ≤ 0)

/-- Insertion of `a` in front of the first element it need not follow. -/
def sortInsert {α : Type} (comparator : α → α → Except JsError (Option ℚ)) (a : α) :
    List α → Except JsError (List α)
  | [] => .ok [a]
  | b :: l =>
    match comparator a b with
    | .error e => .error e
    | .ok v =>
      if notAfter v then .ok (a :: b :: l)
      else
        match sortInsert comparator a l with
        | .error e => .error e
        | .ok rest => .ok (b :: rest)

/-- The method `Array.prototype.sort` with a comparator that may raise, as a stable
insertion sort.  The language fixes the result of `sort` (sorted and stable) only for a
consistent comparator; for such a comparator every stable sort returns this list. -/
def arraySort {α : Type} (comparator : α → α → Except JsError (Option ℚ)) :
    List α → Except JsError (List α)
  | [] => .ok []
  | a :: l =>
    match arraySort comparator l with
    | .error e => .error e
    | .ok sorted => sortInsert comparator a sorted

/-- The sort step of `filterRecords` (lines 69-103). -/
def sortStep (toLowerCase : String → String) (localeCompare : String → String → ℤ)
    (sortBy sortOrder : String) (filtered : List HealthRecord) :
    Except JsError (List HealthRecord) :=
  arraySort (compareRecords toLowerCase localeCompare sortBy sortOrder) filtered

/-- The state of the `Dashboard` component that the query pipeline reads and writes
(lines 9-17). -/
structure DashboardState where
  healthRecords : List HealthRecord
  filteredRecords : List HealthRecord
  searchTerm : String
  sortBy : String
  sortOrder : String
  currentPage : ℤ
deriving DecidableEq, Repr

/-- Embedding of `filterRecords()` (lines 56-107): the filtered and sorted copy of
`healthRecords` becomes `filteredRecords` and the page is reset to 1. -/
def filterRecords (toLowerCase : String → String) (localeCompare : String → String → ℤ)
    (state : DashboardState) : Except JsError DashboardState :=
  match filterStep toLowerCase state.searchTerm state.healthRecords with
  | .error e => .error e
  | .ok filtered =>
    match sortStep toLowerCase localeCompare state.sortBy state.sortOrder filtered with
    | .error e => .error e
    | .ok sorted => .ok { state with filteredRecords := sorted, currentPage := 1 }

/-- Lower-casing of the letters `A` to `Z`, an instance of `toLowerCase`. -/
def asciiLower (s : String) : String :=
  ⟨s.data.map Char.toLower⟩

/-- Comparison of two character lists in dictionary order of the character codes: a
negative, zero or positive number. -/
def compareChars : List Char → List Char → ℤ
  | [], [] => 0
  | [], _ :: _ => -1
  | _ :: _, [] => 1
  | a :: s, b :: t =>
    if a.toNat < b.toNat then -1
    else if b.toNat < a.toNat then 1
    else compareChars s t

/-- Comparison of strings in dictionary order of their characters, an instance of
`localeCompare`. -/
def codePointCompare (a b : String) : ℤ :=
  compareChars a.data b.data

/-! ## The query pipeline as the specification words it -/

/-- Whether a field is present and its lower-cased text contains the lower-cased term. -/
def containsTerm (toLowerCase : String → String) (searchTerm : String) :
    Option String → Bool
  | none => false
  | some field => includes (toLowerCase field) (toLowerCase searchTerm)

/-- Whether the name, the email or the BMI category of a record contains the term. -/
def searchMatches (toLowerCase : String → String) (searchTerm : String)
    (record : HealthRecord) : Bool :=
  containsTerm toLowerCase searchTerm record.name
    || containsTerm toLowerCase searchTerm record.email
    || containsTerm toLowerCase searchTerm (record.bmi.bind Bmi.category)

/-- Whether a record has the three fields the search reads. -/
def hasSearchFields (record : HealthRecord) : Bool :=
  record.name.isSome && record.email.isSome && (record.bmi.bind Bmi.category).isSome

/-- The numeric sort key of a record: age, `bmi.value`, `healthScore`, and the
`createdAt` time for `createdAt` and every other `sortBy`. -/
def numericKey (sortBy : String) (record : HealthRecord) : Option ℚ :=
  if sortBy = "age" then record.age
  else if sortBy = "bmi" then record.bmi.bind Bmi.value
  else if sortBy = "healthScore" then record.healthScore
  else record.createdAt.map (fun t => (t : ℚ))

/-- Whether the sort key of a record is well defined: a name for `name`, a number for
the other keys. -/
def hasSortKey (sortBy : String) (record : HealthRecord) : Bool :=
  if sortBy = "name" then record.name.isSome else (numericKey sortBy record).isSome

/-- Whether the key of `a` is at most the key of `b`: lower-cased names under
`localeCompare` for `name`, numbers otherwise; false when a key is missing. -/
def keyLe (toLowerCase : String → String) (localeCompare : String → String → ℤ)
    (sortBy : String) (a b : HealthRecord) : Bool :=
  if sortBy = "name" then
    match a.name, b.name with
    | some x, some y => decide (localeCompare (toLowerCase x) (toLowerCase y) ≤ 0)
    | _, _ => false
  else
    match numericKey sortBy a, numericKey sortBy b with
    | some x, some y => decide (x ≤ y)
    | _, _ => false

/-- Whether two records have equal keys. -/
def keyEq (toLowerCase : String → String) (localeCompare : String → String → ℤ)
    (sortBy : String) (a b : HealthRecord) : Bool :=
  keyLe toLowerCase localeCompare sortBy a b && keyLe toLowerCase localeCompare sortBy b a

/-- A consistent string comparator: the sign of `compare a b` is the opposite of the sign
of `compare b a`, and "not after" is transitive. -/
def ConsistentComparator (compare : String → String → ℤ) : Prop :=
  (∀ a b, compare a b ≤ 0 ↔ 0 ≤ compare b a)
  ∧ (∀ a b c, compare a b ≤ 0 → compare b c ≤ 0 → compare a c ≤ 0)

/-- Three records for the examples of the query pipeline. -/
def sampleRecords : List HealthRecord :=
  [ { name := some "Carol", email := some "carol@example.com", age := some 41,
      bmi := some { value := some 27, category := some "Overweight" },
      healthScore := some 70, createdAt := some 3000, lifestyleHabits := none,
      existingHealthIssues := none },
    { name := some "alice", email := some "alice@example.com", age := some 29,
      bmi := some { value := some 22, category := some "Normal" },
      healthScore := some 85, createdAt := some 1000, lifestyleHabits := none,
      existingHealthIssues := none },
    { name := some "Bob", email := some "bob@example.com", age := some 29,
      bmi := some { value := some 31, category := some "Obese" },
      healthScore := some 55, createdAt := some 2000, lifestyleHabits := none,
      existingHealthIssues := none } ]

/-! ## Pagination and event handlers of the dashboard (`Dashboard.js`, lines 18, 121-142) -/

/-- The constant `recordsPerPage` (line 18). -/
def recordsPerPage : ℕ := 6

/-- The method `Array.prototype.slice(start, stop)` on integer arguments: a negative index
counts from the end, both indices are clamped to the array, and an empty range gives the
empty array. -/
def slice {α : Type} (array : List α) (start stop : ℤ) : List α :=
  let len : ℤ := array.length
  let k : ℤ := if start < 0 then max (len + start) 0 else min start len
  let final : ℤ := if stop < 0 then max (len + stop) 0 else min stop len
  let count : ℤ := max (final - k) 0
  (array.drop k.toNat).take count.toNat

/-- The value `totalPages` of a render (line 135). -/
def totalPages (state : DashboardState) : ℤ :=
  ⌈(state.filteredRecords.length : ℚ) / (recordsPerPage : ℚ)⌉

/-- The value `startIndex` of a render (line 136). -/
def startIndex (state : DashboardState) : ℤ :=
  (state.currentPage - 1) * recordsPerPage

/-- The value `endIndex` of a render (line 137). -/
def endIndex (state : DashboardState) : ℤ :=
  startIndex state + recordsPerPage

/-- The value `currentRecords` of a render (line 138). -/
def currentRecords (state : DashboardState) : List HealthRecord :=
  slice state.filteredRecords (startIndex state) (endIndex state)

/-- Embedding of `paginate(pageNumber)` (lines 140-142). -/
def paginate (pageNumber : ℤ) (state : DashboardState) : DashboardState :=
  { state with currentPage := pageNumber }

/-- Embedding of `handleSearch(term)` (lines 121-123). -/
def handleSearch (term : String) (state : DashboardState) : DashboardState :=
  { state with searchTerm := term }

/-- Embedding of `handleSort(field)` (lines 125-132). -/
def handleSort (field : String) (state : DashboardState) : DashboardState :=
  if state.sortBy = field then
    { state with sortOrder := if state.sortOrder = "asc" then "desc" else "asc" }
  else
    { state with sortBy := field, sortOrder := "asc" }

/-- The click handler of the sort-order button (line 194). -/
def toggleSortOrder (state : DashboardState) : DashboardState :=
  { state with sortOrder := if state.sortOrder = "asc" then "desc" else "asc" }

/-- The effect of lines 25-27 after a render: `filterRecords` runs when one of the
dependencies `healthRecords`, `searchTerm`, `sortBy`, `sortOrder` differs from its value
at the previous render, and not otherwise.  The runtime compares the dependencies with
`Object.is`: the three strings by value and the array `healthRecords` by identity, which
the content held in the state does not show.  The argument `healthRecordsReplaced` says
whether the render holds another array object than the previous render (as after
`setHealthRecords`), whatever its content; an array with another content is another
array, since no code of the component writes into `healthRecords`. -/
def runEffect (toLowerCase : String → String) (localeCompare : String → String → ℤ)
    (healthRecordsReplaced : Bool) (previous next : DashboardState) :
    Except JsError DashboardState :=
  if healthRecordsReplaced = true ∨ previous.healthRecords ≠ next.healthRecords
      ∨ previous.searchTerm ≠ next.searchTerm
      ∨ previous.sortBy ≠ next.sortBy ∨ previous.sortOrder ≠ next.sortOrder then
    filterRecords toLowerCase localeCompare next
  else .ok next

/-- The click handler of the Previous button (lines 260-266): the pagination bar is
rendered when `totalPages > 1` and the button is disabled on page 1. -/
def clickPrevious (state : DashboardState) : DashboardState :=
  if totalPages state > 1 ∧ state.currentPage ≠ 1 then
    paginate (state.currentPage - 1) state
  else state

/-- The click handler of the Next button (lines 280-286): the pagination bar is rendered
when `totalPages > 1` and the button is disabled on the last page. -/
def clickNext (state : DashboardState) : DashboardState :=
  if totalPages state > 1 ∧ state.currentPage ≠ totalPages state then
    paginate (state.currentPage + 1) state
  else state

/-- The click handler of the page button of index `i` (lines 268-278): the bar has one
button for each `i` below `totalPages`, with the number `i + 1`. -/
def clickNumber (i : ℕ) (state : DashboardState) : DashboardState :=
  if totalPages state > 1 ∧ (i : ℤ) < totalPages state then
    paginate ((i : ℤ) + 1) state
  else state

/-- The state of the dashboard at its first render (lines 9-17). -/
def initialState : DashboardState where
  healthRecords := []
  filteredRecords := []
  searchTerm := ""
  sortBy := "createdAt"
  sortOrder := "desc"
  currentPage := 1

/-- A record whose age and creation time are the given number. -/
def numberedRecord (i : ℕ) : HealthRecord where
  name := some "Record"
  email := some "record@example.com"
  age := some (i : ℚ)
  bmi := some { value := some 22, category := some "Normal" }
  healthScore := some 80
  createdAt := some (i : ℤ)
  lifestyleHabits := none
  existingHealthIssues := none

/-- A dashboard state that shows fourteen records. -/
def fourteenState : DashboardState where
  healthRecords := (List.range 14).map numberedRecord
  filteredRecords := (List.range 14).map numberedRecord
  searchTerm := ""
  sortBy := "createdAt"
  sortOrder := "asc"
  currentPage := 1

/-- A dashboard state on page 3 of fourteen records, the last of which is the example
record of the specification. -/
def mixedState : DashboardState where
  healthRecords := (List.range 13).map numberedRecord ++ [exampleRecord]
  filteredRecords := (List.range 13).map numberedRecord ++ [exampleRecord]
  searchTerm := ""
  sortBy := "age"
  sortOrder := "asc"
  currentPage := 3

/-- Whether the current page of a state is one of its pages. -/
def pageInRange (state : DashboardState) : Prop :=
  1 ≤ state.currentPage ∧ state.currentPage ≤ totalPages state

/-! ## The arrays of `filterRecords` held by reference

JavaScript arrays are mutable objects and `sort` works in place.  To state that the
input collection is left alone, this section repeats `filterRecords` over a store of
arrays, with the two array-valued state variables holding addresses. -/

/-- A store of arrays: the array at address `i` is the `i`-th entry. -/
abbrev ArrayStore := List (List HealthRecord)

/-- The array at an address (the empty array at an address not in use). -/
def readArray (store : ArrayStore) (address : ℕ) : List HealthRecord :=
  store.getD address []

/-- Creation of a new array: the store with the array at a fresh address, and that
address. -/
def allocate (store : ArrayStore) (array : List HealthRecord) : ArrayStore × ℕ :=
  (store ++ [array], store.length)

/-- The dashboard state with `healthRecords` and `filteredRecords` as addresses. -/
structure DashboardRefs where
  healthRecords : ℕ
  filteredRecords : ℕ
  searchTerm : String
  sortBy : String
  sortOrder : String
  currentPage : ℤ
deriving DecidableEq, Repr

/-- The state that a store and a state of addresses stand for. -/
def viewState (store : ArrayStore) (refs : DashboardRefs) : DashboardState where
  healthRecords := readArray store refs.healthRecords
  filteredRecords := readArray store refs.filteredRecords
  searchTerm := refs.searchTerm
  sortBy := refs.sortBy
  sortOrder := refs.sortOrder
  currentPage := refs.currentPage

/-- Embedding of `filterRecords()` (lines 56-107) over the store: the spread
`[...healthRecords]` and `filter` create new arrays, `sort` overwrites the array it is
called on, and `setFilteredRecords` keeps the address of that array. -/
def filterRecordsInStore (toLowerCase : String → String)
    (localeCompare : String → String → ℤ) (store : ArrayStore) (refs : DashboardRefs) :
    Except JsError (ArrayStore × DashboardRefs) :=
  -- let filtered = [...healthRecords]
  let (store, filtered) := allocate store (readArray store refs.healthRecords)
  -- filtered = filtered.filter(...)
  let afterFilter : Except JsError (ArrayStore × ℕ) :=
    if refs.searchTerm ≠ "" then
      match arrayFilter (matchesSearch toLowerCase refs.searchTerm)
          (readArray store filtered) with
      | .error e => .error e
      | .ok kept => .ok (allocate store kept)
    else .ok (store, filtered)
  match afterFilter with
  | .error e => .error e
  | .ok (store, filtered) =>
    -- filtered.sort(...)
    match arraySort (compareRecords toLowerCase localeCompare refs.sortBy refs.sortOrder)
        (readArray store filtered) with
    | .error e => .error e
    | .ok sorted =>
      .ok (store.set filtered sorted,
        { refs with filteredRecords := filtered, currentPage := 1 })

/-- Embedding of `paginate(pageNumber)` over the store. -/
def paginateInStore (pageNumber : ℤ) (store : ArrayStore) (refs : DashboardRefs) :
    ArrayStore × DashboardRefs :=
  (store, { refs with currentPage := pageNumber })

/-- A store with the three sample records at address 0 and an empty array at address 1,
and the state of addresses that shows them. -/
def sampleStore : ArrayStore := [sampleRecords, []]

/-- The state of addresses over `sampleStore`, sorted by age. -/
def sampleRefs : DashboardRefs where
  healthRecords := 0
  filteredRecords := 1
  searchTerm := ""
  sortBy := "age"
  sortOrder := "asc"
  currentPage := 2

/-! ## Health-issue toggle of the form (`HealthForm.js`, lines 165-188) -/

/-- The state `formData` of the form (lines 21-44): the fields that the modelled
functions read; a numeric field is missing while the input is blank. -/
structure FormData where
  name : String
  age : Option ℚ
  gender : String
  weight : Option ℚ
  height : Option ℚ
  email : String
  contact : String
  existingHealthIssues : List String
  lifestyleHabits : LifestyleHabits
  notes : String
deriving DecidableEq, Repr

/-- Embedding of the state update of `handleHealthIssueToggle(issue)`. -/
def handleHealthIssueToggle (issue : String) (prev : FormData) : FormData :=
  let currentIssues := prev.existingHealthIssues
  let isSelected := currentIssues.contains issue
  if issue = "None" then
    -- If selecting 'None', clear all other selections
    { prev with existingHealthIssues := if isSelected then [] else ["None"] }
  else
    -- If selecting any other issue, remove 'None' if present
    let updatedIssues :=
      if isSelected then currentIssues.filter (fun i => i != issue)
      else currentIssues.filter (fun i => i != "None") ++ [issue]
    { prev with existingHealthIssues := updatedIssues }

/-- The initial `formData` (lines 21-44). -/
def initialFormData : FormData where
  name := ""
  age := none
  gender := ""
  weight := none
  height := none
  email := ""
  contact := ""
  existingHealthIssues := []
  lifestyleHabits := {
    smoking := some "Never",
    exercise := some { frequency := some "Never" },
    sleep := some { hoursPerNight := some 7 },
    waterIntake := some 8 }
  notes := ""

/-- The exclusivity of "None": it is absent from the list or its only entry. -/
def noneExclusive (issues : List String) : Prop :=
  "None" ∉ issues ∨ issues = ["None"]

/-! ## Validation module (`healthUtils.js`, lines 54-74) -/

/-- Embedding of `validateAge(age)`. -/
def validateAge (age : Option ℚ) : Bool :=
  jsGe age 1 && jsLe age 120

/-- Embedding of `validateWeight(weight)`. -/
def validateWeight (weight : Option ℚ) : Bool :=
  jsGt weight 0 && jsLe weight 1000

/-- Embedding of `validateHeight(height)`. -/
def validateHeight (height : Option ℚ) : Bool :=
  jsGe height 30 && jsLe height 300

/-- Regular expressions over characters, enough for the patterns of `validateEmail` and
`validatePhone`. -/
inductive Regex where
  | nothing : Regex
  | epsilon : Regex
  | charClass (p : Char → Bool) : Regex
  | alt (r s : Regex) : Regex
  | seq (r s : Regex) : Regex
  | star (r : Regex) : Regex

namespace Regex

/-- The pattern `r?`. -/
def optional (r : Regex) : Regex :=
  alt r epsilon

/-- The pattern `r+`. -/
def plus (r : Regex) : Regex :=
  seq r (star r)

/-- The pattern `r{0,n}`. -/
def upTo : ℕ → Regex → Regex
  | 0, _ => epsilon
  | n + 1, r => optional (seq r (upTo n r))

/-- Whether a pattern matches the empty string. -/
def nullable : Regex → Bool
  | nothing => false
  | epsilon => true
  | charClass _ => false
  | alt r s => nullable r || nullable s
  | seq r s => nullable r && nullable s
  | star _ => true

/-- The pattern for what may follow the character `c` in a match. -/
def deriv : Regex → Char → Regex
  | nothing, _ => nothing
  | epsilon, _ => nothing
  | charClass p, c => if p c then epsilon else nothing
  | alt r s, c => alt (deriv r c) (deriv s c)
  | seq r s, c =>
    if nullable r then alt (seq (deriv r c) s) (deriv s c) else seq (deriv r c) s
  | star r, c => seq (deriv r c) (star r)

/-- Whether a pattern matches a whole string, from its first to its last character. -/
def matchesWhole : Regex → List Char → Bool
  | r, [] => nullable r
  | r, c :: w => matchesWhole (deriv r c) w

/-- The set of strings a pattern matches as a whole. -/
def language : Regex → Language Char
  | nothing => 0
  | epsilon => 1
  | charClass p => { w | ∃ c, p c = true ∧ w = [c] }
  | alt r s => language r + language s
  | seq r s => language r * language s
  | star r => KStar.kstar (language r)

end Regex

/-- The characters that `\s` matches: the white space and line terminator characters of
the language. -/
def whiteSpaceChars : List Char :=
  [0x0009, 0x000A, 0x000B, 0x000C, 0x000D, 0x0020, 0x00A0, 0x1680, 0x2000, 0x2001, 0x2002,
    0x2003, 0x2004, 0x2005, 0x2006, 0x2007, 0x2008, 0x2009, 0x200A, 0x2028, 0x2029, 0x202F,
    0x205F, 0x3000, 0xFEFF].map Char.ofNat

/-- The characters that `\d` matches. -/
def digitChars : List Char :=
  ['0', '1', '2', '3', '4', '5', '6', '7', '8', '9']

/-- The characters that `[1-9]` matches. -/
def nonZeroDigitChars : List Char :=
  ['1', '2', '3', '4', '5', '6', '7', '8', '9']

/-- The class `[^\s@]`. -/
def notSpaceNorAt (c : Char) : Bool :=
  !(whiteSpaceChars.contains c || c == '@')

/-- The pattern `/^[^\s@]+@[^\s@]+\.[^\s@]+$/` between its anchors. -/
def emailRegex : Regex :=
  .seq (.plus (.charClass notSpaceNorAt))
    (.seq (.charClass (fun c => c == '@'))
      (.seq (.plus (.charClass notSpaceNorAt))
        (.seq (.charClass (fun c => c == '.'))
          (.plus (.charClass notSpaceNorAt)))))

/-- The pattern `/^[\+]?[1-9][\d]{0,15}$/` between its anchors. -/
def phoneRegex : Regex :=
  .seq (.optional (.charClass (fun c => c == '+')))
    (.seq (.charClass (fun c => nonZeroDigitChars.contains c))
      (.upTo 15 (.charClass (fun c => digitChars.contains c))))

/-- Embedding of `validateEmail(email)` on a string: with the anchors `^` and `$` and no
flag, `test` asks whether the pattern matches the whole string. -/
def validateEmail (email : String) : Bool :=
  emailRegex.matchesWhole email.data

/-- Embedding of `validatePhone(phone)` on a string. -/
def validatePhone (phone : String) : Bool :=
  phoneRegex.matchesWhole phone.data

/-! ## Health score ladders (`healthUtils.js`, lines 38-51) -/

/-- Embedding of `getHealthScoreColor(score)`. -/
def getHealthScoreColor (score : Option ℚ) : String :=
  if jsGe score 80 then "#10B981" -- Green - Excellent
  else if jsGe score 65 then "#F59E0B" -- Yellow - Good
  else if jsGe score 50 then "#F97316" -- Orange - Fair
  else "#EF4444" -- Red - Poor

/-- Embedding of `getHealthScoreCategory(score)`. -/
def getHealthScoreCategory (score : Option ℚ) : String :=
  if jsGe score 80 then "Excellent"
  else if jsGe score 65 then "Good"
  else if jsGe score 50 then "Fair"
  else "Poor"

/-- The colour that the comments of `getHealthScoreColor` pair with a category. -/
def healthScoreColorOf (category : String) : String :=
  if category = "Excellent" then "#10B981"
  else if category = "Good" then "#F59E0B"
  else if category = "Fair" then "#F97316"
  else "#EF4444"

/-! ## The numeric validators on values of any primitive type -/

/-- A primitive value of the language. -/
inductive JsValue where
  | undefined
  | null
  | bool (b : Bool)
  | number (x : ℚ)
  | notANumber
  | string (s : String)
deriving DecidableEq, Repr

/-- The conversion `ToNumber` that `>`, `>=` and `<=` apply to an operand compared with a
number; `none` is not-a-number.  The conversion of a string, `StringToNumber`, is a
parameter. -/
def toNumber (stringToNumber : String → Option ℚ) : JsValue → Option ℚ
  | .undefined => none
  | .null => some 0
  | .bool true => some 1
  | .bool false => some 0
  | .number x => some x
  | .notANumber => none
  | .string s => stringToNumber s

/-- The call `validateAge(age)` on any primitive value. -/
def validateAgeValue (stringToNumber : String → Option ℚ) (age : JsValue) : Bool :=
  validateAge (toNumber stringToNumber age)

/-- The call `validateWeight(weight)` on any primitive value. -/
def validateWeightValue (stringToNumber : String → Option ℚ) (weight : JsValue) : Bool :=
  validateWeight (toNumber stringToNumber weight)

/-- The call `validateHeight(height)` on any primitive value. -/
def validateHeightValue (stringToNumber : String → Option ℚ) (height : JsValue) : Bool :=
  validateHeight (toNumber stringToNumber height)

/-- The number written by a list of decimal digits, read from the left. -/
def digitsValue : List Char → ℕ → ℕ
  | [], n => n
  | c :: s, n => digitsValue s (10 * n + (c.toNat - 48))

/-- An instance of `StringToNumber` for the examples: the number a non-empty string of
decimal digits writes, and not-a-number for the strings with another character. -/
def digitsToNumber (s : String) : Option ℚ :=
  if s.data ≠ [] ∧ s.data.all (fun c => digitChars.contains c) then
    some ((digitsValue s.data 0 : ℕ) : ℚ)
  else none

/-! ## Form validation (`HealthForm.js`, lines 125-139) -/

/-- The object `newErrors` of `validateForm`: a missing key is `none`. -/
structure FormErrors where
  name : Option String
  age : Option String
  gender : Option String
  weight : Option String
  height : Option String
  email : Option String
  contact : Option String
deriving DecidableEq, Repr

/-- The method `String.prototype.trim`: white space removed at both ends. -/
def trim (s : String) : String :=
  ⟨((s.data.dropWhile (fun c => whiteSpaceChars.contains c)).reverse.dropWhile
      (fun c => whiteSpaceChars.contains c)).reverse⟩

/-- The object `newErrors` that `validateForm()` builds and gives to `setErrors`. -/
def formErrors (formData : FormData) : FormErrors :=
  let newErrors : FormErrors :=
    { name := none, age := none, gender := none, weight := none, height := none,
      email := none, contact := none }
  -- Basic validations
  let newErrors :=
    if trim formData.name = "" then { newErrors with name := some "Name is required" }
    else newErrors
  let newErrors :=
    if !truthy formData.age || !validateAge formData.age then
      { newErrors with age := some "Valid age (1-120) is required" }
    else newErrors
  let newErrors :=
    if formData.gender = "" then { newErrors with gender := some "Gender is required" }
    else newErrors
  let newErrors :=
    if !truthy formData.weight || !validateWeight formData.weight then
      { newErrors with weight := some "Valid weight (1-1000 kg) is required" }
    else newErrors
  let newErrors :=
    if !truthy formData.height || !validateHeight formData.height then
      { newErrors with height := some "Valid height (30-300 cm) is required" }
    else newErrors
  let newErrors :=
    if formData.email = "" || !validateEmail formData.email then
      { newErrors with email := some "Valid email is required" }
    else newErrors
  let newErrors :=
    if formData.contact = "" || !validatePhone formData.contact then
      { newErrors with contact := some "Valid contact number is required" }
    else newErrors
  newErrors

/-- Embedding of `validateForm()`: the object given to `setErrors` and the returned
boolean `Object.keys(newErrors).length === 0`. -/
def validateForm (formData : FormData) : FormErrors × Bool :=
  (formErrors formData,
    decide (formErrors formData =
      { name := none, age := none, gender := none, weight := none, height := none,
        email := none, contact := none }))

/-- A form filled with valid entries. -/
def filledForm : FormData where
  name := "Ana"
  age := some 34
  gender := "Female"
  weight := some 62
  height := some 168
  email := "ana@example.com"
  contact := "+14155552671"
  existingHealthIssues := ["None"]
  lifestyleHabits := {
    smoking := some "Never",
    exercise := some { frequency := some "3-4 times/week" },
    sleep := some { hoursPerNight := some 7 },
    waterIntake := some 8 }
  notes := ""

/-! ## Records for the claims on missing fields -/

/-- The record in which every field is missing. -/
def emptyRecord : HealthRecord where
  name := none
  email := none
  age := none
  bmi := none
  healthScore := none
  createdAt := none
  lifestyleHabits := none
  existingHealthIssues := none

/-- A record whose only field is the smoking status. -/
def smokingRecord (smoking : String) : HealthRecord where
  name := none
  email := none
  age := none
  bmi := none
  healthScore := none
  createdAt := none
  lifestyleHabits := some
    { smoking := some smoking, exercise := none, sleep := none, waterIntake := none }
  existingHealthIssues := none

/-- The record without its `bmi` field. -/
def withoutBmi (record : HealthRecord) : HealthRecord :=
  { record with bmi := none }

/-- The record without its `lifestyleHabits.exercise` field. -/
def withoutExercise (record : HealthRecord) : HealthRecord :=
  { record with
    lifestyleHabits := record.lifestyleHabits.map (fun habits => { habits with exercise := none }) }

/-- Whether a record has the object the comparator reads a property of: the name for
`name`, the `bmi` object for `bmi`; the other keys read no property of a field. -/
def hasSortObject (sortBy : String) (record : HealthRecord) : Bool :=
  if sortBy = "name" then record.name.isSome
  else if sortBy = "bmi" then record.bmi.isSome
  else true

/-! ## Auxiliary lemmas on the risk score -/

theorem issues_cond (l : List String) :
    (l.length > 0 ∧ ¬ (l.length = 1 ∧ l.head? = some "None")) ↔ (l ≠ [] ∧ l ≠ ["None"]) := by
  rcases l with _ | ⟨a, _ | ⟨b, t⟩⟩ <;> simp

theorem ite_add_same (c : Prop) [Decidable c] (s a b : ℕ) :
    (if c then s + a else s + b) = s + (if c then a else b) := by
  split_ifs <;> rfl

theorem ite_add_self (c : Prop) [Decidable c] (s a : ℕ) :
    (if c then s + a else s) = s + (if c then a else 0) := by
  split_ifs <;> simp

theorem agePoints_eq (age : Option ℚ) :
    (if jsGt age 65 then 2 else if jsGt age 50 then 1 else 0) = agePoints age := by
  cases age with
  | none => simp [jsGt, agePoints]
  | some a =>
    simp only [jsGt, agePoints, decide_eq_true_eq, gt_iff_lt]
    split_ifs <;> first | rfl | (exfalso; linarith) | (exfalso; simp_all)

theorem sleepPoints_eq (h : Option ℚ) :
    (if (jsLt h 6 || jsGt h 10) = true then 1 else 0) = sleepPoints h := by
  cases h with
  | none => simp [jsLt, jsGt, sleepPoints]
  | some a => simp [jsLt, jsGt, sleepPoints]

/-- The score of `getRiskLevel` as a sum of one term per factor. -/
theorem riskScore_eq_sum (r : HealthRecord) :
    riskScore r =
      bmiPoints (getBMICategory (r.bmi.bind Bmi.value))
      + agePoints r.age
      + smokingPoints (r.lifestyleHabits.bind LifestyleHabits.smoking)
      + exercisePoints ((r.lifestyleHabits.bind LifestyleHabits.exercise).bind Exercise.frequency)
      + sleepPoints ((r.lifestyleHabits.bind LifestyleHabits.sleep).bind Sleep.hoursPerNight)
      + issuesPoints (r.existingHealthIssues.getD []) := by
  unfold riskScore
  simp only [issues_cond, ite_add_same, ite_add_self, agePoints_eq, sleepPoints_eq,
    zero_add]
  rfl

theorem agePoints_mono {a b : ℚ} (h : a ≤ b) : agePoints (some a) ≤ agePoints (some b) := by
  simp only [agePoints]
  split_ifs <;> first | omega | (exfalso; linarith) | (exfalso; simp_all; linarith)

theorem issuesPoints_append (l : List String) (x : String) :
    issuesPoints l ≤ issuesPoints (l ++ [x]) := by
  rcases l with _ | ⟨a, _ | ⟨b, t⟩⟩
  · simp [issuesPoints]
  · simp only [issuesPoints]
    split_ifs <;> simp_all
  · simp [issuesPoints]

theorem levelRank_getRiskLevel (r : HealthRecord) :
    levelRank (getRiskLevel r).level
      = if riskScore r ≥ 6 then 2 else if riskScore r ≥ 3 then 1 else 0 := by
  unfold getRiskLevel
  split_ifs <;> simp [levelRank]

theorem levelRank_mono {r s : HealthRecord} (h : riskScore r ≤ riskScore s) :
    levelRank (getRiskLevel r).level ≤ levelRank (getRiskLevel s).level := by
  rw [levelRank_getRiskLevel, levelRank_getRiskLevel]
  split_ifs <;> omega

theorem riskScore_issuesOnly (issues : List String) :
    riskScore (issuesOnlyRecord issues) = issuesPoints issues := by
  rw [riskScore_eq_sum]
  simp [issuesOnlyRecord, getBMICategory, truthy, bmiPoints, agePoints, smokingPoints,
    exercisePoints, sleepPoints]

/-! ## Claims on the risk score -/

/-- C1. The risk score of `getRiskLevel` is the sum of six contributions, each a function
of its own factor alone: BMI category, age, smoking, exercise frequency, sleep hours and
health issues; the example record of the specification scores 8 and is rated High. -/
theorem riskScore_additive :
    (∀ r : HealthRecord,
      riskScore r =
        bmiPoints (getBMICategory (r.bmi.bind Bmi.value))
        + agePoints r.age
        + smokingPoints (r.lifestyleHabits.bind LifestyleHabits.smoking)
        + exercisePoints
            ((r.lifestyleHabits.bind LifestyleHabits.exercise).bind Exercise.frequency)
        + sleepPoints ((r.lifestyleHabits.bind LifestyleHabits.sleep).bind Sleep.hoursPerNight)
        + issuesPoints (r.existingHealthIssues.getD []))
    ∧ riskScore exampleRecord = 3 + 2 + 2 + 1
    ∧ (getRiskLevel exampleRecord).level = "High" := by
  have h8 : riskScore exampleRecord = 8 := by
    simp [riskScore, exampleRecord, getBMICategory, truthy, jsLe, jsLt, jsGt]
    norm_num
  refine ⟨riskScore_eq_sum, h8, ?_⟩
  simp [getRiskLevel, h8]

/-- C2. The level of `getRiskLevel` is High (red) exactly when the score is at least 6,
Medium (amber) exactly when it is between 3 and 5, and Low (green) exactly when it is at
most 2; records with scores 2, 3, 5 and 6 are rated Low, Medium, Medium and High. -/
theorem getRiskLevel_thresholds :
    (∀ r : HealthRecord,
      (getRiskLevel r = { level := "High", color := "#EF4444" } ↔ riskScore r ≥ 6)
      ∧ (getRiskLevel r = { level := "Medium", color := "#F59E0B" }
          ↔ 3 ≤ riskScore r ∧ riskScore r ≤ 5)
      ∧ (getRiskLevel r = { level := "Low", color := "#10B981" } ↔ riskScore r ≤ 2))
    ∧ (∀ n : ℕ, riskScore (issuesOnlyRecord (List.replicate (n + 2) "Asthma")) = n + 2)
    ∧ getRiskLevel (issuesOnlyRecord (List.replicate 2 "Asthma"))
        = { level := "Low", color := "#10B981" }
    ∧ getRiskLevel (issuesOnlyRecord (List.replicate 3 "Asthma"))
        = { level := "Medium", color := "#F59E0B" }
    ∧ getRiskLevel (issuesOnlyRecord (List.replicate 5 "Asthma"))
        = { level := "Medium", color := "#F59E0B" }
    ∧ getRiskLevel (issuesOnlyRecord (List.replicate 6 "Asthma"))
        = { level := "High", color := "#EF4444" } := by
  have hs : ∀ n : ℕ, riskScore (issuesOnlyRecord (List.replicate (n + 2) "Asthma")) = n + 2 := by
    intro n
    rw [riskScore_issuesOnly]
    simp [issuesPoints, List.replicate_succ]
  refine ⟨?_, hs, ?_, ?_, ?_, ?_⟩
  · intro r
    unfold getRiskLevel
    refine ⟨?_, ?_, ?_⟩ <;> split_ifs <;> simp <;> omega
  · have := hs 0
    simp only [getRiskLevel]
    simp at this
    simp [this]
  · have := hs 1
    simp only [getRiskLevel]
    simp at this
    simp [this]
  · have := hs 3
    simp only [getRiskLevel]
    simp at this
    simp [this]
  · have := hs 4
    simp only [getRiskLevel]
    simp at this
    simp [this]

theorem agePoints_none_le (age : Option ℚ) : agePoints none ≤ agePoints age := by
  simp [agePoints]

/-- C3. With every other field fixed, the risk score does not decrease when the age is
raised, nor when an age is given to a record that has none, nor, for every record, when
one more health issue is appended to the list (a missing list counting as empty); in each
case the level does not move down in the order Low < Medium < High. -/
theorem riskScore_monotone :
    (∀ (r : HealthRecord) (a a' : ℚ), r.age = some a → a ≤ a' →
      riskScore r ≤ riskScore { r with age := some a' }
      ∧ levelRank (getRiskLevel r).level
          ≤ levelRank (getRiskLevel { r with age := some a' }).level)
    ∧ (∀ (r : HealthRecord) (a' : ℚ), r.age = none →
        riskScore r ≤ riskScore { r with age := some a' }
        ∧ levelRank (getRiskLevel r).level
            ≤ levelRank (getRiskLevel { r with age := some a' }).level)
    ∧ (∀ (r : HealthRecord) (issue : String),
        riskScore r
          ≤ riskScore { r with
              existingHealthIssues := some (r.existingHealthIssues.getD [] ++ [issue]) }
        ∧ levelRank (getRiskLevel r).level
            ≤ levelRank (getRiskLevel { r with
                existingHealthIssues :=
                  some (r.existingHealthIssues.getD [] ++ [issue]) }).level) := by
  refine ⟨?_, ?_, ?_⟩
  · intro r a a' hage hle
    have h1 : riskScore r ≤ riskScore { r with age := some a' } := by
      rw [riskScore_eq_sum, riskScore_eq_sum, hage]
      have := agePoints_mono hle
      simp only
      omega
    exact ⟨h1, levelRank_mono h1⟩
  · intro r a' hage
    have h1 : riskScore r ≤ riskScore { r with age := some a' } := by
      rw [riskScore_eq_sum, riskScore_eq_sum, hage]
      have := agePoints_none_le (some a')
      simp only
      omega
    exact ⟨h1, levelRank_mono h1⟩
  · intro r issue
    have h2 : riskScore r ≤ riskScore { r with
        existingHealthIssues := some (r.existingHealthIssues.getD [] ++ [issue]) } := by
      rw [riskScore_eq_sum, riskScore_eq_sum]
      have := issuesPoints_append (r.existingHealthIssues.getD []) issue
      simp only [Option.getD_some]
      omega
    exact ⟨h2, levelRank_mono h2⟩

theorem riskScore_monotone_witness :
    riskScore { issuesOnlyRecord ["Asthma", "Diabetes"] with age := some 50 }
      ≤ riskScore
          { { issuesOnlyRecord ["Asthma", "Diabetes"] with age := some 50 } with
            age := some 66 }
    ∧ levelRank
        (getRiskLevel { issuesOnlyRecord ["Asthma", "Diabetes"] with age := some 50 }).level
      ≤ levelRank
          (getRiskLevel
            { { issuesOnlyRecord ["Asthma", "Diabetes"] with age := some 50 } with
              age := some 66 }).level :=
  riskScore_monotone.1 { issuesOnlyRecord ["Asthma", "Diabetes"] with age := some 50 }
    50 66 rfl (by norm_num)

/-! ## Auxiliary lemmas on binary64 rounding -/

theorem roundHalfEven_near (x : ℚ) : |(roundHalfEven x : ℚ) - x| ≤ 1 / 2 := by
  have h1 : (⌊x⌋ : ℚ) ≤ x := Int.floor_le x
  have h2 : x < ⌊x⌋ + 1 := Int.lt_floor_add_one x
  unfold roundHalfEven
  split_ifs with ha hb hc
  · rw [abs_le]; constructor <;> linarith
  · rw [abs_le]; push_cast; constructor <;> linarith
  · rw [abs_le]; constructor <;> linarith
  · rw [abs_le]; push_cast; constructor <;> linarith

theorem roundHalfEven_nonneg {x : ℚ} (hx : 0 ≤ x) : 0 ≤ roundHalfEven x := by
  have h0 : 0 ≤ ⌊x⌋ := Int.floor_nonneg.mpr hx
  unfold roundHalfEven
  split_ifs <;> omega

theorem roundHalfEven_eq {x : ℚ} {n : ℤ} (h : |x - n| < 1 / 2) : roundHalfEven x = n := by
  rw [abs_lt] at h
  unfold roundHalfEven
  by_cases hn : (n : ℚ) ≤ x
  · have hf : ⌊x⌋ = n := by
      rw [Int.floor_eq_iff]
      constructor <;> linarith
    rw [hf, if_pos (by linarith)]
  · have hf : ⌊x⌋ = n - 1 := by
      rw [Int.floor_eq_iff]
      push_cast
      constructor <;> linarith
    rw [hf]
    push_cast
    rw [if_neg (by linarith), if_pos (by linarith)]
    ring

theorem roundToDouble_zero : roundToDouble 0 = .finite 0 := by
  simp [roundToDouble, roundHalfEven]

/-- Evaluation of `roundToDouble` from the binade of `x` and the nearest multiple of the
quantum. -/
theorem roundToDouble_eq (x : ℚ) (e n : ℤ) (hlo : (2 : ℚ) ^ e ≤ |x|)
    (hhi : |x| < (2 : ℚ) ^ (e + 1)) (he : -1022 ≤ e)
    (hn : |x / (2 : ℚ) ^ (e - 52) - n| < 1 / 2)
    (hfin : |(n : ℚ) * (2 : ℚ) ^ (e - 52)| < (2 : ℚ) ^ (1024 : ℕ)) :
    roundToDouble x = .finite ((n : ℚ) * (2 : ℚ) ^ (e - 52)) := by
  have hpos : 0 < |x| := lt_of_lt_of_le (zpow_pos (by norm_num) e) hlo
  have hlog : Int.log 2 |x| = e := by
    apply le_antisymm
    · have := (Int.lt_zpow_iff_log_lt (b := 2) (by norm_num) hpos (x := e + 1)).mp
        (by exact_mod_cast hhi)
      omega
    · exact (Int.zpow_le_iff_le_log (b := 2) (by norm_num) hpos).mp (by exact_mod_cast hlo)
  unfold roundToDouble
  simp only [hlog, max_eq_left he, roundHalfEven_eq hn]
  rw [if_neg (not_le.mpr hfin)]

theorem two_pow_1024_eq : (2 : ℚ) ^ (1024 : ℕ) = 2 * 2 ^ (1023 : ℕ) := by
  rw [pow_succ]
  ring

theorem four_le_two_pow_1023 : (4 : ℚ) ≤ 2 ^ (1023 : ℕ) := by
  have h : (2 : ℚ) ^ (2 : ℕ) ≤ 2 ^ (1023 : ℕ) :=
    pow_le_pow_right₀ (by norm_num) (by norm_num)
  calc (4 : ℚ) = 2 ^ (2 : ℕ) := by norm_num
    _ ≤ _ := h

theorem subnormal_half_quantum_le : (1 : ℚ) / 2 ^ (1075 : ℕ) ≤ 1 / 2 ^ (70 : ℕ) := by
  apply one_div_le_one_div_of_le (by positivity)
  exact pow_le_pow_right₀ (by norm_num) (by norm_num)

/-- The error of one rounding: at most the fraction `2 ^ (-53)` of the magnitude, or
`2 ^ (-1075)` in the subnormal range; the result is finite up to `2 ^ 1023` and a
non-negative number stays non-negative. -/
theorem roundToDouble_error (x : ℚ) (hx : |x| ≤ (2 : ℚ) ^ (1023 : ℕ)) :
    ∃ r : ℚ, roundToDouble x = .finite r
      ∧ |r - x| ≤ |x| / 2 ^ (53 : ℕ) + 1 / 2 ^ (1075 : ℕ)
      ∧ (0 ≤ x → 0 ≤ r) := by
  rcases eq_or_ne x 0 with h0 | hne
  · subst h0
    refine ⟨0, roundToDouble_zero, ?_, fun _ => le_refl _⟩
    simp only [sub_self, abs_zero, zero_div, zero_add]
    positivity
  have hxpos : 0 < |x| := abs_pos.mpr hne
  set e : ℤ := max (Int.log 2 |x|) (-1022) with he
  set Q : ℚ := 2 ^ (e - 52) with hQ
  have hQpos : 0 < Q := zpow_pos (by norm_num) _
  set r : ℚ := (roundHalfEven (x / Q) : ℚ) * Q with hr
  have herr : |r - x| ≤ Q / 2 := by
    have h := roundHalfEven_near (x / Q)
    have : r - x = ((roundHalfEven (x / Q) : ℚ) - x / Q) * Q := by
      rw [hr]; field_simp
    rw [this, abs_mul, abs_of_pos hQpos]
    nlinarith
  have hQle : Q / 2 ≤ |x| / 2 ^ (53 : ℕ) + 1 / 2 ^ (1075 : ℕ) := by
    rcases le_total (Int.log 2 |x|) (-1022) with hc | hc
    · have hee : e = -1022 := by rw [he]; exact max_eq_right hc
      have hq : Q / 2 = 1 / 2 ^ (1075 : ℕ) := by
        rw [hQ, hee, show (-1022 - 52 : ℤ) = -((1074 : ℕ) : ℤ) by norm_num, zpow_neg,
          zpow_natCast, pow_succ (2 : ℚ) 1074]
        field_simp
      rw [hq]
      have : 0 ≤ |x| / 2 ^ (53 : ℕ) := div_nonneg (abs_nonneg x) (pow_nonneg (by norm_num) 53)
      linarith
    · have hee : e = Int.log 2 |x| := by rw [he]; exact max_eq_left hc
      have hlow : (2 : ℚ) ^ (Int.log 2 |x|) ≤ |x| := by
        have := Int.zpow_log_le_self (b := 2) (by norm_num) hxpos
        exact_mod_cast this
      have hq : Q / 2 = (2 : ℚ) ^ (Int.log 2 |x|) / 2 ^ (53 : ℕ) := by
        rw [hQ, hee, zpow_sub₀ (by norm_num), show ((52 : ℤ)) = ((52 : ℕ) : ℤ) by norm_num,
          zpow_natCast, pow_succ (2 : ℚ) 52]
        field_simp
      rw [hq]
      have h1 : (2 : ℚ) ^ (Int.log 2 |x|) / 2 ^ (53 : ℕ) ≤ |x| / 2 ^ (53 : ℕ) :=
        div_le_div_of_nonneg_right hlow (by positivity)
      have : (0 : ℚ) ≤ 1 / 2 ^ (1075 : ℕ) := by positivity
      linarith
  have hfin : |r| < (2 : ℚ) ^ (1024 : ℕ) := by
    have h1 : |r| ≤ |r - x| + |x| := by
      have := abs_add (r - x) x
      simpa using this
    have h2 : |x| / 2 ^ (53 : ℕ) ≤ |x| / 2 := by
      apply div_le_div_of_nonneg_left hxpos.le (by norm_num)
      calc (2 : ℚ) = 2 ^ (1 : ℕ) := by norm_num
        _ ≤ 2 ^ (53 : ℕ) := pow_le_pow_right₀ (by norm_num) (by norm_num)
    have h3 := subnormal_half_quantum_le
    have h4 : (1 : ℚ) / 2 ^ (70 : ℕ) < 1 := by norm_num
    have h5 := four_le_two_pow_1023
    rw [two_pow_1024_eq]
    linarith
  refine ⟨r, ?_, le_trans herr hQle, ?_⟩
  · unfold roundToDouble
    simp only
    rw [if_neg (not_le.mpr hfin)]
  · intro h0
    have : 0 ≤ roundHalfEven (x / Q) := roundHalfEven_nonneg (div_nonneg h0 hQpos.le)
    have : (0 : ℚ) ≤ (roundHalfEven (x / Q) : ℚ) := by exact_mod_cast this
    exact mul_nonneg this hQpos.le

theorem two_pow_14_lt : (16384 : ℚ) < 2 ^ (1024 : ℕ) := by
  calc (16384 : ℚ) = 2 ^ (14 : ℕ) := by norm_num
    _ < 2 ^ (1024 : ℕ) := pow_lt_pow_right₀ (by norm_num) (by norm_num)

/-- Evaluation of `roundToDouble` at a positive number below 16384: `v` is the multiple
`n * 2 ^ (e - 52)` of the quantum of the binade of `x` that is nearest to `x`. -/
theorem roundToDouble_eval (x v : ℚ) (e n : ℤ) (hv : v = (n : ℚ) * (2 : ℚ) ^ (e - 52))
    (he : -1022 ≤ e) (hlo : (2 : ℚ) ^ e ≤ x) (hhi : x < (2 : ℚ) ^ (e + 1))
    (hn1 : (n : ℚ) - 1 / 2 < x / (2 : ℚ) ^ (e - 52))
    (hn2 : x / (2 : ℚ) ^ (e - 52) < (n : ℚ) + 1 / 2)
    (hv0 : 0 ≤ v) (hv1 : v ≤ 16384) :
    roundToDouble x = .finite v := by
  have hx : 0 < x := lt_of_lt_of_le (zpow_pos (by norm_num) e) hlo
  rw [hv]
  apply roundToDouble_eq x e n
  · rwa [abs_of_pos hx]
  · rwa [abs_of_pos hx]
  · exact he
  · rw [abs_lt]
    constructor <;> linarith
  · rw [← hv, abs_of_nonneg hv0]
    exact lt_of_le_of_lt hv1 two_pow_14_lt

theorem literal_75_2 :
    roundToDouble (752 / 10) = .finite (5291729562160333 / 70368744177664) := by
  apply roundToDouble_eval _ _ 6 5291729562160333 <;> norm_num

theorem quotient_160_100 :
    roundToDouble (160 / 100) = .finite (3602879701896397 / 2251799813685248) := by
  apply roundToDouble_eval _ _ 0 7205759403792794 <;> norm_num

theorem square_of_quotient_160_100 :
    roundToDouble (3602879701896397 / 2251799813685248 * (3602879701896397 / 2251799813685248))
      = .finite (1441151880758559 / 562949953421312) := by
  apply roundToDouble_eval _ _ 1 5764607523034236 <;> norm_num

theorem quotient_75_2_by_square :
    roundToDouble (5291729562160333 / 70368744177664 / (1441151880758559 / 562949953421312))
      = .finite (8268327440875519 / 281474976710656) := by
  apply roundToDouble_eval _ _ 4 8268327440875519 <;> norm_num

theorem decimal_29_37 :
    roundToDouble (2937 / 100) = .finite (8266920065991967 / 281474976710656) := by
  apply roundToDouble_eval _ _ 4 8266920065991967 <;> norm_num

theorem decimal_29_38 :
    roundToDouble (2938 / 100) = .finite (8269734815759073 / 281474976710656) := by
  apply roundToDouble_eval _ _ 4 8269734815759073 <;> norm_num

theorem sixteen_thousand_le : (16384 : ℚ) ≤ 2 ^ (1023 : ℕ) := by
  calc (16384 : ℚ) = 2 ^ (14 : ℕ) := by norm_num
    _ ≤ 2 ^ (1023 : ℕ) := pow_le_pow_right₀ (by norm_num) (by norm_num)

/-- The error of one rounding of a number of magnitude at most 16. -/
theorem roundToDouble_error_16 (x : ℚ) (hx : |x| ≤ 16) :
    ∃ r : ℚ, roundToDouble x = .finite r ∧ |r - x| ≤ 2 / 10 ^ (15 : ℕ) ∧ (0 ≤ x → 0 ≤ r) := by
  obtain ⟨r, hr, herr, hpos⟩ := roundToDouble_error x
    (le_trans hx (le_trans (by norm_num) sixteen_thousand_le))
  refine ⟨r, hr, ?_, hpos⟩
  have h1 : |x| / 2 ^ (53 : ℕ) ≤ 16 / 2 ^ (53 : ℕ) :=
    div_le_div_of_nonneg_right hx (by norm_num)
  have h2 := subnormal_half_quantum_le
  have h3 : (16 : ℚ) / 2 ^ (53 : ℕ) + 1 / 2 ^ (70 : ℕ) ≤ 2 / 10 ^ (15 : ℕ) := by norm_num
  linarith

/-- The error of one rounding of a number of magnitude at most 16384. -/
theorem roundToDouble_error_16384 (x : ℚ) (hx : |x| ≤ 16384) :
    ∃ r : ℚ, roundToDouble x = .finite r ∧ |r - x| ≤ 2 / 10 ^ (12 : ℕ) ∧ (0 ≤ x → 0 ≤ r) := by
  obtain ⟨r, hr, herr, hpos⟩ := roundToDouble_error x (le_trans hx sixteen_thousand_le)
  refine ⟨r, hr, ?_, hpos⟩
  have h1 : |x| / 2 ^ (53 : ℕ) ≤ 16384 / 2 ^ (53 : ℕ) :=
    div_le_div_of_nonneg_right hx (by norm_num)
  have h2 := subnormal_half_quantum_le
  have h3 : (16384 : ℚ) / 2 ^ (53 : ℕ) + 1 / 2 ^ (70 : ℕ) ≤ 2 / 10 ^ (12 : ℕ) := by norm_num
  linarith

theorem numberDiv_finite (x y : ℚ) (hy : y ≠ 0) :
    numberDiv (.finite x) (.finite y) = roundToDouble (x / y) := by
  simp [numberDiv, hy]

theorem numberMul_finite (x y : ℚ) :
    numberMul (.finite x) (.finite y) = roundToDouble (x * y) := rfl

theorem parseFloatToFixed2_finite (x : ℚ) (hx : |x| < 10 ^ (21 : ℕ)) :
    parseFloatToFixed2 (.finite x) = roundToDouble (toFixed2 x) := by
  simp [parseFloatToFixed2, not_le.mpr hx]

theorem toFixed2_of_nonneg {x : ℚ} (hx : 0 ≤ x) :
    toFixed2 x = ((⌊x * 100 + 1 / 2⌋ : ℤ) : ℚ) / 100 := by
  unfold toFixed2
  rw [if_neg (not_lt.mpr hx)]

theorem calculateBMI_of_pos {w h : ℚ} (hw : 0 < w) (hh : 0 < h) :
    calculateBMI (some w) (some h)
      = some (parseFloatToFixed2 (numberDiv (.finite w)
          (numberMul (numberDiv (.finite h) (.finite 100))
            (numberDiv (.finite h) (.finite 100))))) := by
  simp [calculateBMI, truthy, jsLe, hw.ne', hh.ne', not_le.mpr hw, not_le.mpr hh]

/-- The three roundings of `calculateBMI` and the reading of the decimal, on the ranges
that the form validates: the rounded square `s` of the height in metres, the rounded
quotient `b`, and the returned number `r`, each with the bound on its error. -/
theorem calculateBMI_steps (w h : ℚ) (hw : 0 < w) (hw1000 : w ≤ 1000) (hh30 : 30 ≤ h)
    (hh300 : h ≤ 300) :
    ∃ s b r : ℚ, 8 / 100 ≤ s ∧ |s - h / 100 * (h / 100)| ≤ 16 / 10 ^ (15 : ℕ)
      ∧ 0 ≤ b ∧ |b - w / s| ≤ 2 / 10 ^ (12 : ℕ)
      ∧ roundToDouble (((⌊b * 100 + 1 / 2⌋ : ℤ) : ℚ) / 100) = .finite r
      ∧ |r - ((⌊b * 100 + 1 / 2⌋ : ℤ) : ℚ) / 100| ≤ 2 / 10 ^ (12 : ℕ)
      ∧ 0 ≤ r
      ∧ calculateBMI (some w) (some h) = some (.finite r) := by
  have hh : 0 < h := by linarith
  -- the height in metres
  have hm1 : (3 : ℚ) / 10 ≤ h / 100 := by linarith
  have hm2 : h / 100 ≤ 3 := by linarith
  obtain ⟨a, ha, haerr, -⟩ := roundToDouble_error_16 (h / 100)
    (by rw [abs_of_nonneg (by linarith)]; linarith)
  rw [abs_le] at haerr
  have ha1 : (29 : ℚ) / 100 ≤ a := by norm_num at haerr; linarith
  have ha2 : a ≤ 301 / 100 := by norm_num at haerr; linarith
  -- its square
  have hsq0 : 0 ≤ a * a := by nlinarith
  have hsq2 : a * a ≤ 16 := by nlinarith
  obtain ⟨s, hs, hserr, -⟩ := roundToDouble_error_16 (a * a)
    (by rw [abs_of_nonneg hsq0]; exact hsq2)
  rw [abs_le] at hserr
  have hst : |s - h / 100 * (h / 100)| ≤ 16 / 10 ^ (15 : ℕ) := by
    rw [abs_le]
    norm_num at haerr hserr ⊢
    constructor <;> nlinarith
  have hs1 : (8 : ℚ) / 100 ≤ s := by
    rw [abs_le] at hst
    norm_num at hst
    nlinarith
  have hs0 : 0 < s := by linarith
  -- the quotient
  have hq0 : 0 ≤ w / s := div_nonneg hw.le hs0.le
  have hq2 : w / s ≤ 12500 := by
    rw [div_le_iff₀ hs0]
    nlinarith
  obtain ⟨b, hb, hberr, hbpos⟩ := roundToDouble_error_16384 (w / s)
    (by rw [abs_of_nonneg hq0]; linarith)
  have hb0 : 0 ≤ b := hbpos hq0
  have hb2 : b ≤ 12501 := by
    rw [abs_le] at hberr
    norm_num at hberr
    linarith
  -- the decimal and its reading
  have hfl1 : ((⌊b * 100 + 1 / 2⌋ : ℤ) : ℚ) ≤ b * 100 + 1 / 2 := Int.floor_le _
  have hfl0 : (0 : ℚ) ≤ ((⌊b * 100 + 1 / 2⌋ : ℤ) : ℚ) := by
    have : (0 : ℤ) ≤ ⌊b * 100 + 1 / 2⌋ := Int.floor_nonneg.mpr (by linarith)
    exact_mod_cast this
  have hd0 : (0 : ℚ) ≤ ((⌊b * 100 + 1 / 2⌋ : ℤ) : ℚ) / 100 := div_nonneg hfl0 (by norm_num)
  obtain ⟨r, hr, hrerr, hrpos⟩ := roundToDouble_error_16384
    (((⌊b * 100 + 1 / 2⌋ : ℤ) : ℚ) / 100)
    (by rw [abs_of_nonneg hd0]; linarith)
  refine ⟨s, b, r, hs1, hst, hb0, hberr, hr, hrerr, hrpos hd0, ?_⟩
  rw [calculateBMI_of_pos hw hh, numberDiv_finite _ _ (by norm_num), ha, numberMul_finite, hs,
    numberDiv_finite _ _ hs0.ne', hb,
    parseFloatToFixed2_finite _ (by rw [abs_of_nonneg hb0]; linarith),
    toFixed2_of_nonneg hb0, hr]

/-- The distance between the quotient by the rounded square and the exact quotient. -/
theorem quotient_by_rounded_square (w h s : ℚ) (hw : 0 < w) (hw1000 : w ≤ 1000)
    (hh30 : 30 ≤ h) (hs1 : 8 / 100 ≤ s)
    (hst : |s - h / 100 * (h / 100)| ≤ 16 / 10 ^ (15 : ℕ)) :
    |w / s - w / (h / 100 * (h / 100))| ≤ 3 / 10 ^ (9 : ℕ) := by
  have hs0 : 0 < s := by linarith
  have ht1 : (9 : ℚ) / 100 ≤ h / 100 * (h / 100) := by nlinarith
  have ht0 : 0 < h / 100 * (h / 100) := by linarith
  rw [div_sub_div _ _ hs0.ne' ht0.ne', abs_div, abs_of_pos (mul_pos hs0 ht0),
    div_le_iff₀ (mul_pos hs0 ht0)]
  have hnum : w * (h / 100 * (h / 100)) - s * w = w * (h / 100 * (h / 100) - s) := by ring
  rw [hnum, abs_mul, abs_of_pos hw, abs_sub_comm]
  have h1 : w * |s - h / 100 * (h / 100)| ≤ 1000 * (16 / 10 ^ (15 : ℕ)) :=
    mul_le_mul hw1000 hst (abs_nonneg _) (by norm_num)
  have h2 : (8 : ℚ) / 100 * (9 / 100) ≤ s * (h / 100 * (h / 100)) :=
    mul_le_mul hs1 ht1 (by norm_num) hs0.le
  have h3 : (1000 : ℚ) * (16 / 10 ^ (15 : ℕ)) ≤ 3 / 10 ^ (9 : ℕ) * (8 / 100 * (9 / 100)) := by
    norm_num
  have h4 : (3 : ℚ) / 10 ^ (9 : ℕ) * (8 / 100 * (9 / 100))
      ≤ 3 / 10 ^ (9 : ℕ) * (s * (h / 100 * (h / 100))) :=
    mul_le_mul_of_nonneg_left h2 (by norm_num)
  linarith

/-! ## Claims on the metrics engine -/

/-- C4, the claim as stated fails: for the weight 75.2, which as a number is the binary64
value 5291729562160333 / 2 ^ 46, and the height 160, `calculateBMI` returns the number
that the decimal 29.37 denotes, while the exact quotient is above 29.375 and its nearest
hundredth is 29.38: the returned number is farther than 0.005 from the exact quotient. -/
theorem calculateBMI_not_nearest_hundredth :
    roundToDouble (752 / 10) = .finite (5291729562160333 / 70368744177664)
    ∧ calculateBMI (some (5291729562160333 / 70368744177664)) (some 160)
      = some (.finite (8266920065991967 / 281474976710656))
    ∧ roundToDouble (2937 / 100) = .finite (8266920065991967 / 281474976710656)
    ∧ toFixed2 (5291729562160333 / 70368744177664 / (160 / 100 * (160 / 100))) = 2938 / 100
    ∧ roundToDouble (2938 / 100) = .finite (8269734815759073 / 281474976710656)
    ∧ |(2938 : ℚ) / 100 - 5291729562160333 / 70368744177664 / (160 / 100 * (160 / 100))|
      < 1 / 200
    ∧ 1 / 200 < |(8266920065991967 : ℚ) / 281474976710656
        - 5291729562160333 / 70368744177664 / (160 / 100 * (160 / 100))| := by
  refine ⟨literal_75_2, ?_, decimal_29_37, ?_, decimal_29_38, ?_, ?_⟩
  · have hfix : toFixed2 (8268327440875519 / 281474976710656) = 2937 / 100 := by
      rw [toFixed2_of_nonneg (by norm_num)]
      have hf : ⌊(8268327440875519 / 281474976710656 : ℚ) * 100 + 1 / 2⌋ = 2937 := by
        rw [Int.floor_eq_iff]
        norm_num
      rw [hf]
      norm_num
    rw [calculateBMI_of_pos (by norm_num) (by norm_num), numberDiv_finite _ _ (by norm_num),
      quotient_160_100, numberMul_finite, square_of_quotient_160_100,
      numberDiv_finite _ _ (by norm_num), quotient_75_2_by_square,
      parseFloatToFixed2_finite _ (by rw [abs_of_nonneg (by norm_num)]; norm_num),
      hfix, decimal_29_37]
  · rw [toFixed2_of_nonneg (by norm_num)]
    have hf : ⌊(5291729562160333 / 70368744177664 / (160 / 100 * (160 / 100)) : ℚ) * 100
        + 1 / 2⌋ = 2938 := by
      rw [Int.floor_eq_iff]
      norm_num
    rw [hf]
    norm_num
  · rw [abs_lt]
    norm_num
  · rw [lt_abs]
    right
    norm_num

/-- C4, amended. For a weight in (0, 1000] and a height in [30, 300], the ranges that the
form validates, `calculateBMI` returns the binary64 number `r` nearest to a hundredth
`n / 100` that lies within 0.005 + 10^-8 of the exact quotient `weight / (height/100)^2`;
`r` is within 2 * 10^-12 of `n / 100`, and `n / 100` is the nearest hundredth of the exact
quotient whenever that quotient is not within 10^-8 of the midpoint of two hundredths. -/
theorem calculateBMI_near_hundredth (w h : ℚ) (hw : 0 < w) (hw1000 : w ≤ 1000)
    (hh30 : 30 ≤ h) (hh300 : h ≤ 300) :
    ∃ (n : ℤ) (r : ℚ), calculateBMI (some w) (some h) = some (.finite r)
      ∧ roundToDouble ((n : ℚ) / 100) = .finite r
      ∧ |r - (n : ℚ) / 100| ≤ 2 / 10 ^ (12 : ℕ)
      ∧ |(n : ℚ) / 100 - w / (h / 100) ^ 2| ≤ 1 / 200 + 1 / 10 ^ (8 : ℕ)
      ∧ ∀ m : ℤ, |w / (h / 100) ^ 2 - (m : ℚ) / 100| ≤ 1 / 200 - 1 / 10 ^ (8 : ℕ) → n = m := by
  obtain ⟨s, b, r, hs1, hst, hb0, hberr, hr, hrerr, -, hcalc⟩ :=
    calculateBMI_steps w h hw hw1000 hh30 hh300
  have hq := quotient_by_rounded_square w h s hw hw1000 hh30 hs1 hst
  have hsq : w / (h / 100) ^ 2 = w / (h / 100 * (h / 100)) := by rw [pow_two]
  rw [abs_le] at hberr hq
  norm_num at hberr hq
  have hfl1 : ((⌊b * 100 + 1 / 2⌋ : ℤ) : ℚ) ≤ b * 100 + 1 / 2 := Int.floor_le _
  have hfl2 : b * 100 + 1 / 2 < ((⌊b * 100 + 1 / 2⌋ : ℤ) : ℚ) + 1 := Int.lt_floor_add_one _
  refine ⟨⌊b * 100 + 1 / 2⌋, r, hcalc, hr, hrerr, ?_, ?_⟩
  · rw [hsq, abs_le]
    norm_num
    constructor <;> linarith
  · intro m hm
    rw [hsq, abs_le] at hm
    norm_num at hm
    rw [Int.floor_eq_iff]
    constructor <;> linarith

theorem calculateBMI_near_hundredth_witness :
    ∃ (n : ℤ) (r : ℚ), calculateBMI (some 70) (some 175) = some (.finite r)
      ∧ roundToDouble ((n : ℚ) / 100) = .finite r
      ∧ |r - (n : ℚ) / 100| ≤ 2 / 10 ^ (12 : ℕ)
      ∧ |(n : ℚ) / 100 - 70 / (175 / 100) ^ 2| ≤ 1 / 200 + 1 / 10 ^ (8 : ℕ)
      ∧ ∀ m : ℤ, |70 / (175 / 100) ^ 2 - (m : ℚ) / 100| ≤ 1 / 200 - 1 / 10 ^ (8 : ℕ) → n = m :=
  calculateBMI_near_hundredth 70 175 (by norm_num) (by norm_num) (by norm_num) (by norm_num)

/-- C5. The result of `calculateBMI` is `null` exactly when the weight is missing or at
most 0 or the height is missing or at most 0; for two numbers it is a number exactly when
both are positive. -/
theorem calculateBMI_null_iff (weight height : Option ℚ) :
    (calculateBMI weight height = none
      ↔ (weight = none ∨ (∃ w, weight = some w ∧ w ≤ 0)
          ∨ height = none ∨ (∃ h, height = some h ∧ h ≤ 0)))
    ∧ (∀ w h : ℚ, (∃ b, calculateBMI (some w) (some h) = some b) ↔ (0 < w ∧ 0 < h)) := by
  constructor
  · rcases weight with _ | w <;> rcases height with _ | h
    · simp [calculateBMI, truthy]
    · simp [calculateBMI, truthy]
    · simp [calculateBMI, truthy]
    · by_cases hw : 0 < w <;> by_cases hh : 0 < h
      · simp [calculateBMI_of_pos hw hh, not_le.mpr hw, not_le.mpr hh]
      · have hh' : h ≤ 0 := not_lt.mp hh
        simp [calculateBMI, truthy, jsLe, hh']
      · have hw' : w ≤ 0 := not_lt.mp hw
        simp [calculateBMI, truthy, jsLe, hw']
      · have hw' : w ≤ 0 := not_lt.mp hw
        simp [calculateBMI, truthy, jsLe, hw']
  · intro w h
    by_cases hw : 0 < w <;> by_cases hh : 0 < h
    · simp [calculateBMI_of_pos hw hh, hw, hh]
    · have hh' : h ≤ 0 := not_lt.mp hh
      simp [calculateBMI, truthy, jsLe, hh', hh]
    · have hw' : w ≤ 0 := not_lt.mp hw
      simp [calculateBMI, truthy, jsLe, hw', hw]
    · have hw' : w ≤ 0 := not_lt.mp hw
      simp [calculateBMI, truthy, jsLe, hw', hw]

theorem getBMICategory_some (q : ℚ) :
    getBMICategory (some q) =
      if q ≤ 0 then "Unknown"
      else if q < 18.5 then "Underweight"
      else if q < 25 then "Normal"
      else if q < 30 then "Overweight"
      else "Obese" := by
  unfold getBMICategory
  by_cases h0 : q ≤ 0
  · simp [truthy, jsLe, h0]
  · have : q ≠ 0 := fun h => h0 (le_of_eq h)
    simp [truthy, jsLe, jsLt, h0, this]

/-- C6. The category of `getBMICategory` is Unknown exactly for a missing or non-positive
BMI, Underweight exactly for `0 < bmi < 18.5`, Normal exactly for `18.5 <= bmi < 25`,
Overweight exactly for `25 <= bmi < 30` and Obese exactly for `bmi >= 30`; 18.49 is
Underweight, 18.5 and 24.99 are Normal, 25 and 29.99 are Overweight and 30 is Obese. -/
theorem getBMICategory_ladder :
    getBMICategory none = "Unknown"
    ∧ (∀ q : ℚ,
        (getBMICategory (some q) = "Unknown" ↔ q ≤ 0)
        ∧ (getBMICategory (some q) = "Underweight" ↔ (0 < q ∧ q < 18.5))
        ∧ (getBMICategory (some q) = "Normal" ↔ (18.5 ≤ q ∧ q < 25))
        ∧ (getBMICategory (some q) = "Overweight" ↔ (25 ≤ q ∧ q < 30))
        ∧ (getBMICategory (some q) = "Obese" ↔ 30 ≤ q))
    ∧ getBMICategory (some 18.49) = "Underweight"
    ∧ getBMICategory (some 18.5) = "Normal"
    ∧ getBMICategory (some 24.99) = "Normal"
    ∧ getBMICategory (some 25) = "Overweight"
    ∧ getBMICategory (some 29.99) = "Overweight"
    ∧ getBMICategory (some 30) = "Obese" := by
  refine ⟨by simp [getBMICategory, truthy], ?_, ?_, ?_, ?_, ?_, ?_, ?_⟩
  · intro q
    rw [getBMICategory_some]
    refine ⟨?_, ?_, ?_, ?_, ?_⟩ <;> split_ifs <;> simp <;>
      first | linarith | (intros; linarith) | (constructor <;> linarith)
  all_goals (rw [getBMICategory_some]; norm_num)

theorem ite_append_self {α : Type} (c : Prop) [Decidable c] (l : List α) (a : α) :
    (if c then l ++ [a] else l) = l ++ (if c then [a] else []) := by
  split_ifs <;> simp

theorem ite_append_same {α : Type} (c : Prop) [Decidable c] (l x y : List α) :
    (if c then l ++ x else l ++ y) = l ++ (if c then x else y) := by
  split_ifs <;> rfl

/-- C7. The result of `generateRecommendations` is the list of the matching rules in
the order weight, exercise, smoking, sleep, hydration, each at most once and so at most
five: weight (high) for an Overweight or Obese category and weight (medium) for
Underweight; exercise (high) for frequency Never or Rarely; smoking (high) when the
smoking field is not "Never"; sleep (medium) for sleep hours below 7; hydration (medium)
for a water intake below 8.  The example record yields all five. -/
theorem generateRecommendations_rules :
    (∀ r : HealthRecord,
      (generateRecommendations r).map (fun x => (x.type, x.priority)) =
        (if getBMICategory (r.bmi.bind Bmi.value) = "Overweight"
              ∨ getBMICategory (r.bmi.bind Bmi.value) = "Obese" then [("weight", "high")]
          else if getBMICategory (r.bmi.bind Bmi.value) = "Underweight" then
            [("weight", "medium")]
          else [])
        ++ (if (r.lifestyleHabits.bind LifestyleHabits.exercise).bind Exercise.frequency
                = some "Never"
              ∨ (r.lifestyleHabits.bind LifestyleHabits.exercise).bind Exercise.frequency
                = some "Rarely" then [("exercise", "high")]
            else [])
        ++ (if r.lifestyleHabits.bind LifestyleHabits.smoking ≠ some "Never" then
              [("smoking", "high")]
            else [])
        ++ (if jsLt ((r.lifestyleHabits.bind LifestyleHabits.sleep).bind Sleep.hoursPerNight) 7
              then [("sleep", "medium")]
            else [])
        ++ (if jsLt (r.lifestyleHabits.bind LifestyleHabits.waterIntake) 8 then
              [("hydration", "medium")]
            else []))
    ∧ (∀ r : HealthRecord,
        List.Sublist ((generateRecommendations r).map Recommendation.type)
          ["weight", "exercise", "smoking", "sleep", "hydration"])
    ∧ (∀ r : HealthRecord, (generateRecommendations r).length ≤ 5)
    ∧ (generateRecommendations recommendationExample).map Recommendation.type
        = ["weight", "exercise", "smoking", "sleep", "hydration"]
    ∧ (generateRecommendations recommendationExample).length = 5 := by
  have hsub : ∀ r : HealthRecord,
      List.Sublist ((generateRecommendations r).map Recommendation.type)
        ["weight", "exercise", "smoking", "sleep", "hydration"] := by
    intro r
    unfold generateRecommendations
    simp only [List.nil_append, ite_append_same, ite_append_self, List.map_append]
    split_ifs <;> decide
  have hex : (generateRecommendations recommendationExample).map Recommendation.type
      = ["weight", "exercise", "smoking", "sleep", "hydration"] := by
    simp [generateRecommendations, recommendationExample, getBMICategory, truthy, jsLe, jsLt]
    norm_num
  refine ⟨?_, hsub, ?_, hex, ?_⟩
  · intro r
    unfold generateRecommendations
    simp only [List.nil_append, ite_append_same, ite_append_self, List.map_append]
    congr 1
    congr 1
    congr 1
    congr 1
    all_goals (split_ifs <;> rfl)
  · intro r
    have h := (hsub r).length_le
    simpa using h
  · have h := congrArg List.length hex
    simpa using h

/-! ## Auxiliary lemmas on the query pipeline -/

theorem includes_empty (s : String) : includes s "" = true := by
  simp [includes]

theorem matchesSearch_of_fields (lc : String → String) (term : String) (r : HealthRecord)
    (h : hasSearchFields r = true) :
    matchesSearch lc term r = .ok (searchMatches lc term r) := by
  obtain ⟨name, email, age, bmi, hs, ca, lh, iss⟩ := r
  rcases name with _ | name <;> rcases email with _ | email <;> rcases bmi with _ | ⟨v, _ | cat⟩ <;>
    simp [hasSearchFields] at h
  simp only [matchesSearch, searchMatches, containsTerm, Option.bind]
  split_ifs <;> simp_all

theorem arrayFilter_of_ok {α : Type} (callback : α → Except JsError Bool) (p : α → Bool) :
    ∀ l : List α, (∀ a ∈ l, callback a = .ok (p a)) →
      arrayFilter callback l = .ok (l.filter p)
  | [], _ => rfl
  | a :: l, h => by
    have ha := h a (List.mem_cons_self a l)
    have hl := arrayFilter_of_ok callback p l (fun b hb => h b (List.mem_cons_of_mem a hb))
    simp only [arrayFilter, ha, hl, List.filter_cons]

theorem arrayFilter_kept {α : Type} (callback : α → Except JsError Bool) :
    ∀ (l out : List α), arrayFilter callback l = .ok out →
      out.Sublist l ∧ ∀ a ∈ out, callback a = .ok true
  | [], out, h => by
    simp only [arrayFilter, Except.ok.injEq] at h
    subst h
    simp
  | a :: l, out, h => by
    simp only [arrayFilter] at h
    cases hc : callback a with
    | error e => simp [hc] at h
    | ok keep =>
      cases hr : arrayFilter callback l with
      | error e => simp [hc, hr] at h
      | ok rest =>
        simp only [hc, hr, Except.ok.injEq] at h
        obtain ⟨hsub, hall⟩ := arrayFilter_kept callback l rest hr
        cases keep with
        | false =>
          simp only [Bool.false_eq_true, if_false] at h
          subst h
          exact ⟨hsub.cons a, hall⟩
        | true =>
          simp only [if_true] at h
          subst h
          refine ⟨hsub.cons₂ a, ?_⟩
          intro b hb
          rcases List.mem_cons.mp hb with rfl | hb
          · exact hc
          · exact hall b hb

theorem arrayFilter_all_true {α : Type} (callback : α → Except JsError Bool) :
    ∀ l : List α, (∀ a ∈ l, callback a = .ok true) → arrayFilter callback l = .ok l := by
  intro l h
  have := arrayFilter_of_ok callback (fun _ => true) l h
  simpa using this

/-! ## Claims on the search filter -/

/-- C8. On records that have a name, an email and a BMI category, the filter step keeps
exactly the records whose lower-cased name, email or BMI category contains the lower-cased
search term, in their original order; the empty search term keeps every record.  The
lower-casing function is any function that maps the empty string to itself. -/
theorem filterStep_keeps_matches (lc : String → String) (hlc : lc "" = "") (term : String)
    (records : List HealthRecord) (hfields : ∀ r ∈ records, hasSearchFields r = true) :
    filterStep lc term records = .ok (records.filter (searchMatches lc term))
    ∧ (records.filter (searchMatches lc term)).Sublist records
    ∧ (∀ r, r ∈ records.filter (searchMatches lc term)
        ↔ (r ∈ records ∧ searchMatches lc term r = true))
    ∧ filterStep lc "" records = .ok records := by
  refine ⟨?_, List.filter_sublist records, fun r => List.mem_filter, by simp [filterStep]⟩
  unfold filterStep
  by_cases ht : term = ""
  · subst ht
    have hall : ∀ r ∈ records, searchMatches lc "" r = true := by
      intro r hr
      have h := hfields r hr
      obtain ⟨name, email, age, bmi, hs, ca, lh, iss⟩ := r
      rcases name with _ | name
      · simp [hasSearchFields] at h
      · simp [searchMatches, containsTerm, includes, hlc]
    simp [List.filter_eq_self.mpr hall]
  · simp only [ne_eq, ht, not_false_eq_true, if_true]
    exact arrayFilter_of_ok _ _ records
      (fun r hr => matchesSearch_of_fields lc term r (hfields r hr))

theorem filterStep_keeps_matches_witness :
    filterStep asciiLower "OB" sampleRecords
        = .ok (sampleRecords.filter (searchMatches asciiLower "OB"))
    ∧ (sampleRecords.filter (searchMatches asciiLower "OB")).Sublist sampleRecords
    ∧ (∀ r, r ∈ sampleRecords.filter (searchMatches asciiLower "OB")
        ↔ (r ∈ sampleRecords ∧ searchMatches asciiLower "OB" r = true))
    ∧ filterStep asciiLower "" sampleRecords = .ok sampleRecords :=
  filterStep_keeps_matches asciiLower (by decide) "OB" sampleRecords (by decide)

/-- C9. Filtering the output of the filter step again with the same search term returns
that output unchanged; on records that have a name, an email and a BMI category the
filter step does return an output. -/
theorem filterStep_idempotent (lc : String → String) (term : String)
    (records : List HealthRecord) :
    (∀ out, filterStep lc term records = .ok out → filterStep lc term out = .ok out)
    ∧ ((∀ r ∈ records, hasSearchFields r = true) →
        ∃ out, filterStep lc term records = .ok out ∧ filterStep lc term out = .ok out) := by
  have hidem : ∀ out, filterStep lc term records = .ok out →
      filterStep lc term out = .ok out := by
    intro out h
    unfold filterStep at h ⊢
    by_cases ht : term = ""
    · simp [ht]
    · simp only [ne_eq, ht, not_false_eq_true, if_true] at h ⊢
      exact arrayFilter_all_true _ out (arrayFilter_kept _ records out h).2
  refine ⟨hidem, fun hfields => ?_⟩
  by_cases ht : term = ""
  · exact ⟨records, by simp [filterStep, ht], by simp [filterStep, ht]⟩
  · have h : filterStep lc term records = .ok (records.filter (searchMatches lc term)) := by
      simp only [filterStep, ne_eq, ht, not_false_eq_true, if_true]
      exact arrayFilter_of_ok _ _ records
        (fun r hr => matchesSearch_of_fields lc term r (hfields r hr))
    exact ⟨_, h, hidem _ h⟩

theorem filterStep_idempotent_witness :
    ∃ out, filterStep asciiLower "OB" sampleRecords = .ok out
      ∧ filterStep asciiLower "OB" out = .ok out :=
  (filterStep_idempotent asciiLower "OB" sampleRecords).2 (by decide)

theorem filterStep_sample :
    filterStep asciiLower "OB" sampleRecords
      = .ok [ { name := some "Bob", email := some "bob@example.com", age := some 29,
                bmi := some { value := some 31, category := some "Obese" },
                healthScore := some 55, createdAt := some 2000, lifestyleHabits := none,
                existingHealthIssues := none } ] := by
  rfl

/-! ## Auxiliary lemmas on the sort step -/

/-- Insertion into a sorted list, for a comparator that does not raise on a class `S` of
elements and decides there a total, transitive order `le`. -/
theorem sortInsert_spec {α : Type} (comparator : α → α → Except JsError (Option ℚ))
    (S : α → Prop) (le : α → α → Prop)
    (hcmp : ∀ a b, S a → S b → ∃ v, comparator a b = .ok v ∧ (notAfter v = true ↔ le a b))
    (htot : ∀ a b, S a → S b → le a b ∨ le b a)
    (htrans : ∀ a b c, S a → S b → S c → le a b → le b c → le a c)
    (a : α) (ha : S a) :
    ∀ l : List α, (∀ x ∈ l, S x) → l.Pairwise le →
      ∃ out, sortInsert comparator a l = .ok out
        ∧ out.Perm (a :: l)
        ∧ out.Pairwise le
        ∧ ∀ p : α → Bool, (∀ b ∈ l, p a = true → p b = true → le a b) →
            out.filter p = (a :: l).filter p
  | [], _, _ => ⟨[a], rfl, List.Perm.refl _, List.pairwise_singleton _ _, fun _ _ => rfl⟩
  | b :: l, hS, hsorted => by
    have hb : S b := hS b (List.mem_cons_self b l)
    have hSl : ∀ x ∈ l, S x := fun x hx => hS x (List.mem_cons_of_mem b hx)
    obtain ⟨hbl, hl⟩ := List.pairwise_cons.mp hsorted
    obtain ⟨v, hv, hiff⟩ := hcmp a b ha hb
    by_cases hna : notAfter v = true
    · have hab : le a b := hiff.mp hna
      refine ⟨a :: b :: l, by simp [sortInsert, hv, hna], List.Perm.refl _, ?_, fun _ _ => rfl⟩
      refine List.pairwise_cons.mpr ⟨?_, hsorted⟩
      intro c hc
      rcases List.mem_cons.mp hc with rfl | hc
      · exact hab
      · exact htrans a b c ha hb (hSl c hc) hab (hbl c hc)
    · have hab : ¬ le a b := fun h => hna (hiff.mpr h)
      have hba : le b a := (htot a b ha hb).resolve_left hab
      obtain ⟨rest, hrest, hperm, hpw, hstable⟩ :=
        sortInsert_spec comparator S le hcmp htot htrans a ha l hSl hl
      refine ⟨b :: rest, by simp [sortInsert, hv, hna, hrest], ?_, ?_, ?_⟩
      · exact (hperm.cons b).trans (List.Perm.swap a b l)
      · refine List.pairwise_cons.mpr ⟨?_, hpw⟩
        intro c hc
        rcases List.mem_cons.mp (hperm.mem_iff.mp hc) with rfl | hc
        · exact hba
        · exact hbl c hc
      · intro p hp
        have hrest' := hstable p (fun c hc => hp c (List.mem_cons_of_mem b hc))
        by_cases hpb : p b = true
        · have hpa : ¬ p a = true := fun hpa => hab (hp b (List.mem_cons_self b l) hpa hpb)
          simp only [List.filter_cons, hpb, if_true, hrest', hpa, if_false]
          simp
        · by_cases hpa : p a = true <;>
            simp [List.filter_cons, hpb, hrest', hpa]

/-- The sort of the model returns a sorted, stable permutation, for a comparator that
does not raise on a class `S` of elements and decides there a total, transitive order. -/
theorem arraySort_spec {α : Type} (comparator : α → α → Except JsError (Option ℚ))
    (S : α → Prop) (le : α → α → Prop)
    (hcmp : ∀ a b, S a → S b → ∃ v, comparator a b = .ok v ∧ (notAfter v = true ↔ le a b))
    (htot : ∀ a b, S a → S b → le a b ∨ le b a)
    (htrans : ∀ a b c, S a → S b → S c → le a b → le b c → le a c) :
    ∀ l : List α, (∀ x ∈ l, S x) →
      ∃ out, arraySort comparator l = .ok out
        ∧ out.Perm l
        ∧ out.Pairwise le
        ∧ ∀ p : α → Bool, (∀ a ∈ l, ∀ b ∈ l, p a = true → p b = true → le a b) →
            out.filter p = l.filter p
  | [], _ => ⟨[], rfl, List.Perm.refl _, List.Pairwise.nil, fun _ _ => rfl⟩
  | a :: l, hS => by
    have ha : S a := hS a (List.mem_cons_self a l)
    have hSl : ∀ x ∈ l, S x := fun x hx => hS x (List.mem_cons_of_mem a hx)
    obtain ⟨sorted, hsorted, hperm, hpw, hstable⟩ :=
      arraySort_spec comparator S le hcmp htot htrans l hSl
    obtain ⟨out, hout, hperm', hpw', hstable'⟩ :=
      sortInsert_spec comparator S le hcmp htot htrans a ha sorted
        (fun x hx => hSl x (hperm.mem_iff.mp hx)) hpw
    refine ⟨out, by simp [arraySort, hsorted, hout], hperm'.trans (hperm.cons a), hpw', ?_⟩
    intro p hp
    have h1 := hstable' p (fun b hb =>
      hp a (List.mem_cons_self a l) b (List.mem_cons_of_mem a (hperm.mem_iff.mp hb)))
    have h2 := hstable p (fun x hx y hy =>
      hp x (List.mem_cons_of_mem a hx) y (List.mem_cons_of_mem a hy))
    rw [h1, List.filter_cons, List.filter_cons, h2]

theorem notAfter_sub (x y : ℚ) : notAfter (jsSub (some x) (some y)) = true ↔ x ≤ y := by
  simp [notAfter, jsSub]

theorem notAfter_int (c : ℤ) : notAfter (some (c : ℚ)) = true ↔ c ≤ 0 := by
  simp [notAfter]

theorem sortValue_name (lc : String → String) (r : HealthRecord) (n : String)
    (h : r.name = some n) : sortValue lc "name" r = .ok (.str (lc n)) := by
  simp [sortValue, h]

theorem sortValue_numeric (lc : String → String) (sortBy : String) (r : HealthRecord) (x : ℚ)
    (hs : sortBy ≠ "name") (h : numericKey sortBy r = some x) :
    sortValue lc sortBy r = .ok (.num (some x)) := by
  unfold numericKey at h
  unfold sortValue
  rw [if_neg hs]
  split_ifs at h ⊢
  · rw [h]
  · rcases hb : r.bmi with _ | b
    · simp [hb] at h
    · simp [hb] at h
      simp [h]
  · rw [h]
  · rw [h]

theorem ConsistentComparator.total {compare : String → String → ℤ}
    (h : ConsistentComparator compare) (a b : String) : compare a b ≤ 0 ∨ compare b a ≤ 0 := by
  by_cases hab : compare a b ≤ 0
  · exact Or.inl hab
  · exact Or.inr ((h.1 b a).mpr (le_of_lt (not_le.mp hab)))

theorem compareChars_flip : ∀ s t : List Char, compareChars t s = - compareChars s t
  | [], [] => rfl
  | [], _ :: _ => rfl
  | _ :: _, [] => rfl
  | a :: s, b :: t => by
    have ih := compareChars_flip s t
    simp only [compareChars]
    split_ifs <;> omega

theorem compareChars_trans : ∀ s t u : List Char,
    compareChars s t ≤ 0 → compareChars t u ≤ 0 → compareChars s u ≤ 0
  | [], _, [] => fun _ _ => by simp [compareChars]
  | [], _, _ :: _ => fun _ _ => by simp [compareChars]
  | _ :: _, [], _ => fun h _ => by simp [compareChars] at h
  | _ :: _, _ :: _, [] => fun _ h => by simp [compareChars] at h
  | a :: s, b :: t, c :: u => by
    have ih := compareChars_trans s t u
    simp only [compareChars]
    intro h1 h2
    split_ifs at h1 h2 ⊢ <;> omega

theorem codePointCompare_consistent : ConsistentComparator codePointCompare := by
  constructor
  · intro a b
    unfold codePointCompare
    rw [compareChars_flip a.data b.data]
    omega
  · intro a b c
    exact compareChars_trans a.data b.data c.data

/-- The order the comparator of `filterRecords` decides, for one sort order. -/
theorem compareRecords_decides (lc : String → String) (localeCompare : String → String → ℤ)
    (sortBy sortOrder : String) (a b : HealthRecord)
    (ha : hasSortKey sortBy a = true) (hb : hasSortKey sortBy b = true) :
    ∃ v, compareRecords lc localeCompare sortBy sortOrder a b = .ok v
      ∧ (notAfter v = true ↔
          (if sortOrder = "asc" then keyLe lc localeCompare sortBy a b = true
            else keyLe lc localeCompare sortBy b a = true)) := by
  by_cases hs : sortBy = "name"
  · subst hs
    simp only [hasSortKey, if_true] at ha hb
    obtain ⟨x, hx⟩ := Option.isSome_iff_exists.mp ha
    obtain ⟨y, hy⟩ := Option.isSome_iff_exists.mp hb
    by_cases ho : sortOrder = "asc"
    · refine ⟨some (localeCompare (lc x) (lc y) : ℚ), ?_, ?_⟩
      · simp [compareRecords, sortValue_name lc a x hx, sortValue_name lc b y hy, ho]
      · simp [notAfter_int, keyLe, hx, hy, ho]
    · refine ⟨some (localeCompare (lc y) (lc x) : ℚ), ?_, ?_⟩
      · simp [compareRecords, sortValue_name lc a x hx, sortValue_name lc b y hy, ho]
      · simp [notAfter_int, keyLe, hx, hy, ho]
  · simp only [hasSortKey, if_neg hs] at ha hb
    obtain ⟨x, hx⟩ := Option.isSome_iff_exists.mp ha
    obtain ⟨y, hy⟩ := Option.isSome_iff_exists.mp hb
    by_cases ho : sortOrder = "asc"
    · refine ⟨jsSub (some x) (some y), ?_, ?_⟩
      · simp [compareRecords, sortValue_numeric lc sortBy a x hs hx,
          sortValue_numeric lc sortBy b y hs hy, ho]
      · simp [notAfter_sub, keyLe, hs, hx, hy, ho]
    · refine ⟨jsSub (some y) (some x), ?_, ?_⟩
      · simp [compareRecords, sortValue_numeric lc sortBy a x hs hx,
          sortValue_numeric lc sortBy b y hs hy, ho]
      · simp [notAfter_sub, keyLe, hs, hx, hy, ho]

theorem keyLe_total (lc : String → String) (localeCompare : String → String → ℤ)
    (hcons : ConsistentComparator localeCompare) (sortBy : String) (a b : HealthRecord)
    (ha : hasSortKey sortBy a = true) (hb : hasSortKey sortBy b = true) :
    keyLe lc localeCompare sortBy a b = true ∨ keyLe lc localeCompare sortBy b a = true := by
  by_cases hs : sortBy = "name"
  · subst hs
    simp only [hasSortKey, if_true] at ha hb
    obtain ⟨x, hx⟩ := Option.isSome_iff_exists.mp ha
    obtain ⟨y, hy⟩ := Option.isSome_iff_exists.mp hb
    simpa [keyLe, hx, hy] using hcons.total (lc x) (lc y)
  · simp only [hasSortKey, if_neg hs] at ha hb
    obtain ⟨x, hx⟩ := Option.isSome_iff_exists.mp ha
    obtain ⟨y, hy⟩ := Option.isSome_iff_exists.mp hb
    simpa [keyLe, hs, hx, hy] using le_total x y

theorem keyLe_trans (lc : String → String) (localeCompare : String → String → ℤ)
    (hcons : ConsistentComparator localeCompare) (sortBy : String) (a b c : HealthRecord)
    (hab : keyLe lc localeCompare sortBy a b = true)
    (hbc : keyLe lc localeCompare sortBy b c = true) :
    keyLe lc localeCompare sortBy a c = true := by
  by_cases hs : sortBy = "name"
  · subst hs
    simp only [keyLe, if_true] at hab hbc ⊢
    rcases hx : a.name with _ | x <;> rcases hy : b.name with _ | y <;>
      rcases hz : c.name with _ | z <;> simp [hx, hy, hz] at hab hbc ⊢
    exact hcons.2 _ _ _ hab hbc
  · simp only [keyLe, if_neg hs] at hab hbc ⊢
    rcases hx : numericKey sortBy a with _ | x <;> rcases hy : numericKey sortBy b with _ | y <;>
      rcases hz : numericKey sortBy c with _ | z <;> simp [hx, hy, hz] at hab hbc ⊢
    exact le_trans hab hbc

/-! ## Claim on the sort step -/

/-- C10. On records whose sort key is well defined, and with a consistent
`localeCompare`, the sort step returns a permutation of its input ordered by the chosen
key (lower-cased name, age, `bmi.value`, `healthScore`, or the `createdAt` time for
`createdAt` and every other `sortBy`): keys are non-decreasing along the result for the
order `asc` and non-increasing for every other order, and the records whose key equals
that of any given record appear in the result in their input order. -/
theorem sortStep_sorted_stable (lc : String → String) (localeCompare : String → String → ℤ)
    (hcons : ConsistentComparator localeCompare) (sortBy sortOrder : String)
    (records : List HealthRecord) (hkeys : ∀ r ∈ records, hasSortKey sortBy r = true) :
    ∃ out, sortStep lc localeCompare sortBy sortOrder records = .ok out
      ∧ out.Perm records
      ∧ (sortOrder = "asc" →
          out.Pairwise (fun a b => keyLe lc localeCompare sortBy a b = true))
      ∧ (sortOrder ≠ "asc" →
          out.Pairwise (fun a b => keyLe lc localeCompare sortBy b a = true))
      ∧ ∀ k : HealthRecord,
          out.filter (keyEq lc localeCompare sortBy k)
            = records.filter (keyEq lc localeCompare sortBy k) := by
  obtain ⟨out, hout, hperm, hpw, hstable⟩ :=
    arraySort_spec (compareRecords lc localeCompare sortBy sortOrder)
      (fun r => hasSortKey sortBy r = true)
      (fun a b => if sortOrder = "asc" then keyLe lc localeCompare sortBy a b = true
        else keyLe lc localeCompare sortBy b a = true)
      (compareRecords_decides lc localeCompare sortBy sortOrder)
      (by
        intro a b ha hb
        by_cases ho : sortOrder = "asc"
        · simpa [ho] using keyLe_total lc localeCompare hcons sortBy a b ha hb
        · simpa [ho] using keyLe_total lc localeCompare hcons sortBy b a hb ha)
      (by
        intro a b c _ _ _ hab hbc
        by_cases ho : sortOrder = "asc"
        · simp only [ho, if_true] at hab hbc ⊢
          exact keyLe_trans lc localeCompare hcons sortBy a b c hab hbc
        · simp only [ho, if_false] at hab hbc ⊢
          exact keyLe_trans lc localeCompare hcons sortBy c b a hbc hab)
      records hkeys
  refine ⟨out, hout, hperm, ?_, ?_, ?_⟩
  · intro ho
    simpa [ho] using hpw
  · intro ho
    simpa [ho] using hpw
  · intro k
    apply hstable
    intro a _ b _ hka hkb
    simp only [keyEq, Bool.and_eq_true] at hka hkb
    by_cases ho : sortOrder = "asc"
    · simp only [ho, if_true]
      exact keyLe_trans lc localeCompare hcons sortBy a k b hka.2 hkb.1
    · simp only [ho, if_false]
      exact keyLe_trans lc localeCompare hcons sortBy b k a hkb.2 hka.1

theorem sortStep_sorted_stable_witness :
    ∃ out, sortStep asciiLower codePointCompare "age" "asc" sampleRecords = .ok out
      ∧ out.Perm sampleRecords
      ∧ ("asc" = "asc" →
          out.Pairwise (fun a b => keyLe asciiLower codePointCompare "age" a b = true))
      ∧ ("asc" ≠ "asc" →
          out.Pairwise (fun a b => keyLe asciiLower codePointCompare "age" b a = true))
      ∧ ∀ k : HealthRecord,
          out.filter (keyEq asciiLower codePointCompare "age" k)
            = sampleRecords.filter (keyEq asciiLower codePointCompare "age" k) :=
  sortStep_sorted_stable asciiLower codePointCompare codePointCompare_consistent "age" "asc"
    sampleRecords (by decide)

theorem sortStep_sample_age :
    (sortStep asciiLower codePointCompare "age" "asc" sampleRecords).map
        (List.map HealthRecord.name)
      = .ok [some "alice", some "Bob", some "Carol"] := by
  have hk : ("age" : String) ≠ "name" := by decide
  norm_num [sortStep, arraySort, sortInsert, compareRecords, sortValue, sampleRecords, jsSub,
    notAfter, Except.map, hk]

theorem sortStep_sample_name :
    (sortStep asciiLower codePointCompare "name" "desc" sampleRecords).map
        (List.map HealthRecord.name)
      = .ok [some "Carol", some "Bob", some "alice"] := by
  have h1 : codePointCompare (asciiLower "alice") (asciiLower "Bob") = -1 := by decide
  have h2 : codePointCompare (asciiLower "alice") (asciiLower "Carol") = -1 := by decide
  have h3 : codePointCompare (asciiLower "Bob") (asciiLower "Carol") = -1 := by decide
  have h1' : codePointCompare (asciiLower "Bob") (asciiLower "alice") = 1 := by decide
  have h2' : codePointCompare (asciiLower "Carol") (asciiLower "alice") = 1 := by decide
  have h3' : codePointCompare (asciiLower "Carol") (asciiLower "Bob") = 1 := by decide
  have hk : ("desc" : String) ≠ "asc" := by decide
  norm_num [sortStep, arraySort, sortInsert, compareRecords, sortValue, sampleRecords,
    notAfter, Except.map, h1, h2, h3, h1', h2', h3', hk]

/-! ## Auxiliary lemmas on pagination -/

theorem ceil_div_six (n q : ℕ) (hq : q = (n + 5) / 6) :
    ⌈(n : ℚ) / ((6 : ℕ) : ℚ)⌉ = (q : ℤ) := by
  rw [Int.ceil_eq_iff]
  have h1 : 6 * q ≤ n + 5 := by omega
  have h3 : n ≤ 6 * q := by omega
  have h1q : ((6 * q : ℕ) : ℚ) ≤ ((n + 5 : ℕ) : ℚ) := by exact_mod_cast h1
  have h3q : ((n : ℕ) : ℚ) ≤ ((6 * q : ℕ) : ℚ) := by exact_mod_cast h3
  push_cast at h1q h3q ⊢
  constructor
  · rw [lt_div_iff₀ (by norm_num)]
    linarith
  · rw [div_le_iff₀ (by norm_num)]
    linarith

theorem totalPages_eq (state : DashboardState) :
    totalPages state = ((state.filteredRecords.length + 5) / 6 : ℕ) :=
  ceil_div_six _ _ rfl

theorem slice_page {α : Type} (l : List α) (i : ℕ) :
    slice l (((i : ℤ) + 1 - 1) * 6) (((i : ℤ) + 1 - 1) * 6 + 6) = (l.drop (6 * i)).take 6 := by
  unfold slice
  have h1 : ¬ (((i : ℤ) + 1 - 1) * 6 < 0) := by omega
  have h2 : ¬ (((i : ℤ) + 1 - 1) * 6 + 6 < 0) := by omega
  simp only [h1, h2, if_false]
  rcases le_or_lt (l.length) (6 * i) with h | h
  · rw [List.drop_eq_nil_of_le h]
    simp
    omega
  · have hk : (min (((i : ℤ) + 1 - 1) * 6) (l.length : ℤ)).toNat = 6 * i := by omega
    rw [hk]
    rcases le_or_lt (l.length) (6 * i + 6) with h' | h'
    · have hc : (max (min (((i : ℤ) + 1 - 1) * 6 + 6) (l.length : ℤ)
          - min (((i : ℤ) + 1 - 1) * 6) (l.length : ℤ)) 0).toNat = l.length - 6 * i := by omega
      rw [hc, List.take_of_length_le (by simp), List.take_of_length_le (by simp; omega)]
    · have hc : (max (min (((i : ℤ) + 1 - 1) * 6 + 6) (l.length : ℤ)
          - min (((i : ℤ) + 1 - 1) * 6) (l.length : ℤ)) 0).toNat = 6 := by omega
      rw [hc]

theorem currentRecords_page (state : DashboardState) (i : ℕ) :
    currentRecords { state with currentPage := (i : ℤ) + 1 }
      = (state.filteredRecords.drop (6 * i)).take 6 := by
  simp only [currentRecords, startIndex, endIndex, recordsPerPage]
  exact slice_page state.filteredRecords i

theorem flatMap_pages {α : Type} (l : List α) :
    ∀ k : ℕ, (List.range k).flatMap (fun i => (l.drop (6 * i)).take 6) = l.take (6 * k)
  | 0 => by simp
  | k + 1 => by
    rw [List.range_succ, List.flatMap_append, flatMap_pages l k]
    simp only [List.flatMap_cons, List.flatMap_nil, List.append_nil]
    rw [show 6 * (k + 1) = 6 * k + 6 by ring, List.take_add]

theorem eq_of_perm_of_pairwise {α : Type} (r : α → α → Prop) :
    ∀ l₁ l₂ : List α, l₁.Perm l₂ → l₁.Pairwise r → l₂.Pairwise r →
      (∀ a ∈ l₁, ∀ b ∈ l₁, r a b → r b a → a = b) → l₁ = l₂
  | [], l₂, hp, _, _, _ => (List.nil_perm.mp hp).symm
  | a :: t, [], hp, _, _, _ => absurd hp.symm (by simp)
  | a :: t, b :: u, hp, h1, h2, hanti => by
    obtain ⟨hat, ht⟩ := List.pairwise_cons.mp h1
    obtain ⟨hbu, hu⟩ := List.pairwise_cons.mp h2
    have hab : a = b := by
      have ha : a ∈ b :: u := hp.mem_iff.mp (List.mem_cons_self a t)
      have hb : b ∈ a :: t := hp.mem_iff.mpr (List.mem_cons_self b u)
      rcases List.mem_cons.mp ha with h | h
      · exact h
      · rcases List.mem_cons.mp hb with h' | h'
        · exact h'.symm
        · exact hanti a (List.mem_cons_self a t) b (List.mem_cons_of_mem a h')
            (hat b h') (hbu a h)
    subst hab
    have ih := eq_of_perm_of_pairwise r t u (List.Perm.cons_inv hp) ht hu
      (fun x hx y hy => hanti x (List.mem_cons_of_mem a hx) y (List.mem_cons_of_mem a hy))
    rw [ih]

/-- The sort step on records with well-defined keys: a permutation, ordered for the
given sort order. -/
theorem sortStep_ordered (lc : String → String) (localeCompare : String → String → ℤ)
    (hcons : ConsistentComparator localeCompare) (sortBy sortOrder : String)
    (records : List HealthRecord) (hkeys : ∀ r ∈ records, hasSortKey sortBy r = true) :
    ∃ out, sortStep lc localeCompare sortBy sortOrder records = .ok out
      ∧ out.Perm records
      ∧ out.Pairwise (fun a b =>
          if sortOrder = "asc" then keyLe lc localeCompare sortBy a b = true
          else keyLe lc localeCompare sortBy b a = true) := by
  obtain ⟨out, hout, hperm, hpw, _⟩ :=
    arraySort_spec (compareRecords lc localeCompare sortBy sortOrder)
      (fun r => hasSortKey sortBy r = true)
      (fun a b => if sortOrder = "asc" then keyLe lc localeCompare sortBy a b = true
        else keyLe lc localeCompare sortBy b a = true)
      (compareRecords_decides lc localeCompare sortBy sortOrder)
      (by
        intro a b ha hb
        by_cases ho : sortOrder = "asc"
        · simpa [ho] using keyLe_total lc localeCompare hcons sortBy a b ha hb
        · simpa [ho] using keyLe_total lc localeCompare hcons sortBy b a hb ha)
      (by
        intro a b c _ _ _ hab hbc
        by_cases ho : sortOrder = "asc"
        · simp only [ho, if_true] at hab hbc ⊢
          exact keyLe_trans lc localeCompare hcons sortBy a b c hab hbc
        · simp only [ho, if_false] at hab hbc ⊢
          exact keyLe_trans lc localeCompare hcons sortBy c b a hbc hab)
      records hkeys
  exact ⟨out, hout, hperm, hpw⟩

/-! ## Claims on sorting both ways and on pagination -/

/-- C11. For every sort key, on records whose keys are well defined and pairwise distinct
under the comparator (with a consistent `localeCompare`), the reverse of the ascending
sort is the descending sort of the same list. -/
theorem sortStep_reverse_asc_eq_desc (lc : String → String)
    (localeCompare : String → String → ℤ) (hcons : ConsistentComparator localeCompare)
    (sortBy : String) (records : List HealthRecord)
    (hkeys : ∀ r ∈ records, hasSortKey sortBy r = true)
    (hdistinct : records.Pairwise (fun a b => keyEq lc localeCompare sortBy a b = false)) :
    ∃ asc desc, sortStep lc localeCompare sortBy "asc" records = .ok asc
      ∧ sortStep lc localeCompare sortBy "desc" records = .ok desc
      ∧ asc.reverse = desc := by
  obtain ⟨asc, hasc, hpa, hwa⟩ := sortStep_ordered lc localeCompare hcons sortBy "asc" records hkeys
  obtain ⟨desc, hdesc, hpd, hwd⟩ :=
    sortStep_ordered lc localeCompare hcons sortBy "desc" records hkeys
  refine ⟨asc, desc, hasc, hdesc, ?_⟩
  have hne : ("desc" : String) ≠ "asc" := by decide
  simp only [if_true] at hwa
  simp only [hne, if_false] at hwd
  have hsymm : Symmetric (fun a b : HealthRecord => keyEq lc localeCompare sortBy a b = false) := by
    intro a b h
    simpa [keyEq, Bool.and_comm] using h
  have hall := hdistinct.forall hsymm
  refine eq_of_perm_of_pairwise (fun a b => keyLe lc localeCompare sortBy b a = true)
    asc.reverse desc ((List.reverse_perm asc).trans (hpa.trans hpd.symm))
    (List.pairwise_reverse.mpr hwa) hwd ?_
  intro a ha b hb hba hab
  by_contra hne'
  have ha' : a ∈ records := hpa.mem_iff.mp (List.mem_reverse.mp ha)
  have hb' : b ∈ records := hpa.mem_iff.mp (List.mem_reverse.mp hb)
  have := hall ha' hb' hne'
  simp [keyEq, hab, hba] at this

theorem sortStep_reverse_asc_eq_desc_witness :
    ∃ asc desc, sortStep asciiLower codePointCompare "createdAt" "asc" sampleRecords = .ok asc
      ∧ sortStep asciiLower codePointCompare "createdAt" "desc" sampleRecords = .ok desc
      ∧ asc.reverse = desc :=
  sortStep_reverse_asc_eq_desc asciiLower codePointCompare codePointCompare_consistent
    "createdAt" sampleRecords (by decide)
    (by
      have hk : ("createdAt" : String) ≠ "name" := by decide
      have h1 : ("createdAt" : String) ≠ "age" := by decide
      have h2 : ("createdAt" : String) ≠ "bmi" := by decide
      have h3 : ("createdAt" : String) ≠ "healthScore" := by decide
      norm_num [sampleRecords, keyEq, keyLe, numericKey, hk, h1, h2, h3])

/-- C12. With page size 6 and `totalPages = ceil(n / 6)`, the page slices
`currentRecords` for the pages 1 to `totalPages`, put one after the other, are exactly the
list `filteredRecords`; every page before the last holds 6 records and the last page holds
between 1 and 6. -/
theorem pages_partition (state : DashboardState) :
    (List.range (totalPages state).toNat).flatMap
        (fun i => currentRecords { state with currentPage := (i : ℤ) + 1 })
      = state.filteredRecords
    ∧ (∀ p : ℤ, 1 ≤ p → p < totalPages state →
        (currentRecords { state with currentPage := p }).length = 6)
    ∧ (1 ≤ totalPages state →
        1 ≤ (currentRecords { state with currentPage := totalPages state }).length
        ∧ (currentRecords { state with currentPage := totalPages state }).length ≤ 6) := by
  have hT := totalPages_eq state
  refine ⟨?_, ?_, ?_⟩
  · simp only [currentRecords_page]
    rw [flatMap_pages, hT, Int.toNat_ofNat]
    exact List.take_of_length_le (by omega)
  · intro p hp1 hpT
    obtain ⟨i, rfl⟩ : ∃ i : ℕ, p = (i : ℤ) + 1 := ⟨(p - 1).toNat, by omega⟩
    rw [currentRecords_page, List.length_take, List.length_drop]
    omega
  · intro h1
    obtain ⟨i, hi⟩ : ∃ i : ℕ, totalPages state = (i : ℤ) + 1 :=
      ⟨(totalPages state - 1).toNat, by omega⟩
    rw [hi, currentRecords_page, List.length_take, List.length_drop]
    omega

theorem pages_partition_witness :
    (List.range (totalPages fourteenState).toNat).flatMap
        (fun i => currentRecords { fourteenState with currentPage := (i : ℤ) + 1 })
      = fourteenState.filteredRecords
    ∧ (∀ p : ℤ, 1 ≤ p → p < totalPages fourteenState →
        (currentRecords { fourteenState with currentPage := p }).length = 6)
    ∧ (1 ≤ totalPages fourteenState →
        1 ≤ (currentRecords { fourteenState with currentPage := totalPages fourteenState }).length
        ∧ (currentRecords
            { fourteenState with currentPage := totalPages fourteenState }).length ≤ 6) :=
  pages_partition fourteenState

theorem fourteenState_pages :
    totalPages fourteenState = 3
    ∧ (currentRecords { fourteenState with currentPage := 3 }).map HealthRecord.age
        = [some 12, some 13] := by
  constructor
  · rw [totalPages_eq]
    simp [fourteenState]
  · rw [show (3 : ℤ) = ((2 : ℕ) : ℤ) + 1 by norm_num, currentRecords_page]
    simp [fourteenState, numberedRecord, List.range_succ]

/-! ## Auxiliary lemmas on `filterRecords` as a state transition -/

theorem sortInsert_returns {α : Type} (comparator : α → α → Except JsError (Option ℚ))
    (S : α → Prop) (hcmp : ∀ a b, S a → S b → ∃ v, comparator a b = .ok v)
    (a : α) (ha : S a) :
    ∀ l : List α, (∀ x ∈ l, S x) →
      ∃ out, sortInsert comparator a l = .ok out ∧ out.Perm (a :: l)
  | [], _ => ⟨[a], rfl, List.Perm.refl _⟩
  | b :: l, hS => by
    obtain ⟨v, hv⟩ := hcmp a b ha (hS b (List.mem_cons_self b l))
    by_cases hna : notAfter v = true
    · exact ⟨a :: b :: l, by simp [sortInsert, hv, hna], List.Perm.refl _⟩
    · obtain ⟨rest, hrest, hperm⟩ := sortInsert_returns comparator S hcmp a ha l
        (fun x hx => hS x (List.mem_cons_of_mem b hx))
      exact ⟨b :: rest, by simp [sortInsert, hv, hna, hrest],
        (hperm.cons b).trans (List.Perm.swap a b l)⟩

theorem arraySort_returns {α : Type} (comparator : α → α → Except JsError (Option ℚ))
    (S : α → Prop) (hcmp : ∀ a b, S a → S b → ∃ v, comparator a b = .ok v) :
    ∀ l : List α, (∀ x ∈ l, S x) → ∃ out, arraySort comparator l = .ok out ∧ out.Perm l
  | [], _ => ⟨[], rfl, List.Perm.refl _⟩
  | a :: l, hS => by
    obtain ⟨sorted, hsorted, hperm⟩ := arraySort_returns comparator S hcmp l
      (fun x hx => hS x (List.mem_cons_of_mem a hx))
    obtain ⟨out, hout, hperm'⟩ := sortInsert_returns comparator S hcmp a
      (hS a (List.mem_cons_self a l)) sorted
      (fun x hx => hS x (List.mem_cons_of_mem a (hperm.mem_iff.mp hx)))
    exact ⟨out, by simp [arraySort, hsorted, hout], hperm'.trans (hperm.cons a)⟩

theorem filterStep_returns (lc : String → String) (term : String)
    (records : List HealthRecord) (hfields : ∀ r ∈ records, hasSearchFields r = true) :
    ∃ out, filterStep lc term records = .ok out ∧ out.Sublist records := by
  by_cases ht : term = ""
  · exact ⟨records, by simp [filterStep, ht], List.Sublist.refl _⟩
  · refine ⟨records.filter (searchMatches lc term), ?_, List.filter_sublist records⟩
    simp only [filterStep, ne_eq, ht, not_false_eq_true, if_true]
    exact arrayFilter_of_ok _ _ records
      (fun r hr => matchesSearch_of_fields lc term r (hfields r hr))

theorem sortStep_returns (lc : String → String) (localeCompare : String → String → ℤ)
    (sortBy sortOrder : String) (records : List HealthRecord)
    (hkeys : ∀ r ∈ records, hasSortKey sortBy r = true) :
    ∃ out, sortStep lc localeCompare sortBy sortOrder records = .ok out ∧ out.Perm records :=
  arraySort_returns (compareRecords lc localeCompare sortBy sortOrder)
    (fun r => hasSortKey sortBy r = true)
    (fun a b ha hb =>
      (compareRecords_decides lc localeCompare sortBy sortOrder a b ha hb).imp
        (fun _ h => h.1))
    records hkeys

/-- On records that have the fields the search reads and the key the sort reads,
`filterRecords` returns. -/
theorem filterRecords_returns (lc : String → String) (localeCompare : String → String → ℤ)
    (state : DashboardState)
    (hfields : ∀ r ∈ state.healthRecords, hasSearchFields r = true)
    (hkeys : ∀ r ∈ state.healthRecords, hasSortKey state.sortBy r = true) :
    ∃ sorted, filterRecords lc localeCompare state
      = .ok { state with filteredRecords := sorted, currentPage := 1 } := by
  obtain ⟨filtered, hf, hsub⟩ := filterStep_returns lc state.searchTerm state.healthRecords hfields
  obtain ⟨sorted, hs, _⟩ := sortStep_returns lc localeCompare state.sortBy state.sortOrder
    filtered (fun r hr => hkeys r (hsub.subset hr))
  exact ⟨sorted, by simp [filterRecords, hf, hs]⟩

/-- Every result of `filterRecords` is the input state with a new `filteredRecords` and
page 1. -/
theorem filterRecords_shape (lc : String → String) (localeCompare : String → String → ℤ)
    (state next : DashboardState) (h : filterRecords lc localeCompare state = .ok next) :
    ∃ sorted, next = { state with filteredRecords := sorted, currentPage := 1 } := by
  unfold filterRecords at h
  cases hf : filterStep lc state.searchTerm state.healthRecords with
  | error e => simp [hf] at h
  | ok filtered =>
    cases hs : sortStep lc localeCompare state.sortBy state.sortOrder filtered with
    | error e => simp [hf, hs] at h
    | ok sorted =>
      simp only [hf, hs, Except.ok.injEq] at h
      exact ⟨sorted, h.symm⟩

theorem totalPages_pos_iff (state : DashboardState) :
    1 ≤ totalPages state ↔ state.filteredRecords ≠ [] := by
  rw [totalPages_eq, ← List.length_pos]
  omega

theorem totalPages_of_nil (state : DashboardState) (h : state.filteredRecords = []) :
    totalPages state = 0 := by
  rw [totalPages_eq, h]
  simp

theorem readArray_append_left (store : ArrayStore) (extra : ArrayStore) (address : ℕ)
    (h : address < store.length) :
    readArray (store ++ extra) address = readArray store address := by
  simp [readArray, List.getD_eq_getElem?_getD, List.getElem?_append_left h]

theorem readArray_append_length (store : ArrayStore) (array : List HealthRecord) :
    readArray (store ++ [array]) store.length = array := by
  simp [readArray, List.getD_eq_getElem?_getD]

theorem readArray_set_ne (store : ArrayStore) (array : List HealthRecord) (i address : ℕ)
    (h : i ≠ address) : readArray (store.set i array) address = readArray store address := by
  simp [readArray, List.getD_eq_getElem?_getD, List.getElem?_set_ne h]

theorem readArray_set_eq (store : ArrayStore) (array : List HealthRecord) (i : ℕ)
    (h : i < store.length) : readArray (store.set i array) i = array := by
  simp [readArray, List.getD_eq_getElem?_getD, h]

/-- The result of `filterRecords` over the store, when it returns: the list the
value-level steps compute, at a fresh address, and every array that was in the store
before the call unchanged. -/
theorem filterRecordsInStore_ok (lc : String → String) (localeCompare : String → String → ℤ)
    (store : ArrayStore) (refs : DashboardRefs) (filtered sorted : List HealthRecord)
    (hf : filterStep lc refs.searchTerm (readArray store refs.healthRecords) = .ok filtered)
    (hs : sortStep lc localeCompare refs.sortBy refs.sortOrder filtered = .ok sorted) :
    ∃ store' address, filterRecordsInStore lc localeCompare store refs
        = .ok (store', { refs with filteredRecords := address, currentPage := 1 })
      ∧ store.length ≤ address
      ∧ readArray store' address = sorted
      ∧ ∀ a, a < store.length → readArray store' a = readArray store a := by
  unfold filterStep at hf
  unfold sortStep at hs
  by_cases ht : refs.searchTerm = ""
  · simp only [ht, ne_eq, not_true_eq_false, if_false, Except.ok.injEq] at hf
    subst hf
    refine ⟨(store ++ [readArray store refs.healthRecords]).set store.length sorted,
      store.length, ?_, le_refl _, ?_, ?_⟩
    · simp [filterRecordsInStore, allocate, ht, readArray_append_length, hs]
    · exact readArray_set_eq _ _ _ (by simp)
    · intro a ha
      rw [readArray_set_ne _ _ _ _ (by omega), readArray_append_left _ _ _ ha]
  · simp only [ne_eq, ht, not_false_eq_true, if_true] at hf
    refine ⟨((store ++ [readArray store refs.healthRecords]) ++ [filtered]).set
      (store.length + 1) sorted, store.length + 1, ?_, by omega, ?_, ?_⟩
    · have hread : readArray (store ++ [readArray store refs.healthRecords, filtered])
          (store.length + 1) = filtered := by
        have := readArray_append_length (store ++ [readArray store refs.healthRecords])
          filtered
        simpa using this
      simp [filterRecordsInStore, allocate, ht, readArray_append_length, hf, hread, hs]
    · exact readArray_set_eq _ _ _ (by simp)
    · intro a ha
      rw [readArray_set_ne _ _ _ _ (by omega), readArray_append_left _ _ _ (by simp; omega),
        readArray_append_left _ _ _ ha]

theorem toggle_ne (order : String) : (if order = "asc" then "desc" else "asc") ≠ order := by
  split_ifs with h
  · rw [h]
    decide
  · exact fun h' => h h'.symm

theorem handleSort_healthRecords (field : String) (state : DashboardState) :
    (handleSort field state).healthRecords = state.healthRecords := by
  by_cases h : state.sortBy = field
  · rw [handleSort, if_pos h]
  · rw [handleSort, if_neg h]

theorem handleSort_sortBy (field : String) (state : DashboardState) :
    (handleSort field state).sortBy = field := by
  by_cases h : state.sortBy = field
  · rw [handleSort, if_pos h]
    exact h
  · rw [handleSort, if_neg h]

theorem handleSort_searchTerm (field : String) (state : DashboardState) :
    (handleSort field state).searchTerm = state.searchTerm := by
  by_cases h : state.sortBy = field
  · rw [handleSort, if_pos h]
  · rw [handleSort, if_neg h]

theorem handleSort_changes (field : String) (state : DashboardState) :
    state.sortBy ≠ (handleSort field state).sortBy
      ∨ state.sortOrder ≠ (handleSort field state).sortOrder := by
  by_cases h : state.sortBy = field
  · rw [handleSort, if_pos h]
    exact Or.inr (fun h' => toggle_ne state.sortOrder h'.symm)
  · rw [handleSort, if_neg h]
    exact Or.inl h

/-! ## Claims on the page number and on the frame of the query pipeline -/

/-- C13, the claim as stated fails: the run of `filterRecords` on the initial state, whose
record collection is empty, returns page 1 of 0 pages. -/
theorem page_invariant_fails_on_empty :
    filterRecords asciiLower codePointCompare initialState = .ok initialState
    ∧ initialState.currentPage = 1
    ∧ totalPages initialState = 0
    ∧ ¬ (1 ≤ initialState.currentPage ∧ initialState.currentPage ≤ totalPages initialState) := by
  have h0 : totalPages initialState = 0 := totalPages_of_nil _ rfl
  refine ⟨rfl, rfl, h0, ?_⟩
  rw [h0]
  simp [initialState]

/-- C13, amended. After every run of `filterRecords` the page is 1, and
`1 <= currentPage <= totalPages` holds exactly when the filtered list is not empty (for
an empty list `totalPages` is 0); on records that have the fields the search and the sort
read, the run does return. -/
theorem filterRecords_page_invariant (lc : String → String)
    (localeCompare : String → String → ℤ) (state : DashboardState) :
    (∀ next, filterRecords lc localeCompare state = .ok next →
      next.currentPage = 1
      ∧ (pageInRange next ↔ next.filteredRecords ≠ [])
      ∧ (next.filteredRecords = [] → totalPages next = 0))
    ∧ ((∀ r ∈ state.healthRecords, hasSearchFields r = true) →
        (∀ r ∈ state.healthRecords, hasSortKey state.sortBy r = true) →
        ∃ next, filterRecords lc localeCompare state = .ok next
          ∧ next.currentPage = 1
          ∧ (pageInRange next ↔ next.filteredRecords ≠ [])) := by
  have hgen : ∀ next, filterRecords lc localeCompare state = .ok next →
      next.currentPage = 1
      ∧ (pageInRange next ↔ next.filteredRecords ≠ [])
      ∧ (next.filteredRecords = [] → totalPages next = 0) := by
    intro next h
    obtain ⟨sorted, rfl⟩ := filterRecords_shape lc localeCompare state next h
    refine ⟨rfl, ?_, totalPages_of_nil _⟩
    unfold pageInRange
    rw [← totalPages_pos_iff]
    simp
  refine ⟨hgen, fun hfields hkeys => ?_⟩
  obtain ⟨sorted, h⟩ := filterRecords_returns lc localeCompare state hfields hkeys
  exact ⟨_, h, (hgen _ h).1, (hgen _ h).2.1⟩

theorem filterRecords_page_invariant_witness :
    ∃ next, filterRecords asciiLower codePointCompare fourteenState = .ok next
      ∧ next.currentPage = 1
      ∧ (pageInRange next ↔ next.filteredRecords ≠ []) :=
  (filterRecords_page_invariant asciiLower codePointCompare fourteenState).2
    (by decide) (by decide)

/-- C15. The query pipeline leaves its input alone.  `paginate` changes `currentPage`
and nothing else.  `filterRecords`, run over a store of mutable arrays on records that
have the fields it reads, returns with every array that existed before the call
unchanged, in particular `healthRecords` with the same records in the same order; in the
state only `filteredRecords` and `currentPage` change, and the new state is the one the
run on values computes. -/
theorem query_pipeline_frame (lc : String → String) (localeCompare : String → String → ℤ)
    (store : ArrayStore) (refs : DashboardRefs) (pageNumber : ℤ)
    (hvalid : refs.healthRecords < store.length)
    (hfields : ∀ r ∈ readArray store refs.healthRecords, hasSearchFields r = true)
    (hkeys : ∀ r ∈ readArray store refs.healthRecords, hasSortKey refs.sortBy r = true) :
    (paginateInStore pageNumber store refs
        = (store, { refs with currentPage := pageNumber })
      ∧ paginate pageNumber (viewState store refs)
        = { viewState store refs with currentPage := pageNumber }
      ∧ (paginate pageNumber (viewState store refs)).healthRecords
        = (viewState store refs).healthRecords
      ∧ (paginate pageNumber (viewState store refs)).filteredRecords
        = (viewState store refs).filteredRecords
      ∧ (paginate pageNumber (viewState store refs)).searchTerm = refs.searchTerm
      ∧ (paginate pageNumber (viewState store refs)).sortBy = refs.sortBy
      ∧ (paginate pageNumber (viewState store refs)).sortOrder = refs.sortOrder)
    ∧ ∃ store' refs', filterRecordsInStore lc localeCompare store refs = .ok (store', refs')
        ∧ (∀ a, a < store.length → readArray store' a = readArray store a)
        ∧ refs'.healthRecords = refs.healthRecords
        ∧ readArray store' refs'.healthRecords = readArray store refs.healthRecords
        ∧ refs'.searchTerm = refs.searchTerm
        ∧ refs'.sortBy = refs.sortBy
        ∧ refs'.sortOrder = refs.sortOrder
        ∧ filterRecords lc localeCompare (viewState store refs)
            = .ok (viewState store' refs') := by
  refine ⟨⟨rfl, rfl, rfl, rfl, rfl, rfl, rfl⟩, ?_⟩
  obtain ⟨filtered, hf, hsub⟩ :=
    filterStep_returns lc refs.searchTerm (readArray store refs.healthRecords) hfields
  obtain ⟨sorted, hs, _⟩ := sortStep_returns lc localeCompare refs.sortBy refs.sortOrder
    filtered (fun r hr => hkeys r (hsub.subset hr))
  obtain ⟨store', address, hrun, _, hread, hframe⟩ :=
    filterRecordsInStore_ok lc localeCompare store refs filtered sorted hf hs
  refine ⟨store', _, hrun, hframe, rfl, hframe _ hvalid, rfl, rfl, rfl, ?_⟩
  simp only [filterRecords, viewState, hf, hs, hread, hframe _ hvalid]

theorem query_pipeline_frame_witness :
    (paginateInStore 2 sampleStore sampleRefs
        = (sampleStore, { sampleRefs with currentPage := 2 })
      ∧ paginate 2 (viewState sampleStore sampleRefs)
        = { viewState sampleStore sampleRefs with currentPage := 2 }
      ∧ (paginate 2 (viewState sampleStore sampleRefs)).healthRecords
        = (viewState sampleStore sampleRefs).healthRecords
      ∧ (paginate 2 (viewState sampleStore sampleRefs)).filteredRecords
        = (viewState sampleStore sampleRefs).filteredRecords
      ∧ (paginate 2 (viewState sampleStore sampleRefs)).searchTerm = sampleRefs.searchTerm
      ∧ (paginate 2 (viewState sampleStore sampleRefs)).sortBy = sampleRefs.sortBy
      ∧ (paginate 2 (viewState sampleStore sampleRefs)).sortOrder = sampleRefs.sortOrder)
    ∧ ∃ store' refs',
        filterRecordsInStore asciiLower codePointCompare sampleStore sampleRefs
          = .ok (store', refs')
        ∧ (∀ a, a < sampleStore.length → readArray store' a = readArray sampleStore a)
        ∧ refs'.healthRecords = sampleRefs.healthRecords
        ∧ readArray store' refs'.healthRecords = readArray sampleStore sampleRefs.healthRecords
        ∧ refs'.searchTerm = sampleRefs.searchTerm
        ∧ refs'.sortBy = sampleRefs.sortBy
        ∧ refs'.sortOrder = sampleRefs.sortOrder
        ∧ filterRecords asciiLower codePointCompare (viewState sampleStore sampleRefs)
            = .ok (viewState store' refs') :=
  query_pipeline_frame asciiLower codePointCompare sampleStore sampleRefs 2
    (by decide) (by decide) (by decide)

/-- C16, the claim as stated fails: with fourteen records (3 pages) on page 1,
`paginate(7)` stores 7, which is neither the old page nor a page in range. -/
theorem paginate_stores_out_of_range :
    totalPages fourteenState = 3
    ∧ (paginate 7 fourteenState).currentPage = 7
    ∧ (paginate 7 fourteenState).currentPage ≠ fourteenState.currentPage
    ∧ ¬ (1 ≤ (paginate 7 fourteenState).currentPage
          ∧ (paginate 7 fourteenState).currentPage ≤ totalPages (paginate 7 fourteenState)) := by
  have h3 : totalPages fourteenState = 3 := by
    rw [totalPages_eq]
    simp [fourteenState]
  have h3' : totalPages (paginate 7 fourteenState) = 3 := h3
  refine ⟨h3, rfl, by decide, ?_⟩
  rw [h3']
  simp [paginate]

/-- C16, amended. The function `paginate` stores every page number it is given, in range
or not, and changes nothing else; the pagination controls call it only with pages in
range: from a state whose page is in `[1, totalPages]`, a click on Previous, on Next or
on a page number leaves the page in `[1, totalPages]`. -/
theorem paginate_stores_and_controls_stay_in_range (state : DashboardState) :
    (∀ p : ℤ, (paginate p state).currentPage = p
      ∧ totalPages (paginate p state) = totalPages state)
    ∧ (pageInRange state →
        pageInRange (clickPrevious state)
        ∧ pageInRange (clickNext state)
        ∧ ∀ i : ℕ, pageInRange (clickNumber i state)) := by
  refine ⟨fun p => ⟨rfl, rfl⟩, fun h => ?_⟩
  have htp : ∀ p : ℤ, totalPages (paginate p state) = totalPages state := fun _ => rfl
  unfold pageInRange at h ⊢
  refine ⟨?_, ?_, fun i => ?_⟩
  · unfold clickPrevious
    split_ifs with hc
    · rw [htp]
      simp only [paginate]
      omega
    · exact h
  · unfold clickNext
    split_ifs with hc
    · rw [htp]
      simp only [paginate]
      omega
    · exact h
  · unfold clickNumber
    split_ifs with hc
    · rw [htp]
      simp only [paginate]
      omega
    · exact h

theorem paginate_stores_and_controls_stay_in_range_witness :
    pageInRange (clickPrevious fourteenState)
    ∧ pageInRange (clickNext fourteenState)
    ∧ ∀ i : ℕ, pageInRange (clickNumber i fourteenState) :=
  (paginate_stores_and_controls_stay_in_range fourteenState).2
    (by
      have h3 : totalPages fourteenState = 3 := by
        rw [totalPages_eq]
        simp [fourteenState]
      unfold pageInRange
      rw [h3]
      simp [fourteenState])

/-! ## Auxiliary lemmas on the patterns -/

namespace Regex

theorem nullable_iff (r : Regex) : nullable r = true ↔ [] ∈ language r := by
  induction r with
  | nothing => simp [nullable, language]
  | epsilon => simp [nullable, language]
  | charClass p =>
    simp only [nullable, language, Bool.false_eq_true, false_iff]
    rintro ⟨c, _, h⟩
    exact absurd h (by simp)
  | alt r s ihr ihs => simp [nullable, language, Language.mem_add, ihr, ihs]
  | seq r s ihr ihs =>
    simp only [nullable, language, Bool.and_eq_true, ihr, ihs, Language.mem_mul]
    constructor
    · rintro ⟨h1, h2⟩
      exact ⟨[], h1, [], h2, rfl⟩
    · rintro ⟨a, ha, b, hb, hab⟩
      obtain ⟨rfl, rfl⟩ := List.append_eq_nil.mp hab
      exact ⟨ha, hb⟩
  | star r _ => simp [nullable, language, Language.nil_mem_kstar]

theorem deriv_iff (r : Regex) : ∀ (c : Char) (w : List Char),
    w ∈ language (deriv r c) ↔ c :: w ∈ language r := by
  induction r with
  | nothing => intro c w; simp [deriv, language]
  | epsilon => intro c w; simp [deriv, language]
  | charClass p =>
    intro c w
    by_cases hp : p c = true
    · simp only [deriv, hp, if_true, language, Language.mem_one]
      constructor
      · rintro rfl
        exact ⟨c, hp, rfl⟩
      · rintro ⟨d, _, hw⟩
        simp only [List.cons.injEq] at hw
        exact hw.2
    · simp only [deriv, hp, language]
      constructor
      · intro h
        exact absurd h (Language.not_mem_zero w)
      · rintro ⟨d, hd, hw⟩
        simp only [List.cons.injEq] at hw
        rw [hw.1] at hp
        exact absurd hd hp
  | alt r s ihr ihs =>
    intro c w
    simp [deriv, language, Language.mem_add, ihr, ihs]
  | seq r s ihr ihs =>
    intro c w
    have hsplit : c :: w ∈ language r * language s ↔
        (∃ u, c :: u ∈ language r ∧ ∃ v ∈ language s, u ++ v = w)
          ∨ ([] ∈ language r ∧ c :: w ∈ language s) := by
      rw [Language.mem_mul]
      constructor
      · rintro ⟨a, ha, b, hb, hab⟩
        cases a with
        | nil => exact Or.inr ⟨ha, by simpa using hab ▸ hb⟩
        | cons d u =>
          simp only [List.cons_append, List.cons.injEq] at hab
          obtain ⟨rfl, rfl⟩ := hab
          exact Or.inl ⟨u, ha, b, hb, rfl⟩
      · rintro (⟨u, hu, v, hv, rfl⟩ | ⟨h1, h2⟩)
        · exact ⟨c :: u, hu, v, hv, rfl⟩
        · exact ⟨[], h1, c :: w, h2, rfl⟩
    have hleft : w ∈ language (deriv r c) * language s ↔
        ∃ u, c :: u ∈ language r ∧ ∃ v ∈ language s, u ++ v = w := by
      rw [Language.mem_mul]
      constructor
      · rintro ⟨u, hu, v, hv, rfl⟩
        exact ⟨u, (ihr c u).mp hu, v, hv, rfl⟩
      · rintro ⟨u, hu, v, hv, rfl⟩
        exact ⟨u, (ihr c u).mpr hu, v, hv, rfl⟩
    by_cases hn : nullable r = true
    · have hnil : [] ∈ language r := (nullable_iff r).mp hn
      simp only [deriv, hn, if_true, language, Language.mem_add, hleft, ihs, hsplit, hnil,
        true_and]
    · have hnil : [] ∉ language r := fun h => hn ((nullable_iff r).mpr h)
      simp only [deriv, hn, language, hleft, hsplit, hnil, false_and, or_false]
  | star r ih =>
    intro c w
    simp only [deriv, language]
    constructor
    · intro h
      obtain ⟨u, hu, v, hv, rfl⟩ := Language.mem_mul.mp h
      obtain ⟨L, rfl, hL⟩ := Language.mem_kstar.mp hv
      refine Language.mem_kstar.mpr ⟨(c :: u) :: L, by simp, ?_⟩
      intro y hy
      rcases List.mem_cons.mp hy with rfl | hy
      · exact (ih c u).mp hu
      · exact hL y hy
    · intro h
      obtain ⟨S, hS, hne⟩ := Language.mem_kstar_iff_exists_nonempty.mp h
      cases S with
      | nil => simp at hS
      | cons y S =>
        have hy := hne y (List.mem_cons_self y S)
        cases y with
        | nil => exact absurd rfl hy.2
        | cons d u =>
          simp only [List.flatten_cons, List.cons_append, List.cons.injEq] at hS
          obtain ⟨rfl, rfl⟩ := hS
          refine Language.mem_mul.mpr ⟨u, (ih c u).mpr hy.1, S.flatten, ?_, rfl⟩
          exact Language.mem_kstar.mpr
            ⟨S, rfl, fun z hz => (hne z (List.mem_cons_of_mem _ hz)).1⟩

/-- The matcher decides the language of the pattern. -/
theorem matchesWhole_iff : ∀ (w : List Char) (r : Regex),
    matchesWhole r w = true ↔ w ∈ language r
  | [], r => by simp [matchesWhole, nullable_iff]
  | c :: w, r => by
    rw [matchesWhole, matchesWhole_iff w (deriv r c), deriv_iff]

theorem mem_charClass (p : Char → Bool) (w : List Char) :
    w ∈ language (charClass p) ↔ ∃ c, p c = true ∧ w = [c] :=
  Iff.rfl

theorem mem_star_charClass (p : Char → Bool) (w : List Char) :
    w ∈ language (star (charClass p)) ↔ ∀ c ∈ w, p c = true := by
  simp only [language]
  rw [Language.mem_kstar]
  constructor
  · rintro ⟨L, rfl, hL⟩ c hc
    obtain ⟨y, hy, hcy⟩ := List.mem_flatten.mp hc
    obtain ⟨d, hd, rfl⟩ := hL y hy
    rw [List.mem_singleton.mp hcy]
    exact hd
  · intro h
    refine ⟨w.map (fun c => [c]), ?_, ?_⟩
    · induction w with
      | nil => rfl
      | cons a t ih =>
        simp only [List.map_cons, List.flatten_cons, List.singleton_append]
        rw [← ih (fun c hc => h c (List.mem_cons_of_mem a hc))]
    · intro y hy
      obtain ⟨c, hc, rfl⟩ := List.mem_map.mp hy
      exact ⟨c, h c hc, rfl⟩

theorem mem_plus_charClass (p : Char → Bool) (w : List Char) :
    w ∈ language (plus (charClass p)) ↔ w ≠ [] ∧ ∀ c ∈ w, p c = true := by
  unfold plus
  rw [language, Language.mem_mul]
  constructor
  · rintro ⟨a, ⟨c, hc, rfl⟩, b, hb, rfl⟩
    refine ⟨by simp, ?_⟩
    intro d hd
    rcases List.mem_cons.mp hd with rfl | hd
    · exact hc
    · exact (mem_star_charClass p b).mp hb d hd
  · rintro ⟨hne, h⟩
    cases w with
    | nil => exact absurd rfl hne
    | cons c t =>
      exact ⟨[c], ⟨c, h c (List.mem_cons_self c t), rfl⟩, t,
        (mem_star_charClass p t).mpr (fun d hd => h d (List.mem_cons_of_mem c hd)), rfl⟩

theorem mem_upTo_charClass (p : Char → Bool) : ∀ (n : ℕ) (w : List Char),
    w ∈ language (upTo n (charClass p)) ↔ w.length ≤ n ∧ ∀ c ∈ w, p c = true
  | 0, w => by
    simp only [upTo, language, Language.mem_one]
    constructor
    · rintro rfl
      simp
    · rintro ⟨h, _⟩
      exact List.length_eq_zero.mp (Nat.le_zero.mp h)
  | n + 1, w => by
    simp only [upTo, optional, language, Language.mem_add, Language.mem_one,
      Language.mem_mul]
    constructor
    · rintro (⟨a, ⟨c, hc, rfl⟩, b, hb, rfl⟩ | rfl)
      · obtain ⟨hlen, hall⟩ := (mem_upTo_charClass p n b).mp hb
        refine ⟨by simpa using hlen, ?_⟩
        intro d hd
        rcases List.mem_cons.mp hd with rfl | hd
        · exact hc
        · exact hall d hd
      · simp
    · rintro ⟨hlen, hall⟩
      cases w with
      | nil => exact Or.inr rfl
      | cons c t =>
        refine Or.inl ⟨[c], ⟨c, hall c (List.mem_cons_self c t), rfl⟩, t, ?_, rfl⟩
        exact (mem_upTo_charClass p n t).mpr
          ⟨by simpa using hlen, fun d hd => hall d (List.mem_cons_of_mem c hd)⟩

theorem mem_optional_charClass (p : Char → Bool) (w : List Char) :
    w ∈ language (optional (charClass p)) ↔ w = [] ∨ ∃ c, p c = true ∧ w = [c] := by
  simp only [optional, language, Language.mem_add, Language.mem_one]
  exact or_comm

end Regex

theorem mem_phoneRegex (w : List Char) :
    w ∈ phoneRegex.language ↔
      ∃ sign d rest, w = sign ++ d :: rest ∧ (sign = [] ∨ sign = ['+'])
        ∧ d ∈ nonZeroDigitChars ∧ rest.length ≤ 15 ∧ ∀ c ∈ rest, c ∈ digitChars := by
  unfold phoneRegex
  simp only [Regex.language.eq_5, Language.mem_mul, Regex.mem_optional_charClass,
    Regex.mem_upTo_charClass, Regex.mem_charClass]
  constructor
  · rintro ⟨sign, hsign, tail, ⟨a, ⟨d, hd, rfl⟩, rest, ⟨hlen, hall⟩, rfl⟩, rfl⟩
    refine ⟨sign, d, rest, rfl, ?_, by simpa using hd, hlen, fun c hc => by simpa using hall c hc⟩
    rcases hsign with h | ⟨c, hc, rfl⟩
    · exact Or.inl h
    · right
      simp only [beq_iff_eq] at hc
      rw [hc]
  · rintro ⟨sign, d, rest, rfl, hsign, hd, hlen, hall⟩
    refine ⟨sign, ?_, d :: rest, ⟨[d], ⟨d, by simpa using hd, rfl⟩, rest,
      ⟨hlen, fun c hc => by simpa using hall c hc⟩, rfl⟩, rfl⟩
    rcases hsign with h | h
    · exact Or.inl h
    · exact Or.inr ⟨'+', by simp, h⟩

theorem notSpaceNorAt_iff (c : Char) :
    notSpaceNorAt c = true ↔ c ∉ whiteSpaceChars ∧ c ≠ '@' := by
  simp [notSpaceNorAt]

theorem mem_emailRegex (s : List Char) :
    s ∈ emailRegex.language ↔
      ∃ u v w, s = u ++ '@' :: (v ++ '.' :: w) ∧ u ≠ [] ∧ v ≠ [] ∧ w ≠ []
        ∧ (∀ c ∈ u, notSpaceNorAt c = true) ∧ (∀ c ∈ v, notSpaceNorAt c = true)
        ∧ (∀ c ∈ w, notSpaceNorAt c = true) := by
  unfold emailRegex
  simp only [Regex.language.eq_5, Language.mem_mul, Regex.mem_plus_charClass,
    Regex.mem_charClass]
  constructor
  · rintro ⟨u, ⟨hu, hu'⟩, _, ⟨_, ⟨c, hc, rfl⟩, _, ⟨v, ⟨hv, hv'⟩, _,
      ⟨_, ⟨d, hd, rfl⟩, w, ⟨hw, hw'⟩, rfl⟩, rfl⟩, rfl⟩, rfl⟩
    simp only [beq_iff_eq] at hc hd
    subst hc
    subst hd
    exact ⟨u, v, w, by simp, hu, hv, hw, hu', hv', hw'⟩
  · rintro ⟨u, v, w, rfl, hu, hv, hw, hu', hv', hw'⟩
    exact ⟨u, ⟨hu, hu'⟩, _, ⟨['@'], ⟨'@', by simp, rfl⟩, _, ⟨v, ⟨hv, hv'⟩, _,
      ⟨['.'], ⟨'.', by simp, rfl⟩, w, ⟨hw, hw'⟩, rfl⟩, rfl⟩, rfl⟩, by simp⟩

/-! ## Claims on the form and on the validators -/

/-- C17. The toggle keeps "None" exclusive: from a list in which "None" is absent or the
only entry, the list after a toggle of any issue is again such a list, and so is every
list reached from the empty list by a sequence of toggles.  Selecting "None" gives
exactly `["None"]`, and selecting another issue removes "None" and adds the issue. -/
theorem toggle_keeps_none_exclusive (issue : String) (prev : FormData) :
    (noneExclusive prev.existingHealthIssues →
      noneExclusive (handleHealthIssueToggle issue prev).existingHealthIssues)
    ∧ ("None" ∉ prev.existingHealthIssues →
        (handleHealthIssueToggle "None" prev).existingHealthIssues = ["None"])
    ∧ (issue ≠ "None" → issue ∉ prev.existingHealthIssues →
        "None" ∉ (handleHealthIssueToggle issue prev).existingHealthIssues
        ∧ issue ∈ (handleHealthIssueToggle issue prev).existingHealthIssues)
    ∧ (∀ toggles : List String, prev.existingHealthIssues = [] →
        noneExclusive
          (toggles.foldl (fun form i => handleHealthIssueToggle i form) prev).existingHealthIssues) := by
  have hstep : ∀ (i : String) (form : FormData), noneExclusive form.existingHealthIssues →
      noneExclusive (handleHealthIssueToggle i form).existingHealthIssues := by
    intro i form h
    unfold handleHealthIssueToggle
    by_cases hi : i = "None"
    · simp only [hi, if_true]
      split_ifs
      · exact Or.inl (by simp)
      · exact Or.inr rfl
    · simp only [hi, if_false]
      split_ifs with hsel
      · rcases h with h | h
        · exact Or.inl (fun hm => h (List.mem_filter.mp hm).1)
        · rw [h] at hsel
          simp only [List.contains_cons, List.contains_nil, Bool.or_false, beq_iff_eq] at hsel
          exact absurd hsel hi
      · left
        intro hm
        rcases List.mem_append.mp hm with hm | hm
        · simpa using (List.mem_filter.mp hm).2
        · exact hi (List.mem_singleton.mp hm).symm
  refine ⟨hstep issue prev, ?_, ?_, ?_⟩
  · intro h
    simp [handleHealthIssueToggle, h]
  · intro hi hnot
    have hsel : prev.existingHealthIssues.contains issue = false := by
      simpa using hnot
    simp only [handleHealthIssueToggle, hi, if_false, hsel, Bool.false_eq_true]
    constructor
    · intro hm
      rcases List.mem_append.mp hm with hm | hm
      · simpa using (List.mem_filter.mp hm).2
      · exact hi (List.mem_singleton.mp hm).symm
    · simp
  · intro toggles hnil
    have hinit : noneExclusive prev.existingHealthIssues := Or.inl (by simp [hnil])
    clear hnil
    induction toggles generalizing prev with
    | nil => exact hinit
    | cons i t ih => exact ih (handleHealthIssueToggle i prev) (hstep i prev hinit)

theorem toggle_keeps_none_exclusive_witness :
    noneExclusive
      (handleHealthIssueToggle "Asthma"
        { initialFormData with existingHealthIssues := ["None"] }).existingHealthIssues :=
  (toggle_keeps_none_exclusive "Asthma"
    { initialFormData with existingHealthIssues := ["None"] }).1 (Or.inr rfl)

theorem toggle_samples :
    (handleHealthIssueToggle "Asthma"
        { initialFormData with existingHealthIssues := ["None"] }).existingHealthIssues
      = ["Asthma"]
    ∧ (handleHealthIssueToggle "None"
        { initialFormData with
          existingHealthIssues := ["Asthma", "Diabetes"] }).existingHealthIssues
      = ["None"]
    ∧ (handleHealthIssueToggle "None"
        { initialFormData with existingHealthIssues := ["None"] }).existingHealthIssues
      = []
    ∧ (handleHealthIssueToggle "Asthma"
        { initialFormData with
          existingHealthIssues := ["Asthma", "Diabetes"] }).existingHealthIssues
      = ["Diabetes"] := by
  decide

/-- C18. On a number, `validateAge` holds exactly for `1 <= x <= 120`, `validateWeight`
exactly for `0 < x <= 1000` and `validateHeight` exactly for `30 <= x <= 300`; the bounds
1, 120, 1000, 30 and 300 are accepted and weight 0 is rejected. -/
theorem validators_ranges :
    (∀ x : ℚ,
      (validateAge (some x) = true ↔ (1 ≤ x ∧ x ≤ 120))
      ∧ (validateWeight (some x) = true ↔ (0 < x ∧ x ≤ 1000))
      ∧ (validateHeight (some x) = true ↔ (30 ≤ x ∧ x ≤ 300)))
    ∧ validateAge (some 1) = true ∧ validateAge (some 120) = true
    ∧ validateWeight (some 1000) = true ∧ validateWeight (some 0) = false
    ∧ validateHeight (some 30) = true ∧ validateHeight (some 300) = true := by
  have h : ∀ x : ℚ,
      (validateAge (some x) = true ↔ (1 ≤ x ∧ x ≤ 120))
      ∧ (validateWeight (some x) = true ↔ (0 < x ∧ x ≤ 1000))
      ∧ (validateHeight (some x) = true ↔ (30 ≤ x ∧ x ≤ 300)) := by
    intro x
    simp [validateAge, validateWeight, validateHeight, jsGe, jsLe, jsGt]
  refine ⟨h, (h 1).1.mpr (by norm_num), (h 120).1.mpr (by norm_num),
    (h 1000).2.1.mpr (by norm_num), ?_, (h 30).2.2.mpr (by norm_num),
    (h 300).2.2.mpr (by norm_num)⟩
  have := (h 0).2.1
  cases hv : validateWeight (some 0) with
  | false => rfl
  | true => exact absurd (this.mp hv).1 (lt_irrefl 0)

/-- C19. The function `validatePhone` accepts a string exactly when it is an optional single
"+", then one digit from 1 to 9, then at most 15 further digits, and nothing else.  An
accepted string has between 1 and 16 digits and no character but "+" and digits; a string
that starts with 0 is rejected, and so are the empty string, strings with spaces or dashes
and a string of 17 digits. -/
theorem validatePhone_iff (s : String) :
    (validatePhone s = true ↔
      ∃ sign d rest, s.data = sign ++ d :: rest ∧ (sign = [] ∨ sign = ['+'])
        ∧ d ∈ nonZeroDigitChars ∧ rest.length ≤ 15 ∧ ∀ c ∈ rest, c ∈ digitChars)
    ∧ (validatePhone s = true →
        1 ≤ s.data.countP (fun c => digitChars.contains c)
        ∧ s.data.countP (fun c => digitChars.contains c) ≤ 16
        ∧ ∀ c ∈ s.data, c = '+' ∨ c ∈ digitChars)
    ∧ (s.data.head? = some '0' → validatePhone s = false)
    ∧ validatePhone "" = false
    ∧ validatePhone "0123456789" = false
    ∧ validatePhone "415 555 2671" = false
    ∧ validatePhone "415-555-2671" = false
    ∧ validatePhone "12345678901234567" = false
    ∧ validatePhone "1234567890123456" = true
    ∧ validatePhone "+14155552671" = true
    ∧ validatePhone "7" = true := by
  have hiff : validatePhone s = true ↔
      ∃ sign d rest, s.data = sign ++ d :: rest ∧ (sign = [] ∨ sign = ['+'])
        ∧ d ∈ nonZeroDigitChars ∧ rest.length ≤ 15 ∧ ∀ c ∈ rest, c ∈ digitChars := by
    unfold validatePhone
    rw [Regex.matchesWhole_iff, mem_phoneRegex]
  have hsub : ∀ c, c ∈ nonZeroDigitChars → c ∈ digitChars := by
    intro c hc
    simp only [nonZeroDigitChars, List.mem_cons, List.mem_singleton, List.not_mem_nil,
      or_false] at hc
    rcases hc with rfl | rfl | rfl | rfl | rfl | rfl | rfl | rfl | rfl <;> decide
  refine ⟨hiff, ?_, ?_, by decide, by decide, by decide, by decide, by decide, by decide,
    by decide, by decide⟩
  · intro h
    obtain ⟨sign, d, rest, hs, hsign, hd, hlen, hall⟩ := hiff.mp h
    have hrest : rest.countP (fun c => digitChars.contains c) = rest.length := by
      rw [List.countP_eq_length]
      intro c hc
      simpa using hall c hc
    have hd' : digitChars.contains d = true := by simpa using hsub d hd
    rw [hs]
    refine ⟨?_, ?_, ?_⟩
    · rw [List.countP_append, List.countP_cons_of_pos _ _ hd']
      omega
    · rcases hsign with rfl | rfl
      · rw [List.nil_append, List.countP_cons_of_pos _ _ hd', hrest]
        omega
      · rw [List.countP_append, List.countP_cons_of_pos _ _ hd', hrest]
        have : List.countP (fun c => digitChars.contains c) ['+'] = 0 := by decide
        omega
    · intro c hc
      rcases List.mem_append.mp hc with hc | hc
      · rcases hsign with rfl | rfl
        · simp at hc
        · exact Or.inl (List.mem_singleton.mp hc)
      · rcases List.mem_cons.mp hc with rfl | hc
        · exact Or.inr (hsub _ hd)
        · exact Or.inr (hall c hc)
  · intro hhead
    cases hv : validatePhone s with
    | false => rfl
    | true =>
      obtain ⟨sign, d, rest, hs, hsign, hd, _, _⟩ := hiff.mp hv
      rw [hs] at hhead
      rcases hsign with rfl | rfl
      · simp only [List.nil_append, List.head?_cons, Option.some.injEq] at hhead
        rw [hhead] at hd
        exact absurd hd (by decide)
      · simp at hhead

/-- C20. The function `validateEmail` accepts a string exactly when it has no white space
character, exactly one "@", at least one character before the "@", and after the "@" a
"." with at least one character between the "@" and it and at least one character after
it. -/
theorem validateEmail_iff (s : String) :
    (validateEmail s = true ↔
      (∀ c ∈ s.data, c ∉ whiteSpaceChars)
      ∧ s.data.count '@' = 1
      ∧ ∃ u v w, s.data = u ++ '@' :: (v ++ '.' :: w) ∧ u ≠ [] ∧ v ≠ [] ∧ w ≠ [])
    ∧ validateEmail "ana@example.com" = true
    ∧ validateEmail "a@b.c.d" = true
    ∧ validateEmail "ana@example" = false
    ∧ validateEmail "@example.com" = false
    ∧ validateEmail "ana@.com" = false
    ∧ validateEmail "ana@example." = false
    ∧ validateEmail "ana@ex@ample.com" = false
    ∧ validateEmail "ana maria@example.com" = false
    ∧ validateEmail "" = false := by
  refine ⟨?_, by decide, by decide, by decide, by decide, by decide, by decide, by decide,
    by decide, by decide⟩
  unfold validateEmail
  rw [Regex.matchesWhole_iff, mem_emailRegex]
  have hat : '@' ∉ whiteSpaceChars := by decide
  have hdot : '.' ∉ whiteSpaceChars := by decide
  constructor
  · rintro ⟨u, v, w, hs, hu, hv, hw, hu', hv', hw'⟩
    have hcu : u.count '@' = 0 :=
      List.count_eq_zero.mpr (fun h => ((notSpaceNorAt_iff _).mp (hu' _ h)).2 rfl)
    have hcv : v.count '@' = 0 :=
      List.count_eq_zero.mpr (fun h => ((notSpaceNorAt_iff _).mp (hv' _ h)).2 rfl)
    have hcw : w.count '@' = 0 :=
      List.count_eq_zero.mpr (fun h => ((notSpaceNorAt_iff _).mp (hw' _ h)).2 rfl)
    refine ⟨?_, ?_, u, v, w, hs, hu, hv, hw⟩
    · intro c hc
      rw [hs] at hc
      simp only [List.mem_append, List.mem_cons] at hc
      rcases hc with hc | rfl | hc | rfl | hc
      · exact ((notSpaceNorAt_iff _).mp (hu' _ hc)).1
      · exact hat
      · exact ((notSpaceNorAt_iff _).mp (hv' _ hc)).1
      · exact hdot
      · exact ((notSpaceNorAt_iff _).mp (hw' _ hc)).1
    · rw [hs, List.count_append, List.count_cons_self, List.count_append,
        List.count_cons_of_ne (by decide), hcu, hcv, hcw]
  · rintro ⟨hws, hcount, u, v, w, hs, hu, hv, hw⟩
    rw [hs, List.count_append, List.count_cons_self, List.count_append,
      List.count_cons_of_ne (by decide)] at hcount
    have hcu : u.count '@' = 0 := by omega
    have hcv : v.count '@' = 0 := by omega
    have hcw : w.count '@' = 0 := by omega
    have hmem : ∀ c, c ∈ u ∨ c ∈ v ∨ c ∈ w → c ∈ s.data := by
      intro c hc
      rw [hs]
      simp only [List.mem_append, List.mem_cons]
      tauto
    refine ⟨u, v, w, hs, hu, hv, hw, ?_, ?_, ?_⟩
    · intro c hc
      exact (notSpaceNorAt_iff c).mpr ⟨hws c (hmem c (Or.inl hc)),
        fun h => List.count_eq_zero.mp hcu (h ▸ hc)⟩
    · intro c hc
      exact (notSpaceNorAt_iff c).mpr ⟨hws c (hmem c (Or.inr (Or.inl hc))),
        fun h => List.count_eq_zero.mp hcv (h ▸ hc)⟩
    · intro c hc
      exact (notSpaceNorAt_iff c).mpr ⟨hws c (hmem c (Or.inr (Or.inr hc))),
        fun h => List.count_eq_zero.mp hcw (h ▸ hc)⟩

/-! ## Claims on non-numeric input and missing fields -/

theorem digitsToNumber_fifty : digitsToNumber "50" = some 50 := by
  have h : digitsValue "50".data 0 = 50 := by decide
  have hd : ("50".data ≠ [] ∧ "50".data.all (fun c => digitChars.contains c) = true) := by
    decide
  unfold digitsToNumber
  rw [if_pos hd, h]
  norm_num

/-- C21, the claim as stated fails: the boolean `true` counts as 1 and the string "50" as
50, so `validateAge` and `validateWeight` accept `true`, and all three validators accept a
numeric string in range. -/
theorem validators_accept_coerced_values :
    validateAgeValue digitsToNumber (.bool true) = true
    ∧ validateWeightValue digitsToNumber (.bool true) = true
    ∧ validateAgeValue digitsToNumber (.string "50") = true
    ∧ validateWeightValue digitsToNumber (.string "50") = true
    ∧ validateHeightValue digitsToNumber (.string "50") = true := by
  refine ⟨?_, ?_, ?_, ?_, ?_⟩
  · simp [validateAgeValue, toNumber, validateAge, jsGe, jsLe]
  · simp [validateWeightValue, toNumber, validateWeight, jsGt, jsLe]
  · simp only [validateAgeValue, toNumber, digitsToNumber_fifty]
    norm_num [validateAge, jsGe, jsLe]
  · simp only [validateWeightValue, toNumber, digitsToNumber_fifty]
    norm_num [validateWeight, jsGt, jsLe]
  · simp only [validateHeightValue, toNumber, digitsToNumber_fifty]
    norm_num [validateHeight, jsGe, jsLe]

/-- C21, amended. The three validators return a boolean for every primitive value and
are false for `undefined`, not-a-number, `null`, `false` and every string that converts
to not-a-number; `validateHeight` is also false for `true`.  The comparisons convert
their operand to a number: `true` counts as 1, which `validateAge` and `validateWeight`
accept, and a string counts as the number it converts to. -/
theorem validators_on_values (stringToNumber : String → Option ℚ) :
    (validateAgeValue stringToNumber .undefined = false
      ∧ validateWeightValue stringToNumber .undefined = false
      ∧ validateHeightValue stringToNumber .undefined = false)
    ∧ (validateAgeValue stringToNumber .notANumber = false
      ∧ validateWeightValue stringToNumber .notANumber = false
      ∧ validateHeightValue stringToNumber .notANumber = false)
    ∧ (validateAgeValue stringToNumber .null = false
      ∧ validateWeightValue stringToNumber .null = false
      ∧ validateHeightValue stringToNumber .null = false)
    ∧ (validateAgeValue stringToNumber (.bool false) = false
      ∧ validateWeightValue stringToNumber (.bool false) = false
      ∧ validateHeightValue stringToNumber (.bool false) = false)
    ∧ (validateAgeValue stringToNumber (.bool true) = true
      ∧ validateWeightValue stringToNumber (.bool true) = true
      ∧ validateHeightValue stringToNumber (.bool true) = false)
    ∧ (∀ s : String,
        validateAgeValue stringToNumber (.string s) = validateAge (stringToNumber s)
        ∧ validateWeightValue stringToNumber (.string s) = validateWeight (stringToNumber s)
        ∧ validateHeightValue stringToNumber (.string s)
            = validateHeight (stringToNumber s))
    ∧ (∀ s : String, stringToNumber s = none →
        validateAgeValue stringToNumber (.string s) = false
        ∧ validateWeightValue stringToNumber (.string s) = false
        ∧ validateHeightValue stringToNumber (.string s) = false)
    ∧ (∀ x : ℚ,
        validateAgeValue stringToNumber (.number x) = validateAge (some x)
        ∧ validateWeightValue stringToNumber (.number x) = validateWeight (some x)
        ∧ validateHeightValue stringToNumber (.number x) = validateHeight (some x)) := by
  refine ⟨?_, ?_, ?_, ?_, ?_, fun s => ⟨rfl, rfl, rfl⟩, ?_, fun x => ⟨rfl, rfl, rfl⟩⟩
  · simp [validateAgeValue, validateWeightValue, validateHeightValue, toNumber, validateAge,
      validateWeight, validateHeight, jsGe, jsGt]
  · simp [validateAgeValue, validateWeightValue, validateHeightValue, toNumber, validateAge,
      validateWeight, validateHeight, jsGe, jsGt]
  · simp [validateAgeValue, validateWeightValue, validateHeightValue, toNumber, validateAge,
      validateWeight, validateHeight, jsGe, jsGt, jsLe]
  · simp [validateAgeValue, validateWeightValue, validateHeightValue, toNumber, validateAge,
      validateWeight, validateHeight, jsGe, jsGt, jsLe]
  · simp [validateAgeValue, validateWeightValue, validateHeightValue, toNumber, validateAge,
      validateWeight, validateHeight, jsGe, jsGt, jsLe]
  · intro s hs
    simp [validateAgeValue, validateWeightValue, validateHeightValue, toNumber, hs,
      validateAge, validateWeight, validateHeight, jsGe, jsGt]

theorem validators_on_values_witness :
    validateAgeValue digitsToNumber (.string "fifty") = false
    ∧ validateWeightValue digitsToNumber (.string "fifty") = false
    ∧ validateHeightValue digitsToNumber (.string "fifty") = false :=
  (validators_on_values digitsToNumber).2.2.2.2.2.2.1 "fifty" (by decide)

theorem getBMICategory_none : getBMICategory none = "Unknown" := by
  simp [getBMICategory, truthy]

theorem generateRecommendations_types (r : HealthRecord) :
    (generateRecommendations r).map Recommendation.type =
      (if getBMICategory (r.bmi.bind Bmi.value) = "Overweight"
            ∨ getBMICategory (r.bmi.bind Bmi.value) = "Obese"
            ∨ getBMICategory (r.bmi.bind Bmi.value) = "Underweight" then ["weight"] else [])
      ++ (if (r.lifestyleHabits.bind LifestyleHabits.exercise).bind Exercise.frequency
              = some "Never"
            ∨ (r.lifestyleHabits.bind LifestyleHabits.exercise).bind Exercise.frequency
              = some "Rarely" then ["exercise"]
          else [])
      ++ (if r.lifestyleHabits.bind LifestyleHabits.smoking ≠ some "Never" then ["smoking"]
          else [])
      ++ (if jsLt ((r.lifestyleHabits.bind LifestyleHabits.sleep).bind Sleep.hoursPerNight) 7
            then ["sleep"]
          else [])
      ++ (if jsLt (r.lifestyleHabits.bind LifestyleHabits.waterIntake) 8 then ["hydration"]
          else []) := by
  unfold generateRecommendations
  simp only [List.nil_append, ite_append_same, ite_append_self, List.map_append]
  congr 1
  congr 1
  congr 1
  congr 1
  · split_ifs <;> simp_all
  all_goals (split_ifs <;> rfl)

/-- C22. A record with missing fields gets a result from `getRiskLevel` and from
`generateRecommendations`, both total functions, and a missing field adds nothing to the
risk score: when the BMI value, the age, the smoking status, the exercise frequency, the
sleep hours or the list of health issues is missing (itself or an object on the way to
it), the score is the sum of the other contributions, and a missing BMI has the category
Unknown.  The record with every field missing scores 0 and is rated Low. -/
theorem missing_fields_add_nothing :
    (∀ r : HealthRecord, r.bmi.bind Bmi.value = none →
      getBMICategory (r.bmi.bind Bmi.value) = "Unknown"
      ∧ riskScore r =
          agePoints r.age
          + smokingPoints (r.lifestyleHabits.bind LifestyleHabits.smoking)
          + exercisePoints
              ((r.lifestyleHabits.bind LifestyleHabits.exercise).bind Exercise.frequency)
          + sleepPoints
              ((r.lifestyleHabits.bind LifestyleHabits.sleep).bind Sleep.hoursPerNight)
          + issuesPoints (r.existingHealthIssues.getD []))
    ∧ (∀ r : HealthRecord, r.age = none →
        riskScore r =
          bmiPoints (getBMICategory (r.bmi.bind Bmi.value))
          + smokingPoints (r.lifestyleHabits.bind LifestyleHabits.smoking)
          + exercisePoints
              ((r.lifestyleHabits.bind LifestyleHabits.exercise).bind Exercise.frequency)
          + sleepPoints
              ((r.lifestyleHabits.bind LifestyleHabits.sleep).bind Sleep.hoursPerNight)
          + issuesPoints (r.existingHealthIssues.getD []))
    ∧ (∀ r : HealthRecord, r.lifestyleHabits.bind LifestyleHabits.smoking = none →
        riskScore r =
          bmiPoints (getBMICategory (r.bmi.bind Bmi.value))
          + agePoints r.age
          + exercisePoints
              ((r.lifestyleHabits.bind LifestyleHabits.exercise).bind Exercise.frequency)
          + sleepPoints
              ((r.lifestyleHabits.bind LifestyleHabits.sleep).bind Sleep.hoursPerNight)
          + issuesPoints (r.existingHealthIssues.getD []))
    ∧ (∀ r : HealthRecord,
        (r.lifestyleHabits.bind LifestyleHabits.exercise).bind Exercise.frequency = none →
        riskScore r =
          bmiPoints (getBMICategory (r.bmi.bind Bmi.value))
          + agePoints r.age
          + smokingPoints (r.lifestyleHabits.bind LifestyleHabits.smoking)
          + sleepPoints
              ((r.lifestyleHabits.bind LifestyleHabits.sleep).bind Sleep.hoursPerNight)
          + issuesPoints (r.existingHealthIssues.getD []))
    ∧ (∀ r : HealthRecord,
        (r.lifestyleHabits.bind LifestyleHabits.sleep).bind Sleep.hoursPerNight = none →
        riskScore r =
          bmiPoints (getBMICategory (r.bmi.bind Bmi.value))
          + agePoints r.age
          + smokingPoints (r.lifestyleHabits.bind LifestyleHabits.smoking)
          + exercisePoints
              ((r.lifestyleHabits.bind LifestyleHabits.exercise).bind Exercise.frequency)
          + issuesPoints (r.existingHealthIssues.getD []))
    ∧ (∀ r : HealthRecord, r.existingHealthIssues = none →
        riskScore r =
          bmiPoints (getBMICategory (r.bmi.bind Bmi.value))
          + agePoints r.age
          + smokingPoints (r.lifestyleHabits.bind LifestyleHabits.smoking)
          + exercisePoints
              ((r.lifestyleHabits.bind LifestyleHabits.exercise).bind Exercise.frequency)
          + sleepPoints
              ((r.lifestyleHabits.bind LifestyleHabits.sleep).bind Sleep.hoursPerNight))
    ∧ (∀ r : HealthRecord, r.lifestyleHabits.bind LifestyleHabits.waterIntake = none →
        "hydration" ∉ (generateRecommendations r).map Recommendation.type)
    ∧ riskScore emptyRecord = 0
    ∧ getRiskLevel emptyRecord = { level := "Low", color := "#10B981" }
    ∧ (generateRecommendations emptyRecord).map Recommendation.type = ["smoking"] := by
  have h0 : riskScore emptyRecord = 0 := by
    rw [riskScore_eq_sum]
    simp [emptyRecord, getBMICategory_none, bmiPoints, agePoints, smokingPoints,
      exercisePoints, sleepPoints, issuesPoints]
  refine ⟨?_, ?_, ?_, ?_, ?_, ?_, ?_, h0, ?_, ?_⟩
  · intro r h
    rw [riskScore_eq_sum, h, getBMICategory_none]
    simp [bmiPoints]
  · intro r h
    rw [riskScore_eq_sum, h]
    simp [agePoints]
  · intro r h
    rw [riskScore_eq_sum, h]
    simp [smokingPoints]
  · intro r h
    rw [riskScore_eq_sum, h]
    simp [exercisePoints]
  · intro r h
    rw [riskScore_eq_sum, h]
    simp [sleepPoints]
  · intro r h
    rw [riskScore_eq_sum, h]
    simp [issuesPoints]
  · intro r h
    rw [generateRecommendations_types, h]
    simp only [jsLt, Bool.false_eq_true, if_false, List.append_nil]
    simp only [List.mem_append, not_or]
    refine ⟨⟨⟨?_, ?_⟩, ?_⟩, ?_⟩ <;> split_ifs <;> simp
  · simp [getRiskLevel, h0]
  · rw [generateRecommendations_types]
    simp [emptyRecord, getBMICategory_none, jsLt]

theorem missing_fields_add_nothing_witness :
    getBMICategory ((issuesOnlyRecord ["Asthma"]).bmi.bind Bmi.value) = "Unknown"
    ∧ riskScore (issuesOnlyRecord ["Asthma"]) =
        agePoints (issuesOnlyRecord ["Asthma"]).age
        + smokingPoints
            ((issuesOnlyRecord ["Asthma"]).lifestyleHabits.bind LifestyleHabits.smoking)
        + exercisePoints
            (((issuesOnlyRecord ["Asthma"]).lifestyleHabits.bind
              LifestyleHabits.exercise).bind Exercise.frequency)
        + sleepPoints
            (((issuesOnlyRecord ["Asthma"]).lifestyleHabits.bind
              LifestyleHabits.sleep).bind Sleep.hoursPerNight)
        + issuesPoints ((issuesOnlyRecord ["Asthma"]).existingHealthIssues.getD []) :=
  missing_fields_add_nothing.1 (issuesOnlyRecord ["Asthma"]) rfl

theorem arrayFilter_raises {α : Type} (callback : α → Except JsError Bool) :
    ∀ l : List α, (∃ a ∈ l, callback a = .error .typeError) →
      arrayFilter callback l = .error .typeError
  | [], h => by
    obtain ⟨a, ha, _⟩ := h
    simp at ha
  | b :: l, h => by
    cases hb : callback b with
    | error e =>
      cases e
      simp [arrayFilter, hb]
    | ok keep =>
      have hrest : arrayFilter callback l = .error .typeError := by
        apply arrayFilter_raises callback l
        obtain ⟨a, ha, hca⟩ := h
        rcases List.mem_cons.mp ha with rfl | ha
        · rw [hb] at hca
          cases hca
        · exact ⟨a, ha, hca⟩
      simp [arrayFilter, hb, hrest]

theorem compareRecords_returns (lc : String → String) (localeCompare : String → String → ℤ)
    (sortBy sortOrder : String) (a b : HealthRecord)
    (ha : hasSortObject sortBy a = true) (hb : hasSortObject sortBy b = true) :
    ∃ v, compareRecords lc localeCompare sortBy sortOrder a b = .ok v := by
  by_cases hn : sortBy = "name"
  · subst hn
    simp only [hasSortObject, if_true] at ha hb
    obtain ⟨x, hx⟩ := Option.isSome_iff_exists.mp ha
    obtain ⟨y, hy⟩ := Option.isSome_iff_exists.mp hb
    simp [compareRecords, sortValue, hx, hy]
  · by_cases hbmi : sortBy = "bmi"
    · subst hbmi
      simp only [hasSortObject, hn, if_false, if_true] at ha hb
      obtain ⟨x, hx⟩ := Option.isSome_iff_exists.mp ha
      obtain ⟨y, hy⟩ := Option.isSome_iff_exists.mp hb
      simp [compareRecords, sortValue, hx, hy]
    · unfold compareRecords sortValue
      simp only [hn, hbmi, if_false]
      split_ifs <;> simp

/-! ## Claim on records that lack a field the query pipeline reads -/

/-- C23, the claim as stated fails: on the example record of the specification, which has
no email, the search for "x" raises a `TypeError`, in the filter step and so in
`filterRecords`; the sort by `bmi` raises on records without a `bmi` object. -/
theorem filter_raises_on_missing_email :
    exampleRecord.email = none
    ∧ filterStep asciiLower "x" [exampleRecord] = .error .typeError
    ∧ filterRecords asciiLower codePointCompare
        { initialState with healthRecords := [exampleRecord], searchTerm := "x" }
      = .error .typeError
    ∧ sortStep asciiLower codePointCompare "bmi" "asc" [emptyRecord, emptyRecord]
      = .error .typeError := by
  refine ⟨rfl, rfl, rfl, rfl⟩

/-- C23, amended. The filter step returns without raising for the empty search term, which
reads no field, and for every term on records that have a name, an email and a BMI
category; a record whose name contains the term is kept without its other fields being
read.  The sort step returns without raising on records that have the object the key is
read from: a name for `name`, a `bmi` object for `bmi`, and nothing for every other key.
A record with a name that does not contain a non-empty term and with no email makes the
filter step raise a `TypeError`. -/
theorem query_pipeline_missing_fields (lc : String → String)
    (localeCompare : String → String → ℤ) :
    (∀ records : List HealthRecord, filterStep lc "" records = .ok records)
    ∧ (∀ (term : String) (records : List HealthRecord),
        (∀ r ∈ records, hasSearchFields r = true) →
        filterStep lc term records = .ok (records.filter (fun r =>
          decide (term = "") || searchMatches lc term r)))
    ∧ (∀ (term : String) (r : HealthRecord) (name : String), r.name = some name →
        includes (lc name) (lc term) = true → matchesSearch lc term r = .ok true)
    ∧ (∀ (sortBy sortOrder : String) (records : List HealthRecord),
        (∀ r ∈ records, hasSortObject sortBy r = true) →
        ∃ out, sortStep lc localeCompare sortBy sortOrder records = .ok out
          ∧ out.Perm records)
    ∧ (∀ (sortBy sortOrder : String) (records : List HealthRecord),
        sortBy ≠ "name" → sortBy ≠ "bmi" →
        ∃ out, sortStep lc localeCompare sortBy sortOrder records = .ok out
          ∧ out.Perm records)
    ∧ (∀ (term : String) (records : List HealthRecord) (r : HealthRecord) (name : String),
        term ≠ "" → r ∈ records → r.name = some name →
        includes (lc name) (lc term) = false → r.email = none →
        filterStep lc term records = .error .typeError) := by
  have hsort : ∀ (sortBy sortOrder : String) (records : List HealthRecord),
      (∀ r ∈ records, hasSortObject sortBy r = true) →
      ∃ out, sortStep lc localeCompare sortBy sortOrder records = .ok out
        ∧ out.Perm records := by
    intro sortBy sortOrder records h
    exact arraySort_returns (compareRecords lc localeCompare sortBy sortOrder)
      (fun r => hasSortObject sortBy r = true)
      (compareRecords_returns lc localeCompare sortBy sortOrder) records h
  refine ⟨fun records => by simp [filterStep], ?_, ?_, hsort, ?_, ?_⟩
  · intro term records hfields
    by_cases ht : term = ""
    · simp [filterStep, ht]
    · simp only [filterStep, ne_eq, ht, not_false_eq_true, if_true, decide_False,
        Bool.false_or]
      exact arrayFilter_of_ok _ _ records
        (fun r hr => matchesSearch_of_fields lc term r (hfields r hr))
  · intro term r name hname hinc
    simp [matchesSearch, hname, hinc]
  · intro sortBy sortOrder records hn hb
    exact hsort sortBy sortOrder records (fun r _ => by simp [hasSortObject, hn, hb])
  · intro term records r name ht hr hname hinc hemail
    simp only [filterStep, ne_eq, ht, not_false_eq_true, if_true]
    exact arrayFilter_raises _ records ⟨r, hr, by simp [matchesSearch, hname, hinc, hemail]⟩

theorem query_pipeline_missing_fields_witness :
    filterStep asciiLower "OB" sampleRecords = .ok (sampleRecords.filter (fun r =>
      decide (("OB" : String) = "") || searchMatches asciiLower "OB" r)) :=
  (query_pipeline_missing_fields asciiLower codePointCompare).2.1 "OB" sampleRecords
    (by decide)

/-! ## Claims on form validation, the health score and the agreement of the two engines -/

theorem validateForm_weight (form : FormData) :
    (validateForm form).1.weight =
      if (!truthy form.weight || !validateWeight form.weight) = true then
        some "Valid weight (1-1000 kg) is required"
      else none := by
  show (formErrors form).weight = _
  unfold formErrors
  simp only []
  by_cases h1 : trim form.name = "" <;>
  by_cases h2 : (!truthy form.age || !validateAge form.age) = true <;>
  by_cases h3 : form.gender = "" <;>
  by_cases h4 : (!truthy form.weight || !validateWeight form.weight) = true <;>
  by_cases h5 : (!truthy form.height || !validateHeight form.height) = true <;>
  by_cases h6 : (decide (form.email = "") || !validateEmail form.email) = true <;>
  by_cases h7 : (decide (form.contact = "") || !validatePhone form.contact) = true <;>
  simp only [h1, h2, h3, h4, h5, h6, h7, if_true, if_false, Bool.false_eq_true]

theorem filledForm_valid : (validateForm filledForm).2 = true := by
  have he : validateEmail "ana@example.com" = true := by decide
  have hp : validatePhone "+14155552671" = true := by decide
  have ht : trim "Ana" ≠ "" := by decide
  have hg : ("Female" : String) ≠ "" := by decide
  have hm : ("ana@example.com" : String) ≠ "" := by decide
  have hc : ("+14155552671" : String) ≠ "" := by decide
  simp [validateForm, formErrors, filledForm, he, hp, ht, hg, hm, hc, truthy, validateAge, validateWeight,
    validateHeight, jsGe, jsLe, jsGt]
  norm_num

/-- C24, the code at the failing input: a form that is valid but for a weight of 0.5 kg,
below the range 1-1000 of the message, gets no weight error and passes `validateForm`;
the error is reported exactly for a missing weight, a weight of at most 0 and a weight
above 1000. -/
theorem validateForm_accepts_weight_below_one :
    (validateForm { filledForm with weight := some (1 / 2) }).1.weight = none
    ∧ (validateForm { filledForm with weight := some (1 / 2) }).2 = true
    ∧ (∀ form : FormData,
        (validateForm form).1.weight = some "Valid weight (1-1000 kg) is required"
          ↔ (form.weight = none ∨ ∃ w, form.weight = some w ∧ (w ≤ 0 ∨ 1000 < w)))
    ∧ (∀ form : FormData,
        (validateForm form).1.weight = none
          ↔ ∃ w, form.weight = some w ∧ 0 < w ∧ w ≤ 1000) := by
  have hw : ∀ form : FormData, (!truthy form.weight || !validateWeight form.weight) = true
      ↔ (form.weight = none ∨ ∃ w, form.weight = some w ∧ (w ≤ 0 ∨ 1000 < w)) := by
    intro form
    rcases hform : form.weight with _ | w
    · simp [truthy]
    · simp only [truthy, validateWeight, jsGt, jsLe, Bool.or_eq_true, Bool.not_eq_true',
        decide_eq_false_iff_not, Bool.and_eq_false_iff, not_not, Option.some.injEq,
        false_or, exists_eq_left', reduceCtorEq, gt_iff_lt, not_lt, not_le]
      constructor
      · rintro (h | h | h)
        · exact Or.inl (le_of_eq h)
        · exact Or.inl h
        · exact Or.inr h
      · rintro (h | h)
        · exact Or.inr (Or.inl h)
        · exact Or.inr (Or.inr h)
  refine ⟨?_, ?_, ?_, ?_⟩
  · rw [validateForm_weight]
    norm_num [truthy, validateWeight, jsGt, jsLe]
  · have he : validateEmail "ana@example.com" = true := by decide
    have hp : validatePhone "+14155552671" = true := by decide
    have ht : trim "Ana" ≠ "" := by decide
    have hg : ("Female" : String) ≠ "" := by decide
    have hm : ("ana@example.com" : String) ≠ "" := by decide
    have hc : ("+14155552671" : String) ≠ "" := by decide
    simp [validateForm, formErrors, filledForm, he, hp, ht, hg, hm, hc, truthy, validateAge,
      validateWeight, validateHeight, jsGe, jsLe, jsGt]
    norm_num
  · intro form
    rw [validateForm_weight, ← hw form]
    split_ifs with h <;> simp [h]
  · intro form
    rw [validateForm_weight]
    have h := hw form
    split_ifs with hc
    · simp only [reduceCtorEq, false_iff]
      rintro ⟨w, hw1, hw2, hw3⟩
      rcases h.mp hc with h' | ⟨w', hw', h'⟩
      · rw [h'] at hw1
        cases hw1
      · rw [hw1] at hw'
        cases hw'
        rcases h' with h' | h'
        · exact absurd hw2 (not_lt.mpr h')
        · exact absurd hw3 (not_le.mpr h')
    · simp only [true_iff]
      rcases hform : form.weight with _ | w
      · exact absurd (h.mpr (Or.inl hform)) hc
      · refine ⟨w, rfl, ?_, ?_⟩
        · by_contra hn
          exact hc (h.mpr (Or.inr ⟨w, hform, Or.inl (not_lt.mp hn)⟩))
        · by_contra hn
          exact hc (h.mpr (Or.inr ⟨w, hform, Or.inr (not_le.mp hn)⟩))

/-- C25. The category of `getHealthScoreCategory` is Excellent for a score of at least
80, Good from 65 to below 80, Fair from 50 to below 65 and Poor below 50 (and for a
missing score), and `getHealthScoreColor` returns for every score the colour that its
comments pair with that category. -/
theorem healthScore_ladders_agree :
    (∀ x : ℚ,
      (getHealthScoreCategory (some x) = "Excellent" ↔ 80 ≤ x)
      ∧ (getHealthScoreCategory (some x) = "Good" ↔ (65 ≤ x ∧ x < 80))
      ∧ (getHealthScoreCategory (some x) = "Fair" ↔ (50 ≤ x ∧ x < 65))
      ∧ (getHealthScoreCategory (some x) = "Poor" ↔ x < 50))
    ∧ getHealthScoreCategory none = "Poor"
    ∧ (∀ score : Option ℚ,
        getHealthScoreColor score = healthScoreColorOf (getHealthScoreCategory score))
    ∧ healthScoreColorOf "Excellent" = "#10B981"
    ∧ healthScoreColorOf "Good" = "#F59E0B"
    ∧ healthScoreColorOf "Fair" = "#F97316"
    ∧ healthScoreColorOf "Poor" = "#EF4444" := by
  refine ⟨?_, by simp [getHealthScoreCategory, jsGe], ?_, by decide, by decide, by decide,
    by decide⟩
  · intro x
    simp only [getHealthScoreCategory, jsGe, decide_eq_true_eq, ge_iff_le]
    refine ⟨?_, ?_, ?_, ?_⟩ <;> split_ifs <;> simp <;>
      first | linarith | (intros; linarith) | (constructor <;> linarith)
  · intro score
    unfold getHealthScoreColor getHealthScoreCategory
    split_ifs <;> decide

theorem riskScore_withoutBmi (r : HealthRecord) :
    riskScore r = riskScore (withoutBmi r) + bmiPoints (getBMICategory (r.bmi.bind Bmi.value)) := by
  have h1 : (withoutBmi r).bmi.bind Bmi.value = none := rfl
  have h2 : (withoutBmi r).age = r.age := rfl
  have h3 : (withoutBmi r).lifestyleHabits = r.lifestyleHabits := rfl
  have h4 : (withoutBmi r).existingHealthIssues = r.existingHealthIssues := rfl
  have h5 : bmiPoints "Unknown" = 0 := by decide
  rw [riskScore_eq_sum r, riskScore_eq_sum (withoutBmi r), h1, h2, h3, h4,
    getBMICategory_none, h5]
  omega

theorem riskScore_withoutExercise (r : HealthRecord) :
    riskScore r = riskScore (withoutExercise r)
      + exercisePoints
          ((r.lifestyleHabits.bind LifestyleHabits.exercise).bind Exercise.frequency) := by
  have h1 : (withoutExercise r).bmi = r.bmi := rfl
  have h2 : (withoutExercise r).age = r.age := rfl
  have h3 : (withoutExercise r).lifestyleHabits.bind LifestyleHabits.smoking
      = r.lifestyleHabits.bind LifestyleHabits.smoking := by
    rcases hl : r.lifestyleHabits with _ | l <;> simp [withoutExercise, hl]
  have h4 : ((withoutExercise r).lifestyleHabits.bind LifestyleHabits.exercise).bind
      Exercise.frequency = none := by
    rcases hl : r.lifestyleHabits with _ | l <;> simp [withoutExercise, hl]
  have h5 : (withoutExercise r).lifestyleHabits.bind LifestyleHabits.sleep
      = r.lifestyleHabits.bind LifestyleHabits.sleep := by
    rcases hl : r.lifestyleHabits with _ | l <;> simp [withoutExercise, hl]
  have h6 : (withoutExercise r).existingHealthIssues = r.existingHealthIssues := rfl
  have h7 : exercisePoints none = 0 := by decide
  rw [riskScore_eq_sum r, riskScore_eq_sum (withoutExercise r), h1, h2, h3, h4, h5, h6, h7]
  omega

/-- C26. The two engines agree on BMI and on exercise: the `bmi` field adds points to the
risk score (the category is Obese, Overweight or Underweight) exactly when
`generateRecommendations` emits a recommendation of type `weight`, and the `exercise`
field adds points (the frequency is Never or Rarely) exactly when it emits one of type
`exercise`. -/
theorem risk_and_recommendations_agree (r : HealthRecord) :
    (riskScore (withoutBmi r) < riskScore r
      ↔ "weight" ∈ (generateRecommendations r).map Recommendation.type)
    ∧ (0 < bmiPoints (getBMICategory (r.bmi.bind Bmi.value))
      ↔ "weight" ∈ (generateRecommendations r).map Recommendation.type)
    ∧ (riskScore (withoutExercise r) < riskScore r
      ↔ "exercise" ∈ (generateRecommendations r).map Recommendation.type)
    ∧ (0 < exercisePoints
          ((r.lifestyleHabits.bind LifestyleHabits.exercise).bind Exercise.frequency)
      ↔ "exercise" ∈ (generateRecommendations r).map Recommendation.type) := by
  have hw : 0 < bmiPoints (getBMICategory (r.bmi.bind Bmi.value))
      ↔ "weight" ∈ (generateRecommendations r).map Recommendation.type := by
    rw [generateRecommendations_types]
    simp only [List.mem_append, bmiPoints]
    constructor
    · intro h
      refine Or.inl (Or.inl (Or.inl (Or.inl ?_)))
      split_ifs at h with h1 h2 h3
      · simp [h1]
      · simp [h2]
      · simp [h3]
      · exact absurd h (lt_irrefl 0)
    · rintro ((((h | h) | h) | h) | h)
      · split_ifs at h with h1
        · rcases h1 with h1 | h1 | h1 <;> simp [h1]
        · simp at h
      all_goals (split_ifs at h <;> simp at h)
  have he : 0 < exercisePoints
        ((r.lifestyleHabits.bind LifestyleHabits.exercise).bind Exercise.frequency)
      ↔ "exercise" ∈ (generateRecommendations r).map Recommendation.type := by
    rw [generateRecommendations_types]
    simp only [List.mem_append, exercisePoints]
    constructor
    · intro h
      refine Or.inl (Or.inl (Or.inl (Or.inr ?_)))
      split_ifs at h with h1 h2
      · simp [h1]
      · simp [h2]
      · exact absurd h (lt_irrefl 0)
    · rintro ((((h | h) | h) | h) | h)
      · split_ifs at h <;> simp at h
      · split_ifs at h with h1
        · rcases h1 with h1 | h1 <;> simp [h1]
        · simp at h
      all_goals (split_ifs at h <;> simp at h)
  refine ⟨?_, hw, ?_, he⟩
  · rw [← hw]
    have := riskScore_withoutBmi r
    omega
  · rw [← he]
    have := riskScore_withoutExercise r
    omega

theorem literal_0_01 :
    roundToDouble (1 / 100) = .finite (5764607523034235 / 576460752303423488) := by
  apply roundToDouble_eval _ _ (-7) 5764607523034235 <;> norm_num

/-- At the height 300, `calculateBMI` returns 0 for every weight up to 0.04: the quotient
is below 0.005 and `toFixed(2)` writes it as 0.00. -/
theorem calculateBMI_zero_of_small_weight (w : ℚ) (hw : 0 < w) (hw25 : w ≤ 1 / 25) :
    calculateBMI (some w) (some 300) = some (.finite 0) := by
  obtain ⟨s, b, r, hs1, hst, hb0, hberr, hr, -, -, hcalc⟩ :=
    calculateBMI_steps w 300 hw (by linarith) (by norm_num) (by norm_num)
  have hs0 : 0 < s := by linarith
  rw [abs_le] at hst hberr
  norm_num at hst hberr
  have hq : w / s ≤ 45 / 10000 := by
    rw [div_le_iff₀ hs0]
    nlinarith
  have hfloor : ⌊b * 100 + 1 / 2⌋ = 0 := by
    rw [Int.floor_eq_iff]
    norm_num
    constructor <;> linarith
  rw [hfloor] at hr
  norm_num at hr
  rw [roundToDouble_zero] at hr
  rw [hcalc, ← JsNumber.finite.inj hr]

/-- C27, the code at the failing input: a weight of 0.01 kg and a height of 300 cm pass
`validateWeight` and `validateHeight`, `calculateBMI` returns 0 for them (the quotient
rounded to two decimals) and `getBMICategory(0)` is Unknown.  The same holds for the
binary64 number that the text 0.01 denotes. -/
theorem validated_weight_gets_unknown_category :
    validateWeight (some (1 / 100)) = true
    ∧ validateHeight (some 300) = true
    ∧ calculateBMI (some (1 / 100)) (some 300) = some (.finite 0)
    ∧ getBMICategory (some 0) = "Unknown"
    ∧ roundToDouble (1 / 100) = .finite (5764607523034235 / 576460752303423488)
    ∧ validateWeight (some (5764607523034235 / 576460752303423488)) = true
    ∧ calculateBMI (some (5764607523034235 / 576460752303423488)) (some 300)
      = some (.finite 0) := by
  refine ⟨by norm_num [validateWeight, jsGt, jsLe], by norm_num [validateHeight, jsGe, jsLe],
    calculateBMI_zero_of_small_weight _ (by norm_num) (by norm_num),
    by simp [getBMICategory, truthy], literal_0_01,
    by norm_num [validateWeight, jsGt, jsLe],
    calculateBMI_zero_of_small_weight _ (by norm_num) (by norm_num)⟩

/-- For a weight in the range 1-1000 of the form's message and a validated height,
`calculateBMI` returns a positive number, whose category is not Unknown. -/
theorem bmi_category_known_from_one_kg (w h : ℚ) (hw1 : 1 ≤ w) (hw1000 : w ≤ 1000)
    (hh30 : 30 ≤ h) (hh300 : h ≤ 300) :
    ∃ b : ℚ, calculateBMI (some w) (some h) = some (.finite b) ∧ 0 < b
      ∧ getBMICategory (some b) ≠ "Unknown" := by
  obtain ⟨s, b, r, hs1, hst, hb0, hberr, -, hrerr, -, hcalc⟩ :=
    calculateBMI_steps w h (by linarith) hw1000 hh30 hh300
  have hs0 : 0 < s := by linarith
  rw [abs_le] at hst hberr hrerr
  norm_num at hst hberr hrerr
  have hs2 : s ≤ 91 / 10 := by nlinarith
  have hq : (1 : ℚ) / 10 ≤ w / s := by
    rw [div_le_div_iff₀ (by norm_num) hs0]
    linarith
  have hfloor : (9 : ℤ) ≤ ⌊b * 100 + 1 / 2⌋ := by
    rw [Int.le_floor]
    push_cast
    linarith
  have hfl : (9 : ℚ) ≤ ((⌊b * 100 + 1 / 2⌋ : ℤ) : ℚ) := by exact_mod_cast hfloor
  have hr0 : 0 < r := by linarith
  refine ⟨r, hcalc, hr0, ?_⟩
  rw [getBMICategory_some, if_neg (not_le.mpr hr0)]
  split_ifs <;> decide

/-- C28, the code at the failing inputs: for the smoking status "Former Smoker", and for a
record with no smoking field, `generateRecommendations` emits the smoking recommendation,
although these add no smoking points to the risk score; the recommendation is emitted
exactly when the smoking field is not "Never". -/
theorem smoking_recommendation_for_former_smoker :
    "smoking" ∈ (generateRecommendations (smokingRecord "Former Smoker")).map
        Recommendation.type
    ∧ "smoking" ∈ (generateRecommendations emptyRecord).map Recommendation.type
    ∧ smokingPoints (some "Former Smoker") = 0
    ∧ smokingPoints none = 0
    ∧ riskScore (smokingRecord "Former Smoker") = 0
    ∧ (∀ r : HealthRecord,
        "smoking" ∈ (generateRecommendations r).map Recommendation.type
          ↔ r.lifestyleHabits.bind LifestyleHabits.smoking ≠ some "Never")
    ∧ (∀ r : HealthRecord,
        0 < smokingPoints (r.lifestyleHabits.bind LifestyleHabits.smoking)
          ↔ (r.lifestyleHabits.bind LifestyleHabits.smoking = some "Occasional"
            ∨ r.lifestyleHabits.bind LifestyleHabits.smoking = some "Regular")) := by
  have hiff : ∀ r : HealthRecord,
      "smoking" ∈ (generateRecommendations r).map Recommendation.type
        ↔ r.lifestyleHabits.bind LifestyleHabits.smoking ≠ some "Never" := by
    intro r
    rw [generateRecommendations_types]
    simp only [List.mem_append]
    constructor
    · rintro ((((h | h) | h) | h) | h)
      · split_ifs at h <;> simp at h
      · split_ifs at h <;> simp at h
      · split_ifs at h with h1
        · exact h1
        · simp at h
      · split_ifs at h <;> simp at h
      · split_ifs at h <;> simp at h
    · intro h
      exact Or.inl (Or.inl (Or.inr (by simp [h])))
  refine ⟨(hiff _).mpr (by simp [smokingRecord]), (hiff _).mpr (by simp [emptyRecord]),
    by decide, by decide, ?_, hiff, ?_⟩
  · rw [riskScore_eq_sum]
    simp [smokingRecord, getBMICategory_none, bmiPoints, agePoints, smokingPoints,
      exercisePoints, sleepPoints, issuesPoints]
  · intro r
    simp only [smokingPoints]
    split_ifs with h1 h2
    · simp [h1]
    · simp [h2]
    · simp [h1, h2]

/-! ## Claim on the page after a change of the query -/

theorem filterRecords_returns_of_objects (lc : String → String)
    (localeCompare : String → String → ℤ) (state : DashboardState)
    (hfields : state.searchTerm = "" ∨ ∀ r ∈ state.healthRecords, hasSearchFields r = true)
    (hobjects : ∀ r ∈ state.healthRecords, hasSortObject state.sortBy r = true) :
    ∃ sorted, filterRecords lc localeCompare state
      = .ok { state with filteredRecords := sorted, currentPage := 1 } := by
  have hfilter : ∃ filtered, filterStep lc state.searchTerm state.healthRecords = .ok filtered
      ∧ filtered.Sublist state.healthRecords := by
    rcases hfields with ht | hfields
    · exact ⟨state.healthRecords, by simp [filterStep, ht], List.Sublist.refl _⟩
    · exact filterStep_returns lc state.searchTerm state.healthRecords hfields
  obtain ⟨filtered, hf, hsub⟩ := hfilter
  obtain ⟨sorted, hs, _⟩ := arraySort_returns
    (compareRecords lc localeCompare state.sortBy state.sortOrder)
    (fun r => hasSortObject state.sortBy r = true)
    (fun a b ha hb => compareRecords_returns lc localeCompare state.sortBy state.sortOrder
      a b ha hb)
    filtered (fun r hr => hobjects r (hsub.subset hr))
  exact ⟨sorted, by simp [filterRecords, sortStep, hf, hs]⟩

/-- C14, the claim as stated fails: from page 3 of the 3 pages of fourteen records, the
last of which is the example record of the specification (it has no email), the change of
the search term to "x" re-runs `filterRecords`, which raises a `TypeError` before it sets
the page: the page is still 3. -/
theorem page_not_reset_on_missing_email :
    mixedState.currentPage = 3
    ∧ totalPages mixedState = 3
    ∧ (handleSearch "x" mixedState).searchTerm ≠ mixedState.searchTerm
    ∧ runEffect asciiLower codePointCompare false mixedState (handleSearch "x" mixedState)
      = .error .typeError
    ∧ (handleSearch "x" mixedState).currentPage = 3 := by
  refine ⟨rfl, by rw [totalPages_eq]; simp [mixedState], by decide, ?_, rfl⟩
  have hfilter : filterStep asciiLower "x" mixedState.healthRecords = .error .typeError := by
    have hx : ("x" : String) ≠ "" := by decide
    simp only [filterStep, ne_eq, hx, not_false_eq_true, if_true]
    exact arrayFilter_raises _ _ ⟨exampleRecord, by simp [mixedState], rfl⟩
  have hrun : filterRecords asciiLower codePointCompare (handleSearch "x" mixedState)
      = .error .typeError := by
    have h := hfilter
    simp only [filterRecords, handleSearch]
    rw [h]
  unfold runEffect
  rw [if_pos (Or.inr (Or.inr (Or.inl (by decide))))]
  exact hrun

/-- C14, amended. Every run of `filterRecords` that returns leaves `currentPage` equal to
1, whatever it was, and so does every run of the effect after a render that changed
`searchTerm`, `sortBy` or `sortOrder`: such a run either raises, and then sets no page, or
returns a state on page 1.  A change of the search term, a call of `handleSort` and a
click on the sort-order button each re-run `filterRecords` through the effect, and the run
returns, on page 1, when the search term of the new query is empty or every record has a
name, an email and a BMI category, and every record has the object the sort key of the
new query is read from. -/
theorem page_reset_on_query_change (lc : String → String)
    (localeCompare : String → String → ℤ) (state : DashboardState) :
    (∀ next, filterRecords lc localeCompare state = .ok next → next.currentPage = 1)
    ∧ (∀ (healthRecordsReplaced : Bool) (rendered : DashboardState),
        (state.searchTerm ≠ rendered.searchTerm ∨ state.sortBy ≠ rendered.sortBy
          ∨ state.sortOrder ≠ rendered.sortOrder) →
        runEffect lc localeCompare healthRecordsReplaced state rendered = .error .typeError
        ∨ ∃ next, runEffect lc localeCompare healthRecordsReplaced state rendered = .ok next
            ∧ next.currentPage = 1)
    ∧ (∀ term, term ≠ state.searchTerm →
        (term = "" ∨ ∀ r ∈ state.healthRecords, hasSearchFields r = true) →
        (∀ r ∈ state.healthRecords, hasSortObject state.sortBy r = true) →
        ∃ next, runEffect lc localeCompare false state (handleSearch term state) = .ok next
          ∧ next.searchTerm = term ∧ next.currentPage = 1)
    ∧ (∀ field,
        (state.searchTerm = "" ∨ ∀ r ∈ state.healthRecords, hasSearchFields r = true) →
        (∀ r ∈ state.healthRecords, hasSortObject field r = true) →
        ∃ next, runEffect lc localeCompare false state (handleSort field state) = .ok next
          ∧ next.sortBy = field ∧ next.currentPage = 1)
    ∧ ((state.searchTerm = "" ∨ ∀ r ∈ state.healthRecords, hasSearchFields r = true) →
        (∀ r ∈ state.healthRecords, hasSortObject state.sortBy r = true) →
        ∃ next, runEffect lc localeCompare false state (toggleSortOrder state) = .ok next
          ∧ next.sortOrder ≠ state.sortOrder ∧ next.currentPage = 1) := by
  refine ⟨?_, ?_, ?_, ?_, ?_⟩
  · intro next h
    obtain ⟨sorted, rfl⟩ := filterRecords_shape lc localeCompare state next h
    rfl
  · intro replaced rendered hchange
    unfold runEffect
    rw [if_pos (Or.inr (Or.inr hchange))]
    cases h : filterRecords lc localeCompare rendered with
    | error e =>
      cases e
      exact Or.inl rfl
    | ok next =>
      obtain ⟨sorted, rfl⟩ := filterRecords_shape lc localeCompare rendered next h
      exact Or.inr ⟨_, rfl, rfl⟩
  · intro term hterm hfields hobjects
    obtain ⟨sorted, h⟩ := filterRecords_returns_of_objects lc localeCompare
      (handleSearch term state) hfields hobjects
    have hrun : runEffect lc localeCompare false state (handleSearch term state)
        = .ok { handleSearch term state with filteredRecords := sorted, currentPage := 1 } := by
      unfold runEffect
      rw [if_pos (Or.inr (Or.inr (Or.inl (fun h' => hterm h'.symm))))]
      exact h
    exact ⟨_, hrun, rfl, rfl⟩
  · intro field hfields hobjects
    obtain ⟨sorted, h⟩ := filterRecords_returns_of_objects lc localeCompare
      (handleSort field state)
      (by rw [handleSort_healthRecords, handleSort_searchTerm]; exact hfields)
      (by rw [handleSort_healthRecords, handleSort_sortBy]; exact hobjects)
    have hrun : runEffect lc localeCompare false state (handleSort field state)
        = .ok { handleSort field state with filteredRecords := sorted, currentPage := 1 } := by
      unfold runEffect
      rw [if_pos (Or.inr (Or.inr (Or.inr (handleSort_changes field state))))]
      exact h
    exact ⟨_, hrun, handleSort_sortBy field state, rfl⟩
  · intro hfields hobjects
    obtain ⟨sorted, h⟩ := filterRecords_returns_of_objects lc localeCompare
      (toggleSortOrder state) hfields hobjects
    have hrun : runEffect lc localeCompare false state (toggleSortOrder state)
        = .ok { toggleSortOrder state with filteredRecords := sorted, currentPage := 1 } := by
      unfold runEffect
      rw [if_pos (Or.inr (Or.inr (Or.inr (Or.inr
        (fun h' => toggle_ne state.sortOrder h'.symm)))))]
      exact h
    exact ⟨_, hrun, toggle_ne state.sortOrder, rfl⟩

theorem page_reset_on_query_change_witness :
    ∃ next, runEffect asciiLower codePointCompare false mixedState
        (handleSort "bmi" mixedState) = .ok next
      ∧ next.sortBy = "bmi" ∧ next.currentPage = 1 :=
  (page_reset_on_query_change asciiLower codePointCompare mixedState).2.2.2.1 "bmi"
    (Or.inl rfl) (by decide)


end HealthAnalyzer
